import Mathlib

/-!
# AIRO core backend: reward distribution and balance mutation

A shallow embedding of the reward distribution pass and its scheduler
(`services/rewards.js`), the scorers (`helpers/health.js`, `utils/fixed.js`),
the two balance mutating routes `withdrawAIRO` / `topUpAIRO`
(`routes/miners/miners.js`), the reward period routes
(`routes/rewards/rewards.js`), the send path (`services/multiversx.js`), the
two `createMiner` functions and the metric settings route.

Conventions of the embedding.

* A JavaScript number that the code computes with is a rational number: the
  arithmetic is exact, binary floating point rounding is not modelled.  The
  decimal rounding the code asks for explicitly (`toFixed`, `Math.round`) is
  modelled exactly, a tie going to the larger magnitude.  The doubles of the
  code can lie just beside an exact tie and send it to the other neighbour, so
  a statement about a value rounded by `toFixed` describes it as a multiple of
  the last decimal at most half a unit away from the exact value (`RoundedTo`),
  which holds of either neighbour.
* A collection of the store is a list of documents in insertion order.  `_id`
  is the primary key of a collection: a query that fixes `_id` selects the
  first document carrying it and tests the remaining conditions on that
  document.  The store modelled is the default `nedb` backend.
* The bookkeeping fields `timestampUpdated` / `timestampCreated` and the
  descriptive miner fields (`name`, `model`, `connectDate`) are left out.
* An operation that suspends at an `await` is split into the parts that run
  before and after the suspension; running the parts back to back is the
  operation executed alone.  The callbacks that `Promise.all` starts in
  `rewardDistribution` read and write one miner each, all different, and are
  run in the order of the list.
* The ledger is an oracle: the answer of `getTransaction` for a hash and the
  value `multiversxSend` returns for a transfer.
-/

namespace Airo

/-! ## Numbers -/

/-- `Math.round`: the nearest integer, a tie going towards `+∞`. -/
def mathRound (x : ℚ) : ℤ := ⌊x + 1 / 2⌋

/-- `utils/fixed.js`: `+value.toFixed(precision)`.  `toFixed` prints the sign
and then the decimal expansion of the integer `n` for which `n / 10^precision`
is nearest to `|value|` (the larger `n` on a tie); from `10^21` on it prints the
number itself.  The unary plus reads the string back. -/
def fixed (value : ℚ) (precision : ℕ) : ℚ :=
  if value ≤ -(10 ^ 21) ∨ 10 ^ 21 ≤ value then value
  else if value < 0 then -((⌊-value * 10 ^ precision + 1 / 2⌋ : ℤ) : ℚ) / 10 ^ precision
  else ((⌊value * 10 ^ precision + 1 / 2⌋ : ℤ) : ℚ) / 10 ^ precision

/-- `helpers/health.js`: `getHealth`. -/
def getHealth (totalRewards currentAIRO : ℚ) : ℚ :=
  if totalRewards = 0 then 100
  else
    let bagBalance := min totalRewards currentAIRO
    let bagBalanceRatio := bagBalance / totalRewards
    let health := 50 * bagBalanceRatio + 50
    health

/-- `services/rewards.js`: `assignReward`.  The default values of `ageRate` and
`reward` apply to `undefined` only, which a number never is. -/
def assignReward (uptimeRate ageRate healthRate reward : ℚ) : ℚ :=
  fixed (uptimeRate * ((ageRate + healthRate) / 200) * reward) 5

/-- `services/rewards.js`: `findCoefficient`. -/
def findCoefficient (current total : ℚ) : ℚ :=
  let currentCoeff := current / total
  (mathRound (currentCoeff * 10) : ℚ) / 10

/-- The result of the unary plus on a request field: a finite number, `NaN`
or one of the infinities. -/
inductive JSNumber where
  | finite (q : ℚ)
  | nan
  | posInf
  | negInf
deriving DecidableEq, Repr

namespace JSNumber

/-- `Number.isFinite`. -/
def isFinite : JSNumber → Bool
  | finite _ => true
  | _ => false

/-- The comparison `c < x` of a finite number `c` with `x`. -/
def gtFinite (x : JSNumber) (c : ℚ) : Bool :=
  match x with
  | finite q => decide (c < q)
  | nan => false
  | posInf => true
  | negInf => false

/-- The comparison `x <= c` of `x` with a finite number `c`. -/
def leFinite (x : JSNumber) (c : ℚ) : Bool :=
  match x with
  | finite q => decide (q ≤ c)
  | nan => false
  | posInf => false
  | negInf => true

/-- The finite value used in arithmetic once `isFinite` has been checked. -/
def toRat : JSNumber → ℚ
  | finite q => q
  | _ => 0

end JSNumber

/-! ## Configuration (`config/config.js`, `config/env.js`) -/

/-- The constants read from the environment.  `parseInt(..) || default` is a
non-zero integer; `TOKEN_ID` is `env.MULTIVERSX_TOKEN_ID_HEX || null`. -/
structure Config where
  PERIOD_REWARD : ℤ
  COUNT_PERIOD_METRICS : ℤ
  COUNT_PERIOD_REWARD : ℤ
  TOKEN_ID : Option String

/-- The defaults of `config/config.js` with no token configured. -/
def Config.default : Config :=
  { PERIOD_REWARD := 600, COUNT_PERIOD_METRICS := 120, COUNT_PERIOD_REWARD := 5,
    TOKEN_ID := none }

/-! ## Documents and store -/

/-- A document of `minersDb`. -/
structure Miner where
  _id : String
  serialId : Option String
  userId : Option String
  ageRate : ℚ
  currentAIRO : ℚ
  totalRewards : ℚ
  wallet : Option String
deriving DecidableEq, Repr

/-- A document of `metricsDb` (the fields the core reads). -/
structure Metric where
  minerId : String
  timestampCreated : ℚ
  state : String
  hasUser : Bool
deriving DecidableEq, Repr

/-- A document of `rewardsDb`. -/
structure RewardPeriod where
  _id : String
  total : ℚ
  weeklyReward : ℚ
  totalWeeks : ℚ
  weeksLeft : ℚ
  startDate : ℚ
  endDate : ℚ
  startWeek : ℚ
  endWeek : ℚ
deriving DecidableEq, Repr

/-- A document of `keysDb`. -/
structure Key where
  type : String
  keyName : String
deriving DecidableEq, Repr

/-- The fields a REWARD record carries besides the common ones. -/
structure RewardInfo where
  ageRate : ℚ
  uptimeRate : ℚ
  metricCount : ℚ
  health : ℚ
  reward : ℚ
  activeMiners : ℕ
  rewardForOneMiner : ℚ
deriving DecidableEq, Repr

/-- A document of `transactionHistoryDb`.  A field a record does not carry is
`none`. -/
structure Transaction where
  userId : Option String
  value : ℚ
  type : String
  minerId : String
  status : String
  reason : Option String
  txHash : Option String
  from_ : Option String
  to_ : Option String
  rewardInfo : Option RewardInfo
deriving DecidableEq, Repr

/-- The collections of the store. -/
structure Store where
  miners : List Miner
  metrics : List Metric
  rewards : List RewardPeriod
  keys : List Key
  transactions : List Transaction
deriving DecidableEq, Repr

/-- Replace the first element satisfying `p` by its image under `f`; the
number returned is the number of documents updated (`0` or `1`). -/
def updateFirst {α : Type} (p : α → Bool) (f : α → α) : List α → List α × ℕ
  | [] => ([], 0)
  | a :: l =>
    if p a then (f a :: l, 1)
    else ((updateFirst p f l).1.cons a, (updateFirst p f l).2)

/-- The document of `minersDb` with the given `_id`. -/
def Store.minerById (s : Store) (id : String) : Option Miner :=
  s.miners.find? (fun m => m._id == id)

/-- `models.setMinerFields(id, data)`: `updateOne({ _id: id }, { $set: data })`,
`upd` being the effect of the `$set` on a document. -/
def setMinerFields (s : Store) (id : String) (upd : Miner → Miner) : Store × ℕ :=
  let r := updateFirst (fun m => m._id == id) upd s.miners
  ({ s with miners := r.1 }, r.2)

/-- `models.setRewardFields(id, data)`. -/
def setRewardFields (s : Store) (id : String) (upd : RewardPeriod → RewardPeriod) : Store × ℕ :=
  let r := updateFirst (fun p => p._id == id) upd s.rewards
  ({ s with rewards := r.1 }, r.2)

/-- `models.createTransaction(data)`: the record is appended. -/
def createTransaction (s : Store) (t : Transaction) : Store :=
  { s with transactions := s.transactions ++ [t] }

/-! ## Reward distribution (`services/rewards.js`, `helpers/miners.js`) -/

/-- The elements of a list without repetition, in the order of their first
occurrence: `[...new Set(xs)]`. -/
def uniq (xs : List String) : List String :=
  (xs.reverse.dedup).reverse

/-- `helpers/miners.js`: `getTotalMiners(lastFetched = null)`.  `now` is
`moment().unix()`; `lastFetched || ..` takes the default for `null` and `0`. -/
def getTotalMiners (cfg : Config) (now : ℚ) (s : Store) (lastFetched : Option ℚ) : List String :=
  let since : ℚ :=
    match lastFetched with
    | some t => if t = 0 then now - cfg.PERIOD_REWARD else t
    | none => now - cfg.PERIOD_REWARD
  let metrics := s.metrics.filter
    (fun m => decide (since ≤ m.timestampCreated) && m.state == "ready" && m.hasUser)
  uniq (metrics.map (fun miner => miner.minerId))

/-- The conditions of the miner query besides `_id`:
`ageRate: { $gt: 0 }`, `userId: { $ne: null }`, `userId: { $ne: '' }`. -/
def Miner.eligible (m : Miner) : Bool :=
  decide (0 < m.ageRate) &&
    (match m.userId with
     | some u => u != ""
     | none => false)

/-- The query
`minersDb.findOne({ _id: minerId, ageRate: { $gt: 0 }, $and: [..userId..] })`. -/
def findEligibleMiner (s : Store) (minerId : String) : Option Miner :=
  (s.minerById minerId).filter Miner.eligible

/-- The query of `rewardDistribution` for the active period:
`startDate <= now`, `endDate >= now`, `weeksLeft > 0`. -/
def findActiveReward (s : Store) (now : ℚ) : Option RewardPeriod :=
  s.rewards.find? (fun r => decide (r.startDate ≤ now) && decide (now ≤ r.endDate)
    && decide (0 < r.weeksLeft))

/-- The count of `rewardDistribution`:
`metricsDb.count({ minerId, timestampCreated: { $gt: startWeek }, state: 'ready' })`. -/
def countMetrics (s : Store) (minerId : String) (startWeek : ℚ) : ℕ :=
  s.metrics.countP
    (fun m => m.minerId == minerId && decide (startWeek < m.timestampCreated) && m.state == "ready")

/-- The first pass of `rewardDistribution`: the number of candidates for which
the miner query finds a document. -/
def countActiveMiners (s : Store) (totalMiners : List String) : ℕ :=
  totalMiners.countP (fun minerId => (findEligibleMiner s minerId).isSome)

/-- What the callback of the second pass holds when it reaches
`setMinerFields`: the miner it read and the values computed from it. -/
structure RewardUpdate where
  minerId : String
  miner : Miner
  metricCount : ℕ
  health : ℚ
  uptimeRate : ℚ
  rewardForOneMiner : ℚ
  currentReward : ℚ
deriving DecidableEq, Repr

/-- The reading half of the callback of the second pass (the query for the
miner, the metric count and the arithmetic up to `currentReward`). -/
def rewardCompute (cfg : Config) (reward : RewardPeriod) (totalMinersCount : ℕ)
    (s : Store) (minerId : String) : Option RewardUpdate :=
  match findEligibleMiner s minerId with
  | none => none
  | some miner =>
    let metricCount := countMetrics s minerId reward.startWeek
    let health := getHealth miner.totalRewards miner.currentAIRO
    let uptimeRate := findCoefficient metricCount cfg.COUNT_PERIOD_REWARD
    let rewardForOneMiner := reward.weeklyReward / totalMinersCount
    let currentReward := assignReward uptimeRate miner.ageRate health rewardForOneMiner
    some { minerId := minerId, miner := miner, metricCount := metricCount, health := health,
           uptimeRate := uptimeRate, rewardForOneMiner := rewardForOneMiner,
           currentReward := currentReward }

/-- The REWARD record of the second pass. -/
def rewardRecord (cfg : Config) (reward : RewardPeriod) (totalMinersCount : ℕ)
    (u : RewardUpdate) : Transaction :=
  { userId := u.miner.userId
    status := "success"
    value := u.currentReward
    type := "REWARD"
    minerId := u.minerId
    reason := none
    txHash := none
    from_ := none
    to_ := none
    rewardInfo := some
      { ageRate := u.miner.ageRate
        uptimeRate := u.uptimeRate
        metricCount := u.metricCount * cfg.COUNT_PERIOD_METRICS
        health := u.health
        reward := reward.weeklyReward
        activeMiners := totalMinersCount
        rewardForOneMiner := u.rewardForOneMiner } }

/-- The writing half of the callback of the second pass: `setMinerFields` and,
for a non-zero reward, `createTransaction`. -/
def rewardApply (cfg : Config) (reward : RewardPeriod) (totalMinersCount : ℕ)
    (s : Store) (u : RewardUpdate) : Store :=
  let s1 := (setMinerFields s u.minerId (fun m =>
    { m with
      currentAIRO := fixed (u.miner.currentAIRO + u.currentReward) 6
      totalRewards := fixed (u.miner.totalRewards + u.currentReward) 6
      ageRate := u.miner.ageRate - u.uptimeRate })).1
  if u.currentReward ≠ 0 then createTransaction s1 (rewardRecord cfg reward totalMinersCount u)
  else s1

/-- One callback of the second pass.  `interfere` is what other requests do to
the store while the callback is suspended between its reads and its write. -/
def distributeOne (interfere : String → Store → Store) (cfg : Config) (reward : RewardPeriod)
    (totalMinersCount : ℕ) (s : Store) (minerId : String) : Store :=
  match rewardCompute cfg reward totalMinersCount s minerId with
  | none => s
  | some u => rewardApply cfg reward totalMinersCount (interfere minerId s) u

/-- `rewardDistribution` run at time `now`, with `interfere` acting at the
suspension of each callback.  The callbacks of `Promise.all` read and write
one miner each, a different one for each callback, and are run here in the
order of the candidate list. -/
def rewardDistributionWith (interfere : String → Store → Store) (cfg : Config) (now : ℚ)
    (s : Store) : Store :=
  match findActiveReward s now with
  | none => s
  | some reward =>
    let totalMiners := getTotalMiners cfg now s none
    let totalMinersCount := countActiveMiners s totalMiners
    let s2 := totalMiners.foldl (distributeOne interfere cfg reward totalMinersCount) s
    (setRewardFields s2 reward._id (fun r =>
      { r with
        startWeek := reward.endWeek
        endWeek := reward.endWeek + cfg.PERIOD_REWARD
        weeksLeft := reward.weeksLeft - 1 })).1

/-- `rewardDistribution` executed with no other request running. -/
def rewardDistribution (cfg : Config) (now : ℚ) (s : Store) : Store :=
  rewardDistributionWith (fun _ st => st) cfg now s

/-! ## Balance mutation (`routes/miners/miners.js`, `services/multiversx.js`) -/

/-- A value of a JSON field that is compared with `!==`: absent, `null` or a
string. -/
inductive Field where
  | undefined
  | null
  | str (s : String)
deriving DecidableEq, Repr

/-- The configured token identifier as a value: `null` when none is set. -/
def Config.tokenField (cfg : Config) : Field :=
  match cfg.TOKEN_ID with
  | some t => Field.str t
  | none => Field.null

/-- An entry of `transaction.data.operations`. -/
structure Operation where
  identifier : Field
  value : ℚ
  decimals : ℕ
deriving DecidableEq, Repr

/-- The `data` of the answer of `getTransaction`. -/
structure LedgerTx where
  txHash : String
  status : String
  sender : String
  receiver : String
  operations : List Operation
deriving DecidableEq, Repr

/-- The values `multiversxSend` returns. -/
inductive SendResult where
  | ok
  | walletNotFound
  | insufficientBalance
  | tooManyRequests
  | transactionError
deriving DecidableEq, Repr

/-- The `error` field of the value `multiversxSend` returns. -/
def SendResult.error : SendResult → Option String
  | ok => none
  | walletNotFound => some "Sender wallet account in multiversx not found"
  | insufficientBalance => some "Insufficient balance in sender wallet"
  | tooManyRequests => some "Too many withdraws requests in short period of time for one miner"
  | transactionError => some "Error while doing multiversx transaction"

/-- Truthiness of a string-valued field: set and not empty. -/
def truthy : Option String → Bool
  | some x => x != ""
  | none => false

/-- The external ledger as the core sees it: the answer of `getTransaction(hash)`
and the value of `multiversxSend(from, to, amount)`. -/
structure Ledger where
  getTransaction : String → Option LedgerTx
  send : Key → String → ℚ → SendResult

/-- The answer given to a request: `res.status(..).json({ message })`, or an
exception that `handler` passes on. -/
inductive Response where
  | json (status : ℕ) (message : String)
  | thrown
deriving DecidableEq, Repr

/-- What an operation does to the outside, in the order in which it does it. -/
inductive Effect where
  | ledgerSend (src : Key) (dst : String) (amount : ℚ)
  | transactionWritten (t : Transaction)
  | balanceSet (id : String) (currentAIRO : ℚ)
deriving DecidableEq, Repr

/-- The result of running a request: the store it leaves, the answer, and the
effects in order. -/
structure Outcome where
  store : Store
  response : Response
  effects : List Effect
deriving DecidableEq, Repr

/-- The miner query of both routes, `{ $and: [{ _id: id }, { userId }] }`: the
routes are mounted behind `requireClientAuth`, which sets `role` to `'user'`. -/
def findMinerOfUser (s : Store) (id userId : String) : Option Miner :=
  (s.minerById id).filter (fun m => m.userId == some userId)

/-- The query `keysDb.findOne({ type: 'reward' })`. -/
def findRewardKey (s : Store) : Option Key :=
  s.keys.find? (fun k => k.type == "reward")

/-- The request of `withdrawAIRO`: `req.user.id`, `req.params.id` and
`+req.body.withdraw`. -/
structure WithdrawRequest where
  userId : String
  id : String
  withdraw : JSNumber
deriving DecidableEq, Repr

/-- What `withdrawAIRO` holds when it asks for the mutex. -/
structure WithdrawContext where
  currentMiner : Miner
  withdrawNum : JSNumber
  from_ : Key
deriving DecidableEq, Repr

/-- The part of `withdrawAIRO` before `mutexWithdraw.runExclusive`. -/
def withdrawPrepare (s : Store) (req : WithdrawRequest) : Except Response WithdrawContext :=
  match findMinerOfUser s req.id req.userId with
  | none => Except.error (Response.json 404 "Miner not exist")
  | some currentMiner =>
    if !truthy currentMiner.wallet then
      Except.error (Response.json 400 "Wallet not connected to miner")
    else
      let withdrawNum := req.withdraw
      match findRewardKey s with
      | none => Except.error (Response.json 404 "Our wallet not available now, try later")
      | some key => Except.ok { currentMiner := currentMiner, withdrawNum := withdrawNum, from_ := key }

/-- The WITHDRAW record of `withdrawAIRO`. -/
def withdrawRecord (req : WithdrawRequest) (ctx : WithdrawContext) (status : String)
    (reason : Option String) : Transaction :=
  { userId := some req.userId
    value := ctx.withdrawNum.toRat
    type := "WITHDRAW"
    minerId := req.id
    from_ := some ctx.from_.keyName
    to_ := ctx.currentMiner.wallet
    status := status
    reason := reason
    txHash := none
    rewardInfo := none }

/-- The callback `withdrawAIRO` runs under `mutexWithdraw`, on the store as it
is when the mutex is granted. -/
def withdrawCritical (ledger : Ledger) (s : Store) (req : WithdrawRequest)
    (ctx : WithdrawContext) : Outcome :=
  if !ctx.withdrawNum.isFinite || ctx.withdrawNum.gtFinite ctx.currentMiner.currentAIRO
      || ctx.withdrawNum.leFinite 0 then
    { store := s, response := Response.json 404 "Invalid withdrawal sum", effects := [] }
  else
    let amount := ctx.withdrawNum.toRat
    let dst := ctx.currentMiner.wallet.getD ""
    let send := ledger.send ctx.from_ dst amount
    if truthy send.error then
      let reason := send.error.getD "Multiversx send failed"
      let t := withdrawRecord req ctx "error" (some reason)
      { store := createTransaction s t
        response := Response.json 404 reason
        effects := [Effect.ledgerSend ctx.from_ dst amount, Effect.transactionWritten t] }
    else
      let t := withdrawRecord req ctx "success" none
      let s1 := createTransaction s t
      let afterChange := ctx.currentMiner.currentAIRO - amount
      let r := setMinerFields s1 req.id (fun m => { m with currentAIRO := afterChange })
      let effects := [Effect.ledgerSend ctx.from_ dst amount, Effect.transactionWritten t,
        Effect.balanceSet req.id afterChange]
      if r.2 = 0 then
        { store := r.1, response := Response.json 404 "Update failed", effects := effects }
      else
        { store := r.1, response := Response.json 200 "OK", effects := effects }

/-- `withdrawAIRO` executed with no other request running. -/
def withdrawAIRO (ledger : Ledger) (s : Store) (req : WithdrawRequest) : Outcome :=
  match withdrawPrepare s req with
  | Except.error r => { store := s, response := r, effects := [] }
  | Except.ok ctx => withdrawCritical ledger s req ctx

/-- The request of `topUpAIRO`: `req.user.id`, `req.params.id`, `req.body.hash`. -/
structure TopUpRequest where
  userId : String
  id : String
  hash : String
deriving DecidableEq, Repr

/-- What `topUpAIRO` holds when it asks for the mutex. -/
structure TopUpContext where
  currentMiner : Miner
  transaction : LedgerTx
  airoValue : ℚ
  denomination : ℚ
  afterChange : ℚ
deriving DecidableEq, Repr

/-- The part of `topUpAIRO` before `mutexTopUp.runExclusive`. -/
def topUpPrepare (cfg : Config) (ledger : Ledger) (s : Store) (req : TopUpRequest) :
    Except Response TopUpContext :=
  match findMinerOfUser s req.id req.userId with
  | none => Except.error (Response.json 404 "Miner does not exist")
  | some currentMiner =>
    if !truthy currentMiner.wallet then
      Except.error (Response.json 400 "Wallet not connected to miner")
    else
      match ledger.getTransaction req.hash with
      | none => Except.error (Response.json 404 "Transaction not found")
      | some transaction =>
        if transaction.status != "success" then
          Except.error (Response.json 404 "Transaction status not success")
        else
          match findRewardKey s with
          | none => Except.error Response.thrown
          | some reward =>
            if transaction.receiver != reward.keyName then
              Except.error (Response.json 400 "Receiver is not the main wallet")
            else if some transaction.sender != currentMiner.wallet then
              Except.error (Response.json 400 "Sender is not connected to miner wallet")
            else
              match transaction.operations.head? with
              | none =>
                Except.error (Response.json 400 "Only AIRO credits accepted for steam miner")
              | some transactionAIRO =>
                if transactionAIRO.identifier != cfg.tokenField then
                  Except.error (Response.json 400 "Only AIRO credits accepted for steam miner")
                else
                  let denomination : ℚ := 10 ^ transactionAIRO.decimals
                  let airoValue := transactionAIRO.value
                  let afterChange := fixed (currentMiner.currentAIRO + airoValue / denomination) 6
                  Except.ok { currentMiner := currentMiner, transaction := transaction,
                              airoValue := airoValue, denomination := denomination,
                              afterChange := afterChange }

/-- The TOP-UP record of `topUpAIRO`. -/
def topUpRecord (req : TopUpRequest) (ctx : TopUpContext) : Transaction :=
  { userId := some req.userId
    txHash := some ctx.transaction.txHash
    status := ctx.transaction.status
    from_ := some ctx.transaction.sender
    to_ := some ctx.transaction.receiver
    value := ctx.airoValue / ctx.denomination
    type := "TOP-UP"
    minerId := req.id
    reason := none
    rewardInfo := none }

/-- The query
`transactionHistoryDb.findOne({ txHash: transaction.data.txHash, type: 'TOP-UP' })`. -/
def findTopUpHistory (s : Store) (txHash : String) : Option Transaction :=
  s.transactions.find? (fun t => t.txHash == some txHash && t.type == "TOP-UP")

/-- The callback `topUpAIRO` runs under `mutexTopUp`, on the store as it is
when the mutex is granted. -/
def topUpCritical (s : Store) (req : TopUpRequest) (ctx : TopUpContext) : Outcome :=
  match findTopUpHistory s ctx.transaction.txHash with
  | some _ => { store := s, response := Response.json 400 "Hash already used", effects := [] }
  | none =>
    let written :=
      if ctx.airoValue / ctx.denomination ≠ 0 then [Effect.transactionWritten (topUpRecord req ctx)]
      else []
    let s1 :=
      if ctx.airoValue / ctx.denomination ≠ 0 then createTransaction s (topUpRecord req ctx)
      else s
    let r := setMinerFields s1 req.id (fun m => { m with currentAIRO := ctx.afterChange })
    let effects := written ++ [Effect.balanceSet req.id ctx.afterChange]
    if r.2 = 0 then
      { store := r.1, response := Response.json 404 "Update failed", effects := effects }
    else
      { store := r.1, response := Response.json 200 "OK", effects := effects }

/-- `topUpAIRO` executed with no other request running. -/
def topUpAIRO (cfg : Config) (ledger : Ledger) (s : Store) (req : TopUpRequest) : Outcome :=
  match topUpPrepare cfg ledger s req with
  | Except.error r => { store := s, response := r, effects := [] }
  | Except.ok ctx => topUpCritical s req ctx

/-- The count of `findUptimeAndWeeklyReward`:
`metricsDb.count({ minerId, timestampCreated: { $gte: reward.startWeek }, state: 'ready' })`. -/
def uptimeMetricCount (s : Store) (minerId : String) (startWeek : ℚ) : ℕ :=
  s.metrics.countP
    (fun m => m.minerId == minerId && decide (startWeek ≤ m.timestampCreated) && m.state == "ready")

/-! ## Reward periods (`routes/rewards/rewards.js`, `routes/rewards/validation.js`) -/

/-- The fields the handlers read from `req.body`, as numbers. -/
structure RewardBody where
  total : ℚ
  totalWeeks : ℚ
  startDate : ℚ
deriving DecidableEq, Repr

/-- `validateRewardCreation` on a body whose `totalWeeks` and `total` are
numbers: the messages of the failed tests `positive` and `min(1)` of each
field. -/
def validateRewardCreation (body : RewardBody) : List String :=
  (if 0 < body.totalWeeks then [] else ["Number of weeks left must be a positive value"])
  ++ (if 1 ≤ body.totalWeeks then [] else ["Total weeks must be greater than or equal to 1"])
  ++ (if 0 < body.total then [] else ["Total sum must be a positive value"])
  ++ (if 1 ≤ body.total then []
      else ["Total Airo credits in the current period must be greater than or equal to 1"])

/-- The value of `calculateRewardElements`. -/
structure RewardElements where
  endDate : ℚ
  weeklyReward : ℚ
  nextRewardDate : ℚ
deriving DecidableEq, Repr

/-- `routes/rewards/rewards.js`: `calculateRewardElements`. -/
def calculateRewardElements (cfg : Config) (startDate total totalWeeks : ℚ) : RewardElements :=
  let weeklyReward := fixed (total / totalWeeks) 6
  let nextRewardDate := startDate + cfg.PERIOD_REWARD
  let endDate := startDate + cfg.PERIOD_REWARD * totalWeeks
  { endDate := endDate, weeklyReward := weeklyReward, nextRewardDate := nextRewardDate }

/-- The answer of a reward route: a status with a message (`{ message }`,
`{ error }` or `{ errors }`), or a status with a reward document. -/
inductive RewardReply where
  | message (status : ℕ) (text : String)
  | document (status : ℕ) (reward : RewardPeriod)
  | missing (status : ℕ)
deriving DecidableEq, Repr

/-- The result of a reward route: the store it leaves, the answer, and whether
`eventRewards.emit('assigned')` ran. -/
structure RewardOutcome where
  store : Store
  reply : RewardReply
  assigned : Bool
deriving DecidableEq, Repr

/-- `routes/rewards/rewards.js`: `createNewReward`; `newId` is the `uuidV4()` of
`createReward`. -/
def createNewReward (cfg : Config) (s : Store) (body : RewardBody) (newId : String) :
    RewardOutcome :=
  let errors := validateRewardCreation body
  if errors.length ≠ 0 then
    { store := s, reply := RewardReply.message 400 (", ".intercalate errors), assigned := false }
  else
    let el := calculateRewardElements cfg body.startDate body.total body.totalWeeks
    let countCurrent := s.rewards.countP (fun r => decide (0 ≤ r.weeksLeft))
    if countCurrent > 0 then
      { store := s, reply := RewardReply.message 400 "Only one working reward period can exist",
        assigned := false }
    else
      let reward : RewardPeriod :=
        { _id := newId
          total := body.total
          weeklyReward := el.weeklyReward
          totalWeeks := body.totalWeeks
          weeksLeft := body.totalWeeks
          startWeek := body.startDate
          endWeek := el.nextRewardDate
          startDate := body.startDate
          endDate := el.endDate }
      { store := { s with rewards := s.rewards ++ [reward] },
        reply := RewardReply.document 200 reward, assigned := false }

/-- `routes/rewards/rewards.js`: `updateRewardRoute`.  `updateReward` replaces
the document that carries the `_id`, which it keeps. -/
def updateRewardRoute (cfg : Config) (s : Store) (id : String) (body : RewardBody) :
    RewardOutcome :=
  let errors := validateRewardCreation body
  if errors.length ≠ 0 then
    { store := s, reply := RewardReply.message 400 (", ".intercalate errors), assigned := false }
  else
    let el := calculateRewardElements cfg body.startDate body.total body.totalWeeks
    let r := updateFirst (fun p : RewardPeriod => p._id == id) (fun p =>
      { _id := p._id
        total := body.total
        weeklyReward := el.weeklyReward
        weeksLeft := body.totalWeeks
        startDate := body.startDate
        startWeek := body.startDate
        endWeek := el.nextRewardDate
        endDate := el.endDate
        totalWeeks := body.totalWeeks }) s.rewards
    if r.2 = 0 then
      { store := s, reply := RewardReply.message 404 "Update failed", assigned := false }
    else
      let s1 : Store := { s with rewards := r.1 }
      match s1.rewards.find? (fun p => p._id == id) with
      | some item => { store := s1, reply := RewardReply.document 200 item, assigned := true }
      | none => { store := s1, reply := RewardReply.missing 200, assigned := true }

/-- `routes/rewards/rewards.js`: `deleteReward`:
`rewardsDb.remove({ _id: id }, { multi: false })`. -/
def deleteReward (s : Store) (id : String) : RewardOutcome :=
  match s.rewards.find? (fun p => p._id == id) with
  | none => { store := s, reply := RewardReply.message 404 "Remove failed", assigned := false }
  | some _ =>
    { store := { s with rewards := s.rewards.eraseP (fun p => p._id == id) },
      reply := RewardReply.message 200 "OK", assigned := true }

/-! ## The uptime view (`services/rewards.js`) -/

/-- The quotient `a / n` of a number by a count in floating point: for `n = 0`
it is `NaN` when `a = 0` and the infinity of the sign of `a` otherwise. -/
def JSNumber.divCount (a : ℚ) (n : ℕ) : JSNumber :=
  if n = 0 then
    if a = 0 then JSNumber.nan else if 0 < a then JSNumber.posInf else JSNumber.negInf
  else JSNumber.finite (a / n)

/-- The product `x * n` with a count: an infinity times `0` is `NaN`. -/
def JSNumber.mulCount (x : JSNumber) (n : ℕ) : JSNumber :=
  match x with
  | JSNumber.finite q => JSNumber.finite (q * n)
  | JSNumber.nan => JSNumber.nan
  | JSNumber.posInf => if n = 0 then JSNumber.nan else JSNumber.posInf
  | JSNumber.negInf => if n = 0 then JSNumber.nan else JSNumber.negInf

/-- `utils/fixed.js` on a value that need not be finite: `toFixed` prints `NaN`
and the infinities by name and the unary plus reads them back. -/
def fixedNumber (value : JSNumber) (precision : ℕ) : JSNumber :=
  match value with
  | JSNumber.finite q => JSNumber.finite (fixed q precision)
  | JSNumber.nan => JSNumber.nan
  | JSNumber.posInf => JSNumber.posInf
  | JSNumber.negInf => JSNumber.negInf

/-- The second miner query of `findUptimeAndWeeklyReward`:
`minersDb.findOne({ _id: minerId, userId, ageRate: { $gt: 0 }, $and: [..userId..] })`. -/
def findEligibleMinerOfUser (s : Store) (minerId userId : String) : Option Miner :=
  (s.minerById minerId).filter (fun m => m.userId == some userId && m.eligible)

/-- The object `findUptimeAndWeeklyReward` returns. -/
structure UptimeAndWeeklyReward where
  uptime : ℕ
  weeklyReward : JSNumber
deriving DecidableEq, Repr

/-- `services/rewards.js`: `findUptimeAndWeeklyReward(userId)` at time `now`;
`none` is the `null` returned when no period is active.  `fixed` is called
with its default precision `2`. -/
def findUptimeAndWeeklyReward (cfg : Config) (now : ℚ) (s : Store) (userId : String) :
    Option UptimeAndWeeklyReward :=
  match findActiveReward s now with
  | none => none
  | some reward =>
    let totalMiners := getTotalMiners cfg now s (some reward.startWeek)
    let totalMinersCount := countActiveMiners s totalMiners
    let userMiners := totalMiners.filter
      (fun minerId => (findEligibleMinerOfUser s minerId userId).isSome)
    let uptimeInMinutes :=
      (userMiners.map (fun minerId => uptimeMetricCount s minerId reward.startWeek * 2)).sum
    let userMinersCount := userMiners.length
    some
      { uptime := uptimeInMinutes
        weeklyReward := fixedNumber
          (JSNumber.mulCount
            (if totalMiners.length ≠ 0 then JSNumber.divCount reward.weeklyReward totalMinersCount
             else JSNumber.finite 0)
            userMinersCount) 2 }

/-! ## The send path (`services/multiversx.js`) -/

/-- What the ledger API, the signer and the signature cache do during one call
of `multiversxSend`. -/
structure SendWorld where
  -- `getAccount` answers with the data of the sender's account
  accountFound : Bool
  -- the value of `getBalance`: a number, or `null`
  balance : Option ℚ
  -- reading the nonce, building the signer or signing throws
  signingThrows : Bool
  -- `signatureCache.has(sendable?.signature)`
  signatureCached : Bool
  -- the ledger API accepts the POST of the signed transaction
  postAccepted : Bool
deriving DecidableEq, Repr

/-- `services/multiversx.js`: `sendTransaction`: the response of the POST, or
the `undefined` of `.catch((err) => console.log(err))` when the POST fails. -/
def sendTransaction (w : SendWorld) : Option Unit :=
  if w.postAccepted then some () else none

/-- `services/multiversx.js`: `sendTransfer(signer, nonce)(from, to, amount)`:
an exception from signing, `false` for a cached signature, and otherwise
`await sendTransaction(..); return true`. -/
def sendTransfer (w : SendWorld) : Except Unit Bool :=
  if w.signingThrows then Except.error ()
  else if w.signatureCached then Except.ok false
  else
    match sendTransaction w with
    | some _ => Except.ok true
    | none => Except.ok true

/-- `services/multiversx.js`: `multiversxSend(from, to, amount)`.  In
`balance < amount` a `null` balance counts as `0`. -/
def multiversxSend (w : SendWorld) (amount : ℚ) : SendResult :=
  if !w.accountFound then SendResult.walletNotFound
  else if (w.balance.getD 0) < amount then SendResult.insufficientBalance
  else
    match sendTransfer w with
    | Except.error _ => SendResult.transactionError
    | Except.ok result => if result then SendResult.ok else SendResult.tooManyRequests

/-! ## Creation of a miner (`models/nedb/miners.js`, `models/mongodb/miners.js`) -/

/-- The fields of a miner document as `createMiner` receives and builds them; a
field that is not set is `none`. -/
structure MinerDocument where
  _id : Option String
  serialId : Option String
  name : Option String
  userId : Option String
  currentAIRO : ℚ
  ageRate : ℚ
  totalRewards : ℚ
deriving DecidableEq, Repr

/-- `models/nedb/miners.js`: the document `createMiner(data)` inserts,
`{ ...data, _id: uuidV4(), .. }`; `uuid` is the value of `uuidV4()`. -/
def nedb.createMiner (data : MinerDocument) (uuid : String) : MinerDocument :=
  { data with _id := some uuid }

/-- `models/mongodb/miners.js`: the document `createMiner(data)` builds and
saves, `new MinerModel({ ...data, serialId: uuidV4(), .. })`. -/
def mongodb.createMiner (data : MinerDocument) (uuid : String) : MinerDocument :=
  { data with serialId := some uuid }

/-- The lookup `minersDb.findOne({ serialId })` of `services/mqtt-connect.js`. -/
def findBySerialId (miners : List MinerDocument) (serialId : String) : Option MinerDocument :=
  miners.find? (fun m => m.serialId == some serialId)

/-! ## Metric settings (`routes/settings/settings.js`) -/

/-- An entry of the `metrics` array: a string, `undefined`, or a value of any
other kind, which `includes` never identifies with a string or `undefined`. -/
inductive MetricEntry where
  | str (name : String)
  | undefined
  | other (code : ℕ)
deriving DecidableEq, Repr

/-- `routes/settings/settings.js`: `defaultMetrics`. -/
def defaultMetrics : List MetricEntry :=
  [MetricEntry.str "aqi", MetricEntry.str "co2", MetricEntry.str "co"]

/-- The value of `defaultMetrics[i]`: `undefined` past the end. -/
def defaultMetricAt (i : ℕ) : MetricEntry :=
  (defaultMetrics.get? i).getD MetricEntry.undefined

/-- The `while (metrics.length < 3)` loop of `updateMetricSettings`, run for at
most `fuel` iterations; `none` says that the loop was still running then. -/
def padMetrics (fuel : ℕ) (metrics : List MetricEntry) (defaultMetric : ℕ) :
    Option (List MetricEntry) :=
  if metrics.length < 3 then
    match fuel with
    | 0 => none
    | fuel + 1 =>
      if !metrics.contains (defaultMetricAt defaultMetric) then
        padMetrics fuel (metrics ++ [defaultMetricAt defaultMetric]) (defaultMetric + 1)
      else padMetrics fuel metrics (defaultMetric + 1)
  else some metrics

/-- `routes/settings/settings.js`: the value of `metrics` that
`updateMetricSettings` stores and answers with; `body` is `req.body.metrics`
when it is an array and `none` otherwise. -/
def normalisedMetrics (fuel : ℕ) (body : Option (List MetricEntry)) :
    Option (List MetricEntry) :=
  let metrics := match body with
    | some l => l
    | none => defaultMetrics
  let metrics := if metrics.length > 3 then metrics.take 3 else metrics
  padMetrics fuel metrics 0

/-! ## The scheduler (`services/rewards.js`) -/

/-- `services/rewards.js`: `getCurrentRewardPeriod` at time `now`: the active
period, or else a period still to come (`startDate > now`, `endDate > now`,
`weeksLeft > 0`). -/
def getCurrentRewardPeriod (s : Store) (now : ℚ) : Option RewardPeriod :=
  match findActiveReward s now with
  | some reward => some reward
  | none =>
    s.rewards.find? (fun r => decide (now < r.startDate) && decide (now < r.endDate)
      && decide (0 < r.weeksLeft))

/-- `services/rewards.js`: `initial` at time `now`; `!reward?.startWeek` holds
for a `startWeek` of 0. -/
def initial (cfg : Config) (s : Store) (now : ℚ) : Store :=
  match getCurrentRewardPeriod s now with
  | none => s
  | some reward =>
    if reward.startWeek < now ∨ reward.startWeek = 0 then
      (setRewardFields s reward._id (fun r =>
        { r with
          startWeek := now
          endWeek := now + cfg.PERIOD_REWARD
          endDate := now + cfg.PERIOD_REWARD * reward.weeksLeft })).1
    else s

/-- The task that `assignRewardJob` returns: the cron task set at an `endWeek`,
whose callback runs `rewardDistribution` and emits `'assigned'`, or the task
that polls every minute. -/
inductive RewardJob where
  | timer (endWeek : ℚ)
  | poll
deriving DecidableEq, Repr

/-- `services/rewards.js`: `assignRewardJob` at time `now`; in
`reward?.endWeek ? .. : ..` an `endWeek` of 0 counts as absent. -/
def assignRewardJob (s : Store) (now : ℚ) : RewardJob :=
  match getCurrentRewardPeriod s now with
  | some reward => if reward.endWeek ≠ 0 then RewardJob.timer reward.endWeek else RewardJob.poll
  | none => RewardJob.poll

/-- The store together with the task held by `startRewardJob`. -/
structure Scheduler where
  store : Store
  task : RewardJob
deriving DecidableEq, Repr

/-- The listener of `startRewardJob` on `'assigned'`, run at time `now`:
`task.stop(); task = await assignRewardJob()`. -/
def onAssigned (st : Scheduler) (now : ℚ) : Scheduler :=
  { st with task := assignRewardJob st.store now }

/-- `services/rewards.js`: `startRewardJob` at time `now`: `initial`, then the
first `assignRewardJob`. -/
def startRewardJob (cfg : Config) (s : Store) (now : ℚ) : Scheduler :=
  { store := initial cfg s now, task := assignRewardJob (initial cfg s now) now }

/-- What changes the rewards collection or the task, each at a time `now`: the
three routes of `routes/rewards/rewards.js`, the callback of the cron task set
at an `endWeek`, the callback of the polling task, and a start of the process. -/
inductive SchedulerEvent where
  | create (body : RewardBody) (newId : String) (now : ℚ)
  | update (id : String) (body : RewardBody) (now : ℚ)
  | delete (id : String) (now : ℚ)
  | fire (now : ℚ)
  | poll (now : ℚ)
  | start (now : ℚ)

/-- A route has run: the store is the one it leaves, and the listener runs when
the route emitted `'assigned'`. -/
def afterRoute (st : Scheduler) (out : RewardOutcome) (now : ℚ) : Scheduler :=
  if out.assigned then onAssigned { st with store := out.store } now
  else { st with store := out.store }

/-- One event, the requests and callbacks running one at a time.  The cron
task set at `endWeek` runs its callback (`rewardDistribution`, then
`emit('assigned')`) at `endWeek` or, when that moment was missed, later, never
before; the callback of the polling task emits `'assigned'` when
`getCurrentRewardPeriod` finds a period.  A callback of a task that is not the
one held does not run. -/
def SchedulerEvent.run (cfg : Config) (st : Scheduler) : SchedulerEvent → Scheduler
  | SchedulerEvent.create body newId now =>
    afterRoute st (createNewReward cfg st.store body newId) now
  | SchedulerEvent.update id body now =>
    afterRoute st (updateRewardRoute cfg st.store id body) now
  | SchedulerEvent.delete id now =>
    afterRoute st (deleteReward st.store id) now
  | SchedulerEvent.fire now =>
    match st.task with
    | RewardJob.timer endWeek =>
      if endWeek ≤ now then
        onAssigned { st with store := rewardDistribution cfg now st.store } now
      else st
    | RewardJob.poll => st
  | SchedulerEvent.poll now =>
    match st.task with
    | RewardJob.poll =>
      if (getCurrentRewardPeriod st.store now).isSome then onAssigned st now else st
    | RewardJob.timer _ => st
  | SchedulerEvent.start now => startRewardJob cfg st.store now

/-- The state after a sequence of events. -/
def runEvents (cfg : Config) (st : Scheduler) (events : List SchedulerEvent) : Scheduler :=
  events.foldl (SchedulerEvent.run cfg) st

/-! ## Definitions used in the statements and proofs -/

/-- The `$set` of the second pass as a map on the miner document. -/
def RewardUpdate.set (u : RewardUpdate) (m : Miner) : Miner :=
  { m with
    currentAIRO := fixed (u.miner.currentAIRO + u.currentReward) 6
    totalRewards := fixed (u.miner.totalRewards + u.currentReward) 6
    ageRate := u.miner.ageRate - u.uptimeRate }

/-- The records one callback appends. -/
def RewardUpdate.records (cfg : Config) (reward : RewardPeriod) (n : ℕ) (u : RewardUpdate) :
    List Transaction :=
  if u.currentReward ≠ 0 then [rewardRecord cfg reward n u] else []

/-- The miner document `x` after its callback has run on the store `s`. -/
def minerAfter (cfg : Config) (reward : RewardPeriod) (n : ℕ) (s : Store) (x : String) :
    Option Miner :=
  match rewardCompute cfg reward n s x with
  | none => s.minerById x
  | some u => (s.minerById x).map u.set

/-- The records the callback for `x` appends when run on the store `s`. -/
def recordsOf (cfg : Config) (reward : RewardPeriod) (n : ℕ) (s : Store) (x : String) :
    List Transaction :=
  match rewardCompute cfg reward n s x with
  | none => []
  | some u => u.records cfg reward n

/-- Spec §4.3 steps 2 and 3: the number of candidate miners with `ageRate > 0`
and a `userId` that is neither null nor empty. -/
def totalEligible (s : Store) (candidates : List String) : ℕ :=
  (candidates.filter (fun id =>
    match s.minerById id with
    | some m => decide (0 < m.ageRate) && decide (m.userId ≠ none) && decide (m.userId ≠ some "")
    | none => false)).length

/-- Spec §4.3 steps 4b to 4e: the reward of a miner from its metric count. -/
def specReward (cfg : Config) (reward : RewardPeriod) (totalEligible : ℕ) (metricCount : ℕ)
    (miner : Miner) : ℚ :=
  let uptimeRate := findCoefficient metricCount cfg.COUNT_PERIOD_REWARD
  let healthScore := getHealth miner.totalRewards miner.currentAIRO
  let shareForOne := reward.weeklyReward / totalEligible
  fixed (uptimeRate * ((miner.ageRate + healthScore) / 200) * shareForOne) 5

/-- A miner holding a balance with seven decimals. -/
def exMiner : Miner :=
  { _id := "m1", serialId := none, userId := some "u1", ageRate := 100,
    currentAIRO := 4 / 10000000, totalRewards := 0, wallet := some "w1" }

/-- A ready metric of `exMiner` inside the window. -/
def exMetric : Metric :=
  { minerId := "m1", timestampCreated := 100, state := "ready", hasUser := true }

/-- An active period of seven windows of 600 seconds. -/
def exPeriod : RewardPeriod :=
  { _id := "r1", total := 700, weeklyReward := 100, totalWeeks := 7, weeksLeft := 7,
    startDate := 0, endDate := 4200, startWeek := 0, endWeek := 600 }

/-- A store with one miner, one metric and one period. -/
def exStore : Store :=
  { miners := [exMiner], metrics := [exMetric], rewards := [exPeriod], keys := [],
    transactions := [] }

/-- The number `result` is `value` rounded to `precision` decimals: it is at
most half a unit of the last decimal away from `value`, and it is a multiple of
that unit; on a tie both neighbours qualify.  From `10^21` on `toFixed` prints
the number itself, which then is the result. -/
def RoundedTo (precision : ℕ) (value result : ℚ) : Prop :=
  |result - value| ≤ 1 / (2 * 10 ^ precision) ∧
  ((∃ n : ℤ, result = n / 10 ^ precision) ∨ (10 ^ 21 ≤ |value| ∧ result = value))

/-- The key of type `reward`. -/
def exKey : Key := { type := "reward", keyName := "erd1reward" }

/-- A miner of user `u1` with balance 100 and bound wallet `w1`. -/
def bankMiner : Miner :=
  { _id := "m1", serialId := none, userId := some "u1", ageRate := 100,
    currentAIRO := 100, totalRewards := 0, wallet := some "w1" }

/-- A store with `bankMiner`, one ready metric, the period and the reward key. -/
def bankStore : Store :=
  { miners := [bankMiner], metrics := [exMetric], rewards := [exPeriod], keys := [exKey],
    transactions := [] }

/-- A transfer of 4 base units of a 7-decimal asset from `w1`. -/
def txDust : LedgerTx :=
  { txHash := "h0", status := "success", sender := "w1", receiver := "erd1reward",
    operations := [{ identifier := Field.null, value := 4, decimals := 7 }] }

/-- A transfer of value 0 from `w1`. -/
def txZero : LedgerTx :=
  { txHash := "hz", status := "success", sender := "w1", receiver := "erd1reward",
    operations := [{ identifier := Field.null, value := 0, decimals := 0 }] }

/-- A transfer of 1 unit from `w1`. -/
def txOne : LedgerTx :=
  { txHash := "h1", status := "success", sender := "w1", receiver := "erd1reward",
    operations := [{ identifier := Field.null, value := 1, decimals := 0 }] }

/-- A second transfer of 1 unit from `w1`. -/
def txTwo : LedgerTx :=
  { txHash := "h2", status := "success", sender := "w1", receiver := "erd1reward",
    operations := [{ identifier := Field.null, value := 1, decimals := 0 }] }

/-- A ledger that knows the four transfers above and accepts every send. -/
def okLedger : Ledger :=
  { getTransaction := fun hash =>
      if hash = "h0" then some txDust
      else if hash = "hz" then some txZero
      else if hash = "h1" then some txOne
      else if hash = "h2" then some txTwo
      else none
    send := fun _ _ _ => SendResult.ok }

/-- A ledger whose sender account lacks the funds. -/
def poorLedger : Ledger :=
  { getTransaction := fun _ => none
    send := fun _ _ _ => SendResult.insufficientBalance }

/-- The store on which `topUpAIRO` sets the balance: with the TOP-UP record when
the credited amount is not zero. -/
def topUpWritten (s : Store) (req : TopUpRequest) (ctx : TopUpContext) : Store :=
  if ctx.airoValue / ctx.denomination ≠ 0 then createTransaction s (topUpRecord req ctx) else s

/-- The top-up request of user `u1` for miner `m1` with the given hash. -/
def topUpReq (hash : String) : TopUpRequest := { userId := "u1", id := "m1", hash := hash }

/-- What `topUpAIRO` holds at the mutex for `bankMiner` and a one-operation
transfer. -/
def bankCtx (tx : LedgerTx) (value : ℚ) (decimals : ℕ) : TopUpContext :=
  { currentMiner := bankMiner, transaction := tx, airoValue := value,
    denomination := 10 ^ decimals,
    afterChange := fixed (bankMiner.currentAIRO + value / 10 ^ decimals) 6 }

/-- The withdrawal of 50 by user `u1` from miner `m1`. -/
def raceWithdraw : WithdrawRequest :=
  { userId := "u1", id := "m1", withdraw := JSNumber.finite 50 }

/-- The withdrawal of 60 by user `u1` from miner `m1`. -/
def raceWithdraw60 : WithdrawRequest :=
  { userId := "u1", id := "m1", withdraw := JSNumber.finite 60 }

/-- What a withdrawal from `bankMiner` holds at the mutex when it has read the
miner from `bankStore`. -/
def bankWithdrawCtx (req : WithdrawRequest) : WithdrawContext :=
  { currentMiner := bankMiner, withdrawNum := req.withdraw, from_ := exKey }

/-- The `$set` with which the tick advances the period it found. -/
def advancePeriod (cfg : Config) (reward : RewardPeriod) (r : RewardPeriod) : RewardPeriod :=
  { r with
    startWeek := reward.endWeek
    endWeek := reward.endWeek + cfg.PERIOD_REWARD
    weeksLeft := reward.weeksLeft - 1 }

/-- A store that holds only the period `exPeriod`. -/
def periodStore : Store :=
  { miners := [], metrics := [], rewards := [exPeriod], keys := [], transactions := [] }

/-- The body `total = 700`, `totalWeeks = 7` with the given start. -/
def exBody (startDate : ℚ) : RewardBody :=
  { total := 700, totalWeeks := 7, startDate := startDate }

/-- The body `total = 1`, `totalWeeks = 3`. -/
def thirdBody : RewardBody := { total := 1, totalWeeks := 3, startDate := 0 }

/-- A store with empty collections. -/
def emptyStore : Store :=
  { miners := [], metrics := [], rewards := [], keys := [], transactions := [] }

/-- The document `createNewReward` inserts for a body. -/
def newPeriod (cfg : Config) (body : RewardBody) (newId : String) : RewardPeriod :=
  { _id := newId
    total := body.total
    weeklyReward := fixed (body.total / body.totalWeeks) 6
    totalWeeks := body.totalWeeks
    weeksLeft := body.totalWeeks
    startWeek := body.startDate
    endWeek := body.startDate + cfg.PERIOD_REWARD
    startDate := body.startDate
    endDate := body.startDate + cfg.PERIOD_REWARD * body.totalWeeks }

/-- The body `total = 3`, `totalWeeks = 1.5`, accepted by the validation. -/
def halfBody : RewardBody := { total := 3, totalWeeks := 3 / 2, startDate := 0 }

/-- The periods of a collection are sound: there is at most one, its
`weeksLeft` is not negative, and its windows end with the period:
`endWeek + PERIOD_REWARD * (weeksLeft - 1) = endDate`. -/
def periodsSound (cfg : Config) (l : List RewardPeriod) : Prop :=
  l.length ≤ 1 ∧
  ∀ r ∈ l, 0 ≤ r.weeksLeft ∧ r.endWeek + cfg.PERIOD_REWARD * (r.weeksLeft - 1) = r.endDate

/-- The invariant of the scheduler: the periods are sound, and a timer is held
only for the `endWeek` of a stored period. -/
def schedulerInv (cfg : Config) (st : Scheduler) : Prop :=
  periodsSound cfg st.store.rewards ∧
  ∀ e, st.task = RewardJob.timer e → ∃ r ∈ st.store.rewards, r.endWeek = e

/-- A ready metric of `m1`, flagged `hasUser`, recorded at 50. -/
def earlyMetric : Metric :=
  { minerId := "m1", timestampCreated := 50, state := "ready", hasUser := true }

/-- A ready metric of `m2`, not flagged `hasUser`, recorded at 650. -/
def ownerlessMetric : Metric :=
  { minerId := "m2", timestampCreated := 650, state := "ready", hasUser := false }

/-- A store with the period `exPeriod`, which starts at 0, and the two metrics
above. -/
def lateStore : Store :=
  { miners := [], metrics := [earlyMetric, ownerlessMetric], rewards := [exPeriod], keys := [],
    transactions := [] }

/-- A period whose current window is `[1200, 1800)`. -/
def edgePeriod : RewardPeriod :=
  { _id := "r1", total := 700, weeklyReward := 100, totalWeeks := 7, weeksLeft := 5,
    startDate := 0, endDate := 4200, startWeek := 1200, endWeek := 1800 }

/-- A ready metric of `m1` recorded at 1200, the first second of the window. -/
def edgeMetric : Metric :=
  { minerId := "m1", timestampCreated := 1200, state := "ready", hasUser := true }

/-- A store with `bankMiner`, `edgePeriod` and `edgeMetric`. -/
def edgeStore : Store :=
  { miners := [bankMiner], metrics := [edgeMetric], rewards := [edgePeriod], keys := [],
    transactions := [] }

/-- A miner of user `u1` whose `ageRate` is 0.5. -/
def agedMiner : Miner :=
  { _id := "m1", serialId := none, userId := some "u1", ageRate := 1 / 2,
    currentAIRO := 0, totalRewards := 0, wallet := some "w1" }

/-- A ready metric of `m1`, flagged `hasUser`, recorded at the given time. -/
def readyMetric (t : ℚ) : Metric :=
  { minerId := "m1", timestampCreated := t, state := "ready", hasUser := true }

/-- A store with `agedMiner`, a full window of five ready metrics and the
period `exPeriod`. -/
def agedStore : Store :=
  { miners := [agedMiner]
    metrics := [readyMetric 100, readyMetric 200, readyMetric 300, readyMetric 400,
      readyMetric 500]
    rewards := [exPeriod], keys := [], transactions := [] }

/-- Every miner of the store has `currentAIRO >= 0` and `totalRewards >= 0`. -/
def balancesNonneg (s : Store) : Prop :=
  ∀ m ∈ s.miners, 0 ≤ m.currentAIRO ∧ 0 ≤ m.totalRewards

/-- The bounds under which the reward of a miner is capped by the share:
`ageRate ≤ 100`, balances that are not negative, and a metric count of at most
`COUNT_PERIOD_REWARD`. -/
def withinBounds (cfg : Config) (s : Store) (reward : RewardPeriod) (id : String) (m : Miner) :
    Prop :=
  m.ageRate ≤ 100 ∧ 0 ≤ m.totalRewards ∧ 0 ≤ m.currentAIRO ∧
    ((countMetrics s id reward.startWeek : ℕ) : ℤ) ≤ cfg.COUNT_PERIOD_REWARD

/-- A period of one window of 600 seconds: its only window ends with the period. -/
def lastPeriod : RewardPeriod :=
  { _id := "r9", total := 100, weeklyReward := 100, totalWeeks := 1, weeksLeft := 1,
    startDate := 0, endDate := 600, startWeek := 0, endWeek := 600 }

/-- The miner and the metric of `exStore` with the period `lastPeriod`. -/
def lastStore : Store :=
  { miners := [exMiner], metrics := [exMetric], rewards := [lastPeriod], keys := [],
    transactions := [] }

/-- A request to withdraw 1 from a miner that no store of the examples holds. -/
def strangerWithdraw : WithdrawRequest :=
  { userId := "u1", id := "nobody", withdraw := JSNumber.finite 1 }

/-- A call in which the account is found, the balance suffices, signing works
and the signature is new, but the ledger API rejects the POST. -/
def refusedWorld : SendWorld :=
  { accountFound := true, balance := some 1000, signingThrows := false,
    signatureCached := false, postAccepted := false }

/-- The ledger whose `multiversxSend` runs in the world `w`. -/
def worldLedger (w : SendWorld) : Ledger :=
  { getTransaction := fun _ => none
    send := fun _ _ amount => multiversxSend w amount }

/-- The miner of `exStore` after its `ageRate` has gone down to 0. -/
def spentMiner : Miner :=
  { _id := "m1", serialId := none, userId := some "u1", ageRate := 0,
    currentAIRO := 10, totalRewards := 10, wallet := some "w1" }

/-- A store whose only candidate miner is not eligible. -/
def spentStore : Store :=
  { miners := [spentMiner], metrics := [exMetric], rewards := [exPeriod], keys := [],
    transactions := [] }

/-- The data with which the device cron creates the miner of device `dev-1`. -/
def deviceData : MinerDocument :=
  { _id := none, serialId := some "dev-1", name := some "Untitled Miner", userId := none,
    currentAIRO := 0, ageRate := 100, totalRewards := 0 }

/-! ## Theorems -/

/-! ## Store lemmas -/

theorem updateFirst_find_same {α : Type} (key : α → String) (id : String) (f : α → α)
    (hf : ∀ a, key (f a) = key a) (l : List α) :
    (updateFirst (fun a => key a == id) f l).1.find? (fun a => key a == id)
      = (l.find? (fun a => key a == id)).map f := by
  induction l with
  | nil => simp [updateFirst]
  | cons a l ih =>
    by_cases h : key a = id
    · simp [updateFirst, h, hf]
    · simp [updateFirst, h, List.find?_cons, ih]

theorem updateFirst_find_other {α : Type} (key : α → String) (id id' : String) (f : α → α)
    (hf : ∀ a, key (f a) = key a) (hne : id' ≠ id) (l : List α) :
    (updateFirst (fun a => key a == id) f l).1.find? (fun a => key a == id')
      = l.find? (fun a => key a == id') := by
  induction l with
  | nil => simp [updateFirst]
  | cons a l ih =>
    by_cases h : key a = id
    · have h' : ¬ key a = id' := fun e => hne (e.symm.trans h)
      simp [updateFirst, h, hf, List.find?_cons, h', hne.symm]
    · by_cases h' : key a = id'
      · simp [updateFirst, List.find?_cons, h', hne]
      · simp [updateFirst, h, List.find?_cons, h', ih]

theorem updateFirst_count {α : Type} (p : α → Bool) (f : α → α) (l : List α) :
    (updateFirst p f l).2 = if (l.find? p).isSome then 1 else 0 := by
  induction l with
  | nil => simp [updateFirst]
  | cons a l ih =>
    by_cases h : p a = true
    · simp [updateFirst, h]
    · simp [updateFirst, h, List.find?_cons, ih]

theorem minerById_setMinerFields_same (s : Store) (id : String) (upd : Miner → Miner)
    (hupd : ∀ m, (upd m)._id = m._id) :
    (setMinerFields s id upd).1.minerById id = (s.minerById id).map upd := by
  simpa [setMinerFields, Store.minerById] using
    updateFirst_find_same Miner._id id upd hupd s.miners

theorem minerById_setMinerFields_other (s : Store) (id id' : String) (upd : Miner → Miner)
    (hupd : ∀ m, (upd m)._id = m._id) (hne : id' ≠ id) :
    (setMinerFields s id upd).1.minerById id' = s.minerById id' := by
  simpa [setMinerFields, Store.minerById] using
    updateFirst_find_other Miner._id id id' upd hupd hne s.miners

theorem setMinerFields_count (s : Store) (id : String) (upd : Miner → Miner) :
    (setMinerFields s id upd).2 = if (s.minerById id).isSome then 1 else 0 := by
  simpa [setMinerFields, Store.minerById] using
    updateFirst_count (fun m : Miner => m._id == id) upd s.miners

/-! ## One callback of the second pass -/

theorem rewardCompute_minerId {cfg : Config} {reward : RewardPeriod} {n : ℕ} {s : Store}
    {x : String} {u : RewardUpdate} (h : rewardCompute cfg reward n s x = some u) :
    u.minerId = x := by
  unfold rewardCompute at h
  split at h
  · exact absurd h (by simp)
  · simp only [Option.some.injEq] at h
    rw [← h]

theorem rewardCompute_congr (cfg : Config) (reward : RewardPeriod) (n : ℕ) (s s' : Store)
    (x : String) (hm : s'.minerById x = s.minerById x) (hmet : s'.metrics = s.metrics) :
    rewardCompute cfg reward n s' x = rewardCompute cfg reward n s x := by
  simp only [rewardCompute, findEligibleMiner, countMetrics, hm, hmet]

theorem rewardApply_minerById_same (cfg : Config) (reward : RewardPeriod) (n : ℕ) (s : Store)
    (u : RewardUpdate) :
    (rewardApply cfg reward n s u).minerById u.minerId = (s.minerById u.minerId).map u.set := by
  have h := minerById_setMinerFields_same s u.minerId u.set (fun _ => rfl)
  unfold rewardApply
  split
  · simpa [createTransaction, Store.minerById, RewardUpdate.set] using h
  · simpa [RewardUpdate.set] using h

theorem rewardApply_minerById_other (cfg : Config) (reward : RewardPeriod) (n : ℕ) (s : Store)
    (u : RewardUpdate) (x : String) (hne : x ≠ u.minerId) :
    (rewardApply cfg reward n s u).minerById x = s.minerById x := by
  have h := minerById_setMinerFields_other s u.minerId x u.set (fun _ => rfl) hne
  unfold rewardApply
  split
  · simpa [createTransaction, Store.minerById, RewardUpdate.set] using h
  · simpa [RewardUpdate.set] using h

theorem rewardApply_rest (cfg : Config) (reward : RewardPeriod) (n : ℕ) (s : Store)
    (u : RewardUpdate) :
    (rewardApply cfg reward n s u).metrics = s.metrics ∧
    (rewardApply cfg reward n s u).rewards = s.rewards ∧
    (rewardApply cfg reward n s u).keys = s.keys ∧
    (rewardApply cfg reward n s u).transactions = s.transactions ++ u.records cfg reward n := by
  unfold rewardApply RewardUpdate.records
  split <;> simp [createTransaction, setMinerFields]

theorem distributeOne_spec (cfg : Config) (reward : RewardPeriod) (n : ℕ) (s : Store)
    (y : String) :
    let sf := distributeOne (fun _ st => st) cfg reward n s y
    sf.metrics = s.metrics ∧ sf.rewards = s.rewards ∧ sf.keys = s.keys ∧
    sf.transactions = s.transactions ++ recordsOf cfg reward n s y ∧
    sf.minerById y = minerAfter cfg reward n s y ∧
    (∀ x, x ≠ y → sf.minerById x = s.minerById x) := by
  intro sf
  cases h : rewardCompute cfg reward n s y with
  | none =>
    have hsf : sf = s := by simp [sf, distributeOne, h]
    simp [hsf, recordsOf, minerAfter, h]
  | some u =>
    have hsf : sf = rewardApply cfg reward n s u := by simp [sf, distributeOne, h]
    have hid := rewardCompute_minerId h
    obtain ⟨h1, h2, h3, h4⟩ := rewardApply_rest cfg reward n s u
    refine ⟨by rw [hsf, h1], by rw [hsf, h2], by rw [hsf, h3], ?_, ?_, ?_⟩
    · rw [hsf, h4]; simp [recordsOf, h]
    · rw [hsf, ← hid, rewardApply_minerById_same]; simp [minerAfter, hid, h]
    · intro x hx
      rw [hsf]
      exact rewardApply_minerById_other cfg reward n s u x (by rw [hid]; exact hx)

theorem minerAfter_congr (cfg : Config) (reward : RewardPeriod) (n : ℕ) (s s' : Store)
    (x : String) (hm : s'.minerById x = s.minerById x) (hmet : s'.metrics = s.metrics) :
    minerAfter cfg reward n s' x = minerAfter cfg reward n s x := by
  simp only [minerAfter, rewardCompute_congr cfg reward n s s' x hm hmet, hm]

theorem recordsOf_congr (cfg : Config) (reward : RewardPeriod) (n : ℕ) (s s' : Store)
    (x : String) (hm : s'.minerById x = s.minerById x) (hmet : s'.metrics = s.metrics) :
    recordsOf cfg reward n s' x = recordsOf cfg reward n s x := by
  simp only [recordsOf, rewardCompute_congr cfg reward n s s' x hm hmet]

theorem foldl_distributeOne (cfg : Config) (reward : RewardPeriod) (n : ℕ) (s : Store) :
    ∀ (ids : List String) (s' : Store), ids.Nodup →
      (∀ x ∈ ids, s'.minerById x = s.minerById x) → s'.metrics = s.metrics →
      (ids.foldl (distributeOne (fun _ st => st) cfg reward n) s').metrics = s.metrics ∧
      (ids.foldl (distributeOne (fun _ st => st) cfg reward n) s').rewards = s'.rewards ∧
      (ids.foldl (distributeOne (fun _ st => st) cfg reward n) s').keys = s'.keys ∧
      (ids.foldl (distributeOne (fun _ st => st) cfg reward n) s').transactions
        = s'.transactions ++ ids.flatMap (recordsOf cfg reward n s) ∧
      (∀ x ∈ ids, (ids.foldl (distributeOne (fun _ st => st) cfg reward n) s').minerById x
        = minerAfter cfg reward n s x) ∧
      (∀ x, x ∉ ids → (ids.foldl (distributeOne (fun _ st => st) cfg reward n) s').minerById x
        = s'.minerById x) := by
  intro ids
  induction ids with
  | nil => intro s' _ _ hmet; simp [hmet]
  | cons y rest ih =>
    intro s' hnd hm hmet
    obtain ⟨hy, hrest⟩ := List.nodup_cons.mp hnd
    obtain ⟨d1, d2, d3, d4, d5, d6⟩ := distributeOne_spec cfg reward n s' y
    have hm1 : ∀ x ∈ rest, (distributeOne (fun _ st => st) cfg reward n s' y).minerById x
        = s.minerById x := by
      intro x hx
      have hxy : x ≠ y := fun e => hy (e ▸ hx)
      rw [d6 x hxy]
      exact hm x (List.mem_cons_of_mem _ hx)
    obtain ⟨i1, i2, i3, i4, i5, i6⟩ :=
      ih (distributeOne (fun _ st => st) cfg reward n s' y) hrest hm1 (d1.trans hmet)
    have hmy := hm y (List.mem_cons_self _ _)
    simp only [List.foldl_cons]
    refine ⟨i1, i2.trans d2, i3.trans d3, ?_, ?_, ?_⟩
    · rw [i4, d4, recordsOf_congr cfg reward n s s' y hmy hmet]
      simp [List.flatMap_cons, List.append_assoc]
    · intro x hx
      rcases List.mem_cons.mp hx with rfl | hx
      · rw [i6 x hy, d5, minerAfter_congr cfg reward n s s' x hmy hmet]
      · exact i5 x hx
    · intro x hx
      have hxy : x ≠ y := fun e => hx (e ▸ List.mem_cons_self _ _)
      have hxr : x ∉ rest := fun e => hx (List.mem_cons_of_mem _ e)
      rw [i6 x hxr, d6 x hxy]

theorem uniq_nodup (xs : List String) : (uniq xs).Nodup := by
  unfold uniq
  exact List.nodup_reverse.mpr (List.nodup_dedup _)

theorem mem_uniq {x : String} {xs : List String} : x ∈ uniq xs ↔ x ∈ xs := by
  simp [uniq]

theorem eligible_iff (m : Miner) :
    m.eligible = true ↔ 0 < m.ageRate ∧ m.userId ≠ none ∧ m.userId ≠ some "" := by
  unfold Miner.eligible
  cases h : m.userId with
  | none => simp
  | some u => simp

theorem countActiveMiners_eq (s : Store) (ids : List String) :
    countActiveMiners s ids = totalEligible s ids := by
  unfold countActiveMiners totalEligible
  rw [List.countP_eq_length_filter]
  congr 1
  apply List.filter_congr
  intro x _
  unfold findEligibleMiner
  cases h : s.minerById x with
  | none => simp
  | some m =>
    have := eligible_iff m
    by_cases he : m.eligible = true
    · have h3 := this.mp he
      simp [Option.filter, he, h3.1, h3.2.1, h3.2.2]
    · have h3 : ¬ (0 < m.ageRate ∧ m.userId ≠ none ∧ m.userId ≠ some "") := fun e => he (this.mpr e)
      simp only [Bool.not_eq_true] at he
      simp [Option.filter, he]
      intro h1 h2
      by_contra h4
      exact h3 ⟨h1, h2, h4⟩

theorem rewardDistribution_spec (cfg : Config) (now : ℚ) (s : Store) (reward : RewardPeriod)
    (hactive : findActiveReward s now = some reward) :
    (rewardDistribution cfg now s).metrics = s.metrics ∧
    (rewardDistribution cfg now s).keys = s.keys ∧
    (rewardDistribution cfg now s).transactions = s.transactions ++
      (getTotalMiners cfg now s none).flatMap
        (recordsOf cfg reward (totalEligible s (getTotalMiners cfg now s none)) s) ∧
    (∀ x ∈ getTotalMiners cfg now s none, (rewardDistribution cfg now s).minerById x
      = minerAfter cfg reward (totalEligible s (getTotalMiners cfg now s none)) s x) ∧
    (∀ x, x ∉ getTotalMiners cfg now s none →
      (rewardDistribution cfg now s).minerById x = s.minerById x) := by
  have hnd : (getTotalMiners cfg now s none).Nodup := by
    unfold getTotalMiners
    exact uniq_nodup _
  obtain ⟨f1, _, f3, f4, f5, f6⟩ :=
    foldl_distributeOne cfg reward (totalEligible s (getTotalMiners cfg now s none)) s
      (getTotalMiners cfg now s none) s hnd (fun _ _ => rfl) rfl
  have hrd : rewardDistribution cfg now s =
      (setRewardFields ((getTotalMiners cfg now s none).foldl
        (distributeOne (fun _ st => st) cfg reward
          (totalEligible s (getTotalMiners cfg now s none))) s) reward._id (fun r =>
        { r with
          startWeek := reward.endWeek
          endWeek := reward.endWeek + cfg.PERIOD_REWARD
          weeksLeft := reward.weeksLeft - 1 })).1 := by
    simp only [rewardDistribution, rewardDistributionWith, hactive, countActiveMiners_eq]
  rw [hrd]
  refine ⟨?_, ?_, ?_, ?_, ?_⟩
  · simpa [setRewardFields] using f1
  · simpa [setRewardFields] using f3
  · simpa [setRewardFields] using f4
  · simpa [setRewardFields, Store.minerById] using f5
  · simpa [setRewardFields, Store.minerById] using f6

theorem rewardCompute_eligible (cfg : Config) (reward : RewardPeriod) (n : ℕ) (s : Store)
    (minerId : String) (miner : Miner) (hminer : s.minerById minerId = some miner)
    (hage : 0 < miner.ageRate) (huser : miner.userId ≠ none ∧ miner.userId ≠ some "") :
    ∃ u, rewardCompute cfg reward n s minerId = some u ∧ u.minerId = minerId ∧ u.miner = miner ∧
      u.uptimeRate = findCoefficient (countMetrics s minerId reward.startWeek)
        cfg.COUNT_PERIOD_REWARD ∧
      u.currentReward = specReward cfg reward n (countMetrics s minerId reward.startWeek) miner := by
  have he : miner.eligible = true := (eligible_iff miner).mpr ⟨hage, huser.1, huser.2⟩
  have hc : findEligibleMiner s minerId = some miner := by
    simp [findEligibleMiner, hminer, Option.filter, he]
  simp only [rewardCompute, hc]
  exact ⟨_, rfl, rfl, rfl, rfl, rfl⟩

theorem mem_recordsOf {cfg : Config} {reward : RewardPeriod} {n : ℕ} {s : Store} {x : String}
    {t : Transaction} (h : t ∈ recordsOf cfg reward n s x) :
    ∃ u, rewardCompute cfg reward n s x = some u ∧ u.currentReward ≠ 0 ∧
      t = rewardRecord cfg reward n u := by
  unfold recordsOf at h
  cases hc : rewardCompute cfg reward n s x with
  | none => simp [hc] at h
  | some u =>
    simp only [hc, RewardUpdate.records] at h
    by_cases h0 : u.currentReward = 0
    · simp [h0] at h
    · simp [h0] at h
      exact ⟨u, rfl, h0, h⟩

theorem tick_eligible (cfg : Config) (now : ℚ) (s : Store)
    (reward : RewardPeriod) (minerId : String) (miner : Miner)
    (hactive : findActiveReward s now = some reward)
    (hcand : minerId ∈ getTotalMiners cfg now s none)
    (hminer : s.minerById minerId = some miner)
    (hage : 0 < miner.ageRate)
    (huser : miner.userId ≠ none ∧ miner.userId ≠ some "") :
    let candidates := getTotalMiners cfg now s none
    let metricCount := countMetrics s minerId reward.startWeek
    let uptimeRate := findCoefficient metricCount cfg.COUNT_PERIOD_REWARD
    let healthScore := getHealth miner.totalRewards miner.currentAIRO
    let shareForOne := reward.weeklyReward / totalEligible s candidates
    let R := fixed (uptimeRate * ((miner.ageRate + healthScore) / 200) * shareForOne) 5
    let after := rewardDistribution cfg now s
    let appended := after.transactions.drop s.transactions.length
    (∃ m, after.minerById minerId = some m ∧
      m.currentAIRO = fixed (miner.currentAIRO + R) 6 ∧
      m.totalRewards = fixed (miner.totalRewards + R) 6) ∧
    (R ≠ 0 → ∃ t ∈ appended, t.type = "REWARD" ∧ t.minerId = minerId ∧ t.value = R) ∧
    (∀ t ∈ appended, t.minerId = minerId → t.type = "REWARD" ∧ t.value = R ∧ R ≠ 0) := by
  intro candidates metricCount uptimeRate healthScore shareForOne R after appended
  obtain ⟨_, _, htx, hin, _⟩ := rewardDistribution_spec cfg now s reward hactive
  obtain ⟨u, hu, huid, hum, _, hur⟩ :=
    rewardCompute_eligible cfg reward (totalEligible s candidates) s minerId miner hminer hage huser
  have hR : u.currentReward = R := by rw [hur]; rfl
  have happ : appended = candidates.flatMap (recordsOf cfg reward (totalEligible s candidates) s) := by
    show List.drop _ (rewardDistribution cfg now s).transactions = _
    rw [htx, List.drop_left]
  refine ⟨?_, ?_, ?_⟩
  · refine ⟨u.set miner, ?_, ?_, ?_⟩
    · show (rewardDistribution cfg now s).minerById minerId = _
      rw [hin minerId hcand]
      simp [minerAfter, hu, hminer]
    · simp [RewardUpdate.set, hum, hR]
    · simp [RewardUpdate.set, hum, hR]
  · intro hne
    refine ⟨rewardRecord cfg reward (totalEligible s candidates) u, ?_, rfl, huid, hR⟩
    rw [happ, List.mem_flatMap]
    refine ⟨minerId, hcand, ?_⟩
    simp [recordsOf, hu, RewardUpdate.records, hR, hne]
  · intro t ht hid
    rw [happ, List.mem_flatMap] at ht
    obtain ⟨x, _, hx⟩ := ht
    obtain ⟨v, hv, hv0, rfl⟩ := mem_recordsOf hx
    have hvx : v.minerId = x := rewardCompute_minerId hv
    have hxm : x = minerId := by rw [← hvx]; exact hid
    subst hxm
    rw [hu] at hv
    cases hv
    exact ⟨rfl, hR, by rw [← hR]; exact hv0⟩

theorem fixed_eval (v : ℚ) (p : ℕ) (n : ℤ) (h0 : 0 ≤ v) (hbig : v < 10 ^ 21)
    (hlo : (n : ℚ) ≤ v * 10 ^ p + 1 / 2) (hhi : v * 10 ^ p + 1 / 2 < n + 1) :
    fixed v p = n / 10 ^ p := by
  have h1 : ¬ (v ≤ -(10 ^ 21) ∨ 10 ^ 21 ≤ v) := by
    intro h
    rcases h with h | h
    · have : (0 : ℚ) < 10 ^ 21 := by positivity
      linarith
    · linarith
  have h2 : ¬ v < 0 := not_lt.mpr h0
  have h3 : ⌊v * 10 ^ p + 1 / 2⌋ = n := Int.floor_eq_iff.mpr ⟨hlo, hhi⟩
  simp only [fixed, h1, h2, if_false, h3]

theorem fixed_abs_sub_le (v : ℚ) (p : ℕ) : |fixed v p - v| ≤ 1 / (2 * 10 ^ p) := by
  have hp : (0 : ℚ) < 10 ^ p := by positivity
  have hpos : (0 : ℚ) ≤ 1 / (2 * 10 ^ p) := by positivity
  have hne : (10 : ℚ) ^ p ≠ 0 := ne_of_gt hp
  unfold fixed
  split_ifs with h1 h2
  · simp
  · have hf := Int.floor_le (-v * 10 ^ p + 1 / 2)
    have hl := Int.lt_floor_add_one (-v * 10 ^ p + 1 / 2)
    generalize (⌊-v * 10 ^ p + 1 / 2⌋ : ℤ) = n at hf hl
    have key : -(n : ℚ) / 10 ^ p - v = (-(n : ℚ) - v * 10 ^ p) / 10 ^ p := by
      field_simp
      ring
    have hab : |(-(n : ℚ) - v * 10 ^ p)| ≤ 1 / 2 := abs_le.mpr ⟨by linarith, by linarith⟩
    rw [key, abs_div, abs_of_pos hp]
    calc |(-(n : ℚ) - v * 10 ^ p)| / 10 ^ p ≤ (1 / 2) / 10 ^ p :=
          div_le_div_of_nonneg_right hab hp.le
      _ = 1 / (2 * 10 ^ p) := by field_simp
  · have hf := Int.floor_le (v * 10 ^ p + 1 / 2)
    have hl := Int.lt_floor_add_one (v * 10 ^ p + 1 / 2)
    generalize (⌊v * 10 ^ p + 1 / 2⌋ : ℤ) = n at hf hl
    have key : (n : ℚ) / 10 ^ p - v = ((n : ℚ) - v * 10 ^ p) / 10 ^ p := by
      field_simp
      ring
    have hab : |((n : ℚ) - v * 10 ^ p)| ≤ 1 / 2 := abs_le.mpr ⟨by linarith, by linarith⟩
    rw [key, abs_div, abs_of_pos hp]
    calc |((n : ℚ) - v * 10 ^ p)| / 10 ^ p ≤ (1 / 2) / 10 ^ p :=
          div_le_div_of_nonneg_right hab hp.le
      _ = 1 / (2 * 10 ^ p) := by field_simp

theorem exStore_active : findActiveReward exStore 600 = some exPeriod := by
  norm_num [findActiveReward, exStore, exPeriod]

theorem exStore_candidates : getTotalMiners Config.default 600 exStore none = ["m1"] := by
  simp [getTotalMiners, exStore, exMetric, Config.default, uniq]

theorem exStore_miner : exStore.minerById "m1" = some exMiner := by
  simp [Store.minerById, exStore, exMiner]

theorem exStore_reward :
    fixed (findCoefficient (countMetrics exStore "m1" exPeriod.startWeek)
        Config.default.COUNT_PERIOD_REWARD
      * ((exMiner.ageRate + getHealth exMiner.totalRewards exMiner.currentAIRO) / 200)
      * (exPeriod.weeklyReward
          / totalEligible exStore (getTotalMiners Config.default 600 exStore none))) 5 = 20 := by
  have h1 : countMetrics exStore "m1" exPeriod.startWeek = 1 := by
    simp [countMetrics, exStore, exMetric, exPeriod]
  have h2 : totalEligible exStore (getTotalMiners Config.default 600 exStore none) = 1 := by
    rw [exStore_candidates]
    simp [totalEligible, exStore_miner, exMiner]
  have h3 : findCoefficient ((1 : ℕ) : ℚ) ((5 : ℤ) : ℚ) = 1 / 5 := by
    norm_num [findCoefficient, mathRound]
  rw [h1, h2]
  simp only [Config.default, h3]
  rw [fixed_eval _ 5 2000000 (by norm_num [exMiner, getHealth, exPeriod])
    (by norm_num [exMiner, getHealth, exPeriod]) (by norm_num [exMiner, getHealth, exPeriod])
    (by norm_num [exMiner, getHealth, exPeriod])]
  norm_num

theorem fixed_roundedTo (value : ℚ) (precision : ℕ) :
    RoundedTo precision value (fixed value precision) := by
  refine ⟨fixed_abs_sub_le value precision, ?_⟩
  unfold fixed
  split_ifs with h1 h2
  · right
    refine ⟨?_, rfl⟩
    rcases h1 with h | h
    · have : (10 : ℚ) ^ 21 ≤ -value := by linarith
      exact le_trans this (neg_le_abs value)
    · exact le_trans h (le_abs_self value)
  · left
    exact ⟨-⌊-value * 10 ^ precision + 1 / 2⌋, by push_cast; ring⟩
  · left
    exact ⟨⌊value * 10 ^ precision + 1 / 2⌋, rfl⟩

theorem exStore_product :
    findCoefficient (countMetrics exStore "m1" exPeriod.startWeek)
        Config.default.COUNT_PERIOD_REWARD
      * ((exMiner.ageRate + getHealth exMiner.totalRewards exMiner.currentAIRO) / 200)
      * (exPeriod.weeklyReward
          / totalEligible exStore (getTotalMiners Config.default 600 exStore none)) = 20 := by
  have h1 : countMetrics exStore "m1" exPeriod.startWeek = 1 := by
    simp [countMetrics, exStore, exMetric, exPeriod]
  have h2 : totalEligible exStore (getTotalMiners Config.default 600 exStore none) = 1 := by
    rw [exStore_candidates]
    simp [totalEligible, exStore_miner, exMiner]
  have h3 : findCoefficient ((1 : ℕ) : ℚ) ((5 : ℤ) : ℚ) = 1 / 5 := by
    norm_num [findCoefficient, mathRound]
  rw [h1, h2]
  simp only [Config.default, h3]
  norm_num [exMiner, getHealth, exPeriod]

/-- C1: for every eligible candidate miner the reward `R` of the pass is the
product `uptimeRate * ((ageRate + healthScore) / 200) * shareForOne` rounded to
5 decimals (a multiple of 0.00001 at most 0.000005 away from the product), with
`uptimeRate = findCoefficient(metricCount, COUNT_PERIOD_REWARD)`,
`healthScore = getHealth(totalRewards, currentAIRO)` and
`shareForOne = weeklyReward / totalEligible`: the pass adds `R` to both balances
before their rounding to 6 decimals, appends a REWARD record carrying `R` as
`value` when `R` is not zero, and every record it appends for the miner
carries `R`. -/
theorem rewardDistribution_reward_formula (cfg : Config) (now : ℚ) (s : Store)
    (reward : RewardPeriod) (minerId : String) (miner : Miner)
    (hactive : findActiveReward s now = some reward)
    (hcand : minerId ∈ getTotalMiners cfg now s none)
    (hminer : s.minerById minerId = some miner)
    (hage : 0 < miner.ageRate)
    (huser : miner.userId ≠ none ∧ miner.userId ≠ some "") :
    let candidates := getTotalMiners cfg now s none
    let metricCount := countMetrics s minerId reward.startWeek
    let uptimeRate := findCoefficient metricCount cfg.COUNT_PERIOD_REWARD
    let healthScore := getHealth miner.totalRewards miner.currentAIRO
    let shareForOne := reward.weeklyReward / totalEligible s candidates
    let after := rewardDistribution cfg now s
    let appended := after.transactions.drop s.transactions.length
    ∃ R, RoundedTo 5 (uptimeRate * ((miner.ageRate + healthScore) / 200) * shareForOne) R ∧
      (∃ m, after.minerById minerId = some m ∧
        RoundedTo 6 (miner.currentAIRO + R) m.currentAIRO ∧
        RoundedTo 6 (miner.totalRewards + R) m.totalRewards) ∧
      (R ≠ 0 → ∃ t ∈ appended, t.type = "REWARD" ∧ t.minerId = minerId ∧ t.value = R) ∧
      (∀ t ∈ appended, t.minerId = minerId → t.type = "REWARD" ∧ t.value = R ∧ R ≠ 0) := by
  intro candidates metricCount uptimeRate healthScore shareForOne after appended
  obtain ⟨⟨m, hm, hc, ht⟩, h2, h3⟩ :=
    tick_eligible cfg now s reward minerId miner hactive hcand hminer hage huser
  refine ⟨_, fixed_roundedTo _ 5, ⟨m, hm, ?_, ?_⟩, h2, h3⟩
  · rw [hc]
    exact fixed_roundedTo _ 6
  · rw [ht]
    exact fixed_roundedTo _ 6

/-- Witness of C1 on `exStore`: in the tick at time 600 the product is 20, and the
reward is 20 rounded to 5 decimals. -/
theorem rewardDistribution_reward_formula_witness :
    ∃ R, RoundedTo 5 20 R ∧
      (R ≠ 0 → ∃ t ∈ (rewardDistribution Config.default 600 exStore).transactions.drop
          exStore.transactions.length,
        t.type = "REWARD" ∧ t.minerId = "m1" ∧ t.value = R) := by
  have h := rewardDistribution_reward_formula Config.default 600 exStore exPeriod "m1" exMiner
    exStore_active (by simp [exStore_candidates]) exStore_miner (by norm_num [exMiner])
    (by simp [exMiner])
  simp only [exStore_product] at h
  obtain ⟨R, hR, _, hrec, _⟩ := h
  exact ⟨R, hR, hrec⟩

/-- C2, as stated, fails: on `exStore` the tick computes the reward 20 for the
eligible miner `m1`, whose balance before is 0.0000004, and stores the balance
20, not 20.0000004. -/
theorem rewardDistribution_balance_counterexample :
    exStore.minerById "m1" = some exMiner ∧ exMiner.eligible = true ∧
    "m1" ∈ getTotalMiners Config.default 600 exStore none ∧
    (∃ t ∈ (rewardDistribution Config.default 600 exStore).transactions.drop
        exStore.transactions.length, t.type = "REWARD" ∧ t.minerId = "m1" ∧ t.value = 20) ∧
    ∃ m, (rewardDistribution Config.default 600 exStore).minerById "m1" = some m ∧
      m.currentAIRO = 20 ∧ m.currentAIRO ≠ exMiner.currentAIRO + 20 := by
  have h := tick_eligible Config.default 600 exStore exPeriod "m1" exMiner
    exStore_active (by simp [exStore_candidates]) exStore_miner (by norm_num [exMiner])
    (by simp [exMiner])
  simp only [exStore_reward] at h
  obtain ⟨⟨m, hm, hc, _⟩, hrec, _⟩ := h
  have h20 : fixed (exMiner.currentAIRO + 20) 6 = 20 := by
    rw [fixed_eval _ 6 20000000 (by norm_num [exMiner]) (by norm_num [exMiner])
      (by norm_num [exMiner]) (by norm_num [exMiner])]
    norm_num
  refine ⟨exStore_miner, by simp [Miner.eligible, exMiner], by simp [exStore_candidates],
    hrec (by norm_num), m, hm, hc.trans h20, ?_⟩
  rw [hc, h20]
  norm_num [exMiner]

/-- C2 as amended: for every eligible candidate miner, the pass (run alone)
stores as `currentAIRO` the sum `currentAIRO_before + R` rounded to 6 decimals
(a multiple of 0.000001 at most 0.0000005 away from the sum) and as
`totalRewards` the sum `totalRewards_before + R` rounded likewise, where `R` is
the reward the pass computes for the miner, the product of C1 rounded to 5
decimals and the value of every REWARD record appended for the miner. -/
theorem rewardDistribution_balance_rounded (cfg : Config) (now : ℚ) (s : Store)
    (reward : RewardPeriod) (minerId : String) (miner : Miner)
    (hactive : findActiveReward s now = some reward)
    (hcand : minerId ∈ getTotalMiners cfg now s none)
    (hminer : s.minerById minerId = some miner)
    (hage : 0 < miner.ageRate)
    (huser : miner.userId ≠ none ∧ miner.userId ≠ some "") :
    ∃ R m,
      RoundedTo 5
        (findCoefficient (countMetrics s minerId reward.startWeek) cfg.COUNT_PERIOD_REWARD
          * ((miner.ageRate + getHealth miner.totalRewards miner.currentAIRO) / 200)
          * (reward.weeklyReward / totalEligible s (getTotalMiners cfg now s none))) R ∧
      (∀ t ∈ (rewardDistribution cfg now s).transactions.drop s.transactions.length,
        t.minerId = minerId → t.value = R) ∧
      (rewardDistribution cfg now s).minerById minerId = some m ∧
      RoundedTo 6 (miner.currentAIRO + R) m.currentAIRO ∧
      RoundedTo 6 (miner.totalRewards + R) m.totalRewards := by
  obtain ⟨⟨m, hm, hc, ht⟩, _, h3⟩ :=
    tick_eligible cfg now s reward minerId miner hactive hcand hminer hage huser
  refine ⟨_, m, fixed_roundedTo _ 5, fun t ht hid => (h3 t ht hid).2.1, hm, ?_, ?_⟩
  · rw [hc]
    exact fixed_roundedTo _ 6
  · rw [ht]
    exact fixed_roundedTo _ 6

/-- Witness of the amended C2 on `exStore`, where the product is 20. -/
theorem rewardDistribution_balance_rounded_witness :
    ∃ R m, RoundedTo 5 20 R ∧
      (rewardDistribution Config.default 600 exStore).minerById "m1" = some m ∧
      RoundedTo 6 (exMiner.currentAIRO + R) m.currentAIRO := by
  have h := rewardDistribution_balance_rounded Config.default 600 exStore
    exPeriod "m1" exMiner exStore_active (by simp [exStore_candidates]) exStore_miner
    (by norm_num [exMiner]) (by simp [exMiner])
  simp only [exStore_product] at h
  obtain ⟨R, m, hR, _, hm, hb, _⟩ := h
  exact ⟨R, m, hR, hm, hb⟩

/-! ## `withdrawAIRO` -/

theorem findMinerOfUser_eq_some {s : Store} {id userId : String} {m : Miner} :
    findMinerOfUser s id userId = some m ↔ s.minerById id = some m ∧ m.userId = some userId := by
  unfold findMinerOfUser
  cases h : s.minerById id with
  | none => simp
  | some m' =>
    by_cases hu : m'.userId = some userId
    · simp only [Option.filter, hu, beq_self_eq_true, if_true, Option.some.injEq]
      constructor
      · intro e; subst e; exact ⟨rfl, hu⟩
      · intro e; exact e.1
    · simp only [Option.filter, Option.some.injEq]
      have : (m'.userId == some userId) = false := by simpa using hu
      simp only [this]
      constructor
      · intro e; simp at e
      · intro e; exact absurd (e.1 ▸ e.2) hu

theorem withdrawPrepare_ok_iff {s : Store} {req : WithdrawRequest} {ctx : WithdrawContext} :
    withdrawPrepare s req = Except.ok ctx ↔
      ∃ m key, s.minerById req.id = some m ∧ m.userId = some req.userId ∧
        truthy m.wallet = true ∧ findRewardKey s = some key ∧
        ctx = { currentMiner := m, withdrawNum := req.withdraw, from_ := key } := by
  constructor
  · intro h
    unfold withdrawPrepare at h
    split at h
    · cases h
    · rename_i m hm
      obtain ⟨hm1, hm2⟩ := findMinerOfUser_eq_some.mp hm
      split at h
      · cases h
      · rename_i hw
        split at h
        · cases h
        · rename_i key hk
          cases h
          exact ⟨m, key, hm1, hm2, by simpa using hw, hk, rfl⟩
  · rintro ⟨m, key, h1, h2, h3, h4, rfl⟩
    simp [withdrawPrepare, findMinerOfUser_eq_some.mpr ⟨h1, h2⟩, h3, h4]

theorem withdraw_guard_iff (w : JSNumber) (c : ℚ) :
    (!w.isFinite || w.gtFinite c || w.leFinite 0) = false ↔
      ∃ q, w = JSNumber.finite q ∧ 0 < q ∧ q ≤ c := by
  cases w with
  | finite q =>
    simp only [JSNumber.isFinite, JSNumber.gtFinite, JSNumber.leFinite, Bool.not_true,
      Bool.false_or, Bool.or_eq_false_iff, decide_eq_false_iff_not, not_lt, not_le,
      JSNumber.finite.injEq, exists_eq_left']
    exact ⟨fun h => ⟨h.2, h.1⟩, fun h => ⟨h.2, h.1⟩⟩
  | nan => simp [JSNumber.isFinite]
  | posInf => simp [JSNumber.isFinite]
  | negInf => simp [JSNumber.isFinite]

theorem truthy_error_iff (r : SendResult) : truthy r.error = true ↔ r ≠ SendResult.ok := by
  cases r <;> simp [SendResult.error, truthy]

theorem withdrawAIRO_of_prepare (ledger : Ledger) {s : Store} {req : WithdrawRequest} {m : Miner}
    {key : Key} (hminer : s.minerById req.id = some m) (huser : m.userId = some req.userId)
    (hwallet : truthy m.wallet = true) (hkey : findRewardKey s = some key) :
    withdrawAIRO ledger s req = withdrawCritical ledger s req
      { currentMiner := m, withdrawNum := req.withdraw, from_ := key } := by
  have h : withdrawPrepare s req
      = Except.ok { currentMiner := m, withdrawNum := req.withdraw, from_ := key } :=
    withdrawPrepare_ok_iff.mpr ⟨m, key, hminer, huser, hwallet, hkey, rfl⟩
  simp only [withdrawAIRO, h]

theorem withdrawCritical_invalid (ledger : Ledger) (s : Store) (req : WithdrawRequest)
    (ctx : WithdrawContext)
    (h : ¬ ∃ q, ctx.withdrawNum = JSNumber.finite q ∧ 0 < q ∧ q ≤ ctx.currentMiner.currentAIRO) :
    withdrawCritical ledger s req ctx
      = { store := s, response := Response.json 404 "Invalid withdrawal sum", effects := [] } := by
  have hg : (!ctx.withdrawNum.isFinite || ctx.withdrawNum.gtFinite ctx.currentMiner.currentAIRO
      || ctx.withdrawNum.leFinite 0) = true := by
    by_contra hc
    exact h ((withdraw_guard_iff _ _).mp (by simpa using hc))
  simp only [withdrawCritical, hg, if_true]

theorem withdrawCritical_failed (ledger : Ledger) (s : Store) (req : WithdrawRequest)
    (ctx : WithdrawContext) (q : ℚ) (hq : ctx.withdrawNum = JSNumber.finite q) (hpos : 0 < q)
    (hle : q ≤ ctx.currentMiner.currentAIRO)
    (hsend : ledger.send ctx.from_ (ctx.currentMiner.wallet.getD "") q ≠ SendResult.ok) :
    withdrawCritical ledger s req ctx
      = { store := createTransaction s (withdrawRecord req ctx "error"
            (some ((ledger.send ctx.from_ (ctx.currentMiner.wallet.getD "") q).error.getD
              "Multiversx send failed")))
          response := Response.json 404
            ((ledger.send ctx.from_ (ctx.currentMiner.wallet.getD "") q).error.getD
              "Multiversx send failed")
          effects := [Effect.ledgerSend ctx.from_ (ctx.currentMiner.wallet.getD "") q,
            Effect.transactionWritten (withdrawRecord req ctx "error"
              (some ((ledger.send ctx.from_ (ctx.currentMiner.wallet.getD "") q).error.getD
                "Multiversx send failed")))] } := by
  have hg := (withdraw_guard_iff ctx.withdrawNum ctx.currentMiner.currentAIRO).mpr ⟨q, hq, hpos, hle⟩
  have ht := (truthy_error_iff _).mpr hsend
  have hr : ctx.withdrawNum.toRat = q := by rw [hq]; rfl
  simp only [withdrawCritical, hg, hr, ht, if_true]
  simp

theorem withdrawCritical_sent (ledger : Ledger) (s : Store) (req : WithdrawRequest)
    (ctx : WithdrawContext) (q : ℚ) (hq : ctx.withdrawNum = JSNumber.finite q) (hpos : 0 < q)
    (hle : q ≤ ctx.currentMiner.currentAIRO)
    (hsend : ledger.send ctx.from_ (ctx.currentMiner.wallet.getD "") q = SendResult.ok) :
    (withdrawCritical ledger s req ctx).store
      = (setMinerFields (createTransaction s (withdrawRecord req ctx "success" none)) req.id
          (fun m => { m with currentAIRO := ctx.currentMiner.currentAIRO - q })).1 ∧
    (withdrawCritical ledger s req ctx).effects
      = [Effect.ledgerSend ctx.from_ (ctx.currentMiner.wallet.getD "") q,
          Effect.transactionWritten (withdrawRecord req ctx "success" none),
          Effect.balanceSet req.id (ctx.currentMiner.currentAIRO - q)] ∧
    (withdrawCritical ledger s req ctx).response
      = (if (s.minerById req.id).isSome then Response.json 200 "OK"
          else Response.json 404 "Update failed") := by
  have hg := (withdraw_guard_iff ctx.withdrawNum ctx.currentMiner.currentAIRO).mpr ⟨q, hq, hpos, hle⟩
  have ht : truthy (ledger.send ctx.from_ (ctx.currentMiner.wallet.getD "") q).error = false := by
    rw [hsend]; rfl
  have hr : ctx.withdrawNum.toRat = q := by rw [hq]; rfl
  have hc := setMinerFields_count (createTransaction s (withdrawRecord req ctx "success" none))
    req.id (fun m => { m with currentAIRO := ctx.currentMiner.currentAIRO - q })
  have hmb : (createTransaction s (withdrawRecord req ctx "success" none)).minerById req.id
      = s.minerById req.id := rfl
  rw [hmb] at hc
  simp only [withdrawCritical, hg, hr, ht]
  cases hs : (s.minerById req.id).isSome
  · simp [hs] at hc
    simp [hc]
  · simp [hs] at hc
    simp [hc]

theorem bankStore_miner : bankStore.minerById "m1" = some bankMiner := by
  simp [Store.minerById, bankStore, bankMiner]

theorem bankStore_key : findRewardKey bankStore = some exKey := by
  simp [findRewardKey, bankStore, exKey]

/-- C4: with the preconditions met, `withdrawAIRO` answers 'Invalid withdrawal sum',
sends nothing, writes no Transaction and leaves the balance as it is exactly
when the amount is not a finite number with `0 < amount <= currentAIRO`; every
amount above `currentAIRO` is rejected so, with no effect at all. -/
theorem withdrawAIRO_invalid_sum_iff (ledger : Ledger) (s : Store) (req : WithdrawRequest)
    (m : Miner) (key : Key)
    (hminer : s.minerById req.id = some m) (huser : m.userId = some req.userId)
    (hwallet : truthy m.wallet = true) (hkey : findRewardKey s = some key) :
    ((((withdrawAIRO ledger s req).response = Response.json 404 "Invalid withdrawal sum") ∧
        (∀ src dst a, Effect.ledgerSend src dst a ∉ (withdrawAIRO ledger s req).effects) ∧
        (withdrawAIRO ledger s req).store.transactions = s.transactions ∧
        (withdrawAIRO ledger s req).store.minerById req.id = some m) ↔
      ¬ ∃ q, req.withdraw = JSNumber.finite q ∧ 0 < q ∧ q ≤ m.currentAIRO) ∧
    (∀ q, req.withdraw = JSNumber.finite q → m.currentAIRO < q →
      (withdrawAIRO ledger s req).response = Response.json 404 "Invalid withdrawal sum" ∧
      (withdrawAIRO ledger s req).effects = [] ∧
      (withdrawAIRO ledger s req).store = s) := by
  have hw := withdrawAIRO_of_prepare ledger hminer huser hwallet hkey
  have hinv : (¬ ∃ q, req.withdraw = JSNumber.finite q ∧ 0 < q ∧ q ≤ m.currentAIRO) →
      withdrawAIRO ledger s req
        = { store := s, response := Response.json 404 "Invalid withdrawal sum", effects := [] } := by
    intro h
    rw [hw]
    exact withdrawCritical_invalid ledger s req _ h
  refine ⟨⟨?_, ?_⟩, ?_⟩
  · rintro ⟨hresp, hsend, _, _⟩ ⟨q, hq, hpos, hle⟩
    by_cases hs : ledger.send key (m.wallet.getD "") q = SendResult.ok
    · have h2 := (withdrawCritical_sent ledger s req
        { currentMiner := m, withdrawNum := req.withdraw, from_ := key } q hq hpos hle hs).2.1
      rw [← hw] at h2
      exact hsend key (m.wallet.getD "") q (by rw [h2]; simp)
    · have h2 := withdrawCritical_failed ledger s req
        { currentMiner := m, withdrawNum := req.withdraw, from_ := key } q hq hpos hle hs
      rw [← hw] at h2
      exact hsend key (m.wallet.getD "") q (by rw [h2]; simp)
  · intro h
    rw [hinv h]
    exact ⟨rfl, by simp, rfl, hminer⟩
  · intro q hq hlt
    have h : ¬ ∃ q, req.withdraw = JSNumber.finite q ∧ 0 < q ∧ q ≤ m.currentAIRO := by
      rintro ⟨q', hq', _, hle⟩
      rw [hq] at hq'
      cases hq'
      exact absurd hlt (not_lt.mpr hle)
    rw [hinv h]
    exact ⟨rfl, rfl, rfl⟩

/-- Witness of C4: withdrawing 150 from the balance 100 is rejected. -/
theorem withdrawAIRO_invalid_sum_iff_witness :
    (withdrawAIRO okLedger bankStore
        { userId := "u1", id := "m1", withdraw := JSNumber.finite 150 }).response
      = Response.json 404 "Invalid withdrawal sum" ∧
    (withdrawAIRO okLedger bankStore
        { userId := "u1", id := "m1", withdraw := JSNumber.finite 150 }).store = bankStore := by
  have h := (withdrawAIRO_invalid_sum_iff okLedger bankStore
    { userId := "u1", id := "m1", withdraw := JSNumber.finite 150 } bankMiner exKey
    bankStore_miner (by simp [bankMiner]) (by simp [bankMiner, truthy]) bankStore_key).2
    150 rfl (by norm_num [bankMiner])
  exact ⟨h.1, h.2.2⟩

/-- C5: a withdrawal whose amount passed validation appends exactly one WITHDRAW
record with `value = amount`.  When the send fails the record has status
`error` and a reason and no miner document changes; when the send succeeds the
record has status `success`, is written before the balance, and the balance is
set to `currentAIRO - amount`. -/
theorem withdrawAIRO_valid_amount (ledger : Ledger) (s : Store) (req : WithdrawRequest)
    (m : Miner) (key : Key) (q : ℚ)
    (hminer : s.minerById req.id = some m) (huser : m.userId = some req.userId)
    (hwallet : truthy m.wallet = true) (hkey : findRewardKey s = some key)
    (hq : req.withdraw = JSNumber.finite q) (hpos : 0 < q) (hle : q ≤ m.currentAIRO) :
    ∃ t, (withdrawAIRO ledger s req).store.transactions = s.transactions ++ [t] ∧
      t.type = "WITHDRAW" ∧ t.value = q ∧ t.minerId = req.id ∧
      (ledger.send key (m.wallet.getD "") q ≠ SendResult.ok →
        t.status = "error" ∧ t.reason ≠ none ∧
        (withdrawAIRO ledger s req).store.miners = s.miners ∧
        (withdrawAIRO ledger s req).effects
          = [Effect.ledgerSend key (m.wallet.getD "") q, Effect.transactionWritten t] ∧
        (withdrawAIRO ledger s req).response ≠ Response.json 200 "OK") ∧
      (ledger.send key (m.wallet.getD "") q = SendResult.ok →
        t.status = "success" ∧
        (withdrawAIRO ledger s req).store.minerById req.id
          = some { m with currentAIRO := m.currentAIRO - q } ∧
        (withdrawAIRO ledger s req).effects
          = [Effect.ledgerSend key (m.wallet.getD "") q, Effect.transactionWritten t,
              Effect.balanceSet req.id (m.currentAIRO - q)] ∧
        (withdrawAIRO ledger s req).response = Response.json 200 "OK") := by
  have hw := withdrawAIRO_of_prepare ledger hminer huser hwallet hkey
  have hr : (JSNumber.finite q).toRat = q := rfl
  by_cases hs : ledger.send key (m.wallet.getD "") q = SendResult.ok
  · obtain ⟨h1, h2, h3⟩ := withdrawCritical_sent ledger s req
      { currentMiner := m, withdrawNum := req.withdraw, from_ := key } q hq hpos hle hs
    rw [← hw] at h1 h2 h3
    refine ⟨withdrawRecord req { currentMiner := m, withdrawNum := req.withdraw, from_ := key }
      "success" none, ?_, rfl, ?_, rfl, fun h => absurd hs h, fun _ => ⟨rfl, ?_, h2, ?_⟩⟩
    · rw [h1]; simp [setMinerFields, createTransaction]
    · simp [withdrawRecord, hq, hr]
    · have hx := minerById_setMinerFields_same (createTransaction s (withdrawRecord req
          { currentMiner := m, withdrawNum := req.withdraw, from_ := key } "success" none)) req.id
        (fun m' : Miner => { m' with currentAIRO := m.currentAIRO - q }) (fun _ => rfl)
      have hy : (createTransaction s (withdrawRecord req
          { currentMiner := m, withdrawNum := req.withdraw, from_ := key } "success" none)).minerById
          req.id = some m := hminer
      rw [hy] at hx
      rw [h1]
      exact hx
    · rw [h3, hminer]; rfl
  · have h1 := withdrawCritical_failed ledger s req
      { currentMiner := m, withdrawNum := req.withdraw, from_ := key } q hq hpos hle hs
    rw [← hw] at h1
    refine ⟨withdrawRecord req { currentMiner := m, withdrawNum := req.withdraw, from_ := key }
      "error" (some ((ledger.send key (m.wallet.getD "") q).error.getD "Multiversx send failed")),
      ?_, rfl, ?_, rfl, fun _ => ⟨rfl, ?_, ?_, ?_, ?_⟩, fun h => absurd h hs⟩
    · rw [h1]; rfl
    · simp [withdrawRecord, hq, hr]
    · simp [withdrawRecord]
    · rw [h1]; rfl
    · rw [h1]
    · rw [h1]; simp

/-- Witness of C5: withdrawing 60 from the balance 100 with a successful send
leaves the balance 40. -/
theorem withdrawAIRO_valid_amount_witness :
    ∃ m, (withdrawAIRO okLedger bankStore
        { userId := "u1", id := "m1", withdraw := JSNumber.finite 60 }).store.minerById "m1"
      = some m ∧ m.currentAIRO = 40 := by
  obtain ⟨t, _, _, _, _, _, h⟩ := withdrawAIRO_valid_amount okLedger bankStore
    { userId := "u1", id := "m1", withdraw := JSNumber.finite 60 } bankMiner exKey 60
    bankStore_miner (by simp [bankMiner]) (by simp [bankMiner, truthy]) bankStore_key rfl
    (by norm_num) (by norm_num [bankMiner])
  refine ⟨_, (h rfl).2.1, ?_⟩
  norm_num [bankMiner]

/-! ## `topUpAIRO` -/

theorem topUpPrepare_ok_iff {cfg : Config} {ledger : Ledger} {s : Store} {req : TopUpRequest}
    {ctx : TopUpContext} :
    topUpPrepare cfg ledger s req = Except.ok ctx ↔
      ∃ m tx key op, s.minerById req.id = some m ∧ m.userId = some req.userId ∧
        truthy m.wallet = true ∧ ledger.getTransaction req.hash = some tx ∧
        tx.status = "success" ∧ findRewardKey s = some key ∧ tx.receiver = key.keyName ∧
        m.wallet = some tx.sender ∧ tx.operations.head? = some op ∧
        op.identifier = cfg.tokenField ∧
        ctx = { currentMiner := m, transaction := tx, airoValue := op.value,
                denomination := 10 ^ op.decimals,
                afterChange := fixed (m.currentAIRO + op.value / 10 ^ op.decimals) 6 } := by
  constructor
  · intro h
    unfold topUpPrepare at h
    split at h
    · cases h
    · rename_i m hm
      obtain ⟨hm1, hm2⟩ := findMinerOfUser_eq_some.mp hm
      split at h
      · cases h
      · rename_i hw
        split at h
        · cases h
        · rename_i tx htx
          split at h
          · cases h
          · rename_i hst
            split at h
            · cases h
            · rename_i key hk
              split at h
              · cases h
              · rename_i hrec
                split at h
                · cases h
                · rename_i hsend
                  split at h
                  · cases h
                  · rename_i op hop
                    split at h
                    · cases h
                    · rename_i hid
                      cases h
                      exact ⟨m, tx, key, op, hm1, hm2, by simpa using hw, htx, by simpa using hst,
                        hk, by simpa using hrec, by simpa using (Eq.symm (by simpa using hsend)),
                        hop, by simpa using hid, rfl⟩
  · rintro ⟨m, tx, key, op, h1, h2, h3, h4, h5, h6, h7, h8, h9, h10, rfl⟩
    have h3' : truthy (some tx.sender) = true := h8 ▸ h3
    simp [topUpPrepare, findMinerOfUser_eq_some.mpr ⟨h1, h2⟩, h3', h4, h5, h6, h7, h8, h9, h10]

theorem topUpPrepare_error_ne_ok {cfg : Config} {ledger : Ledger} {s : Store}
    {req : TopUpRequest} {r : Response} (h : topUpPrepare cfg ledger s req = Except.error r) :
    r ≠ Response.json 200 "OK" := by
  unfold topUpPrepare at h
  repeat' split at h
  all_goals first
    | (cases h; simp)
    | cases h

theorem topUpCritical_used (s : Store) (req : TopUpRequest) (ctx : TopUpContext)
    (t : Transaction) (h : findTopUpHistory s ctx.transaction.txHash = some t) :
    topUpCritical s req ctx
      = { store := s, response := Response.json 400 "Hash already used", effects := [] } := by
  simp only [topUpCritical, h]

theorem topUpWritten_rest (s : Store) (req : TopUpRequest) (ctx : TopUpContext) :
    (topUpWritten s req ctx).miners = s.miners ∧ (topUpWritten s req ctx).keys = s.keys ∧
    (topUpWritten s req ctx).metrics = s.metrics ∧ (topUpWritten s req ctx).rewards = s.rewards := by
  unfold topUpWritten
  split <;> simp [createTransaction]

theorem topUpCritical_fresh (s : Store) (req : TopUpRequest) (ctx : TopUpContext)
    (h : findTopUpHistory s ctx.transaction.txHash = none) :
    (topUpCritical s req ctx).store
      = (setMinerFields (topUpWritten s req ctx) req.id
          (fun m => { m with currentAIRO := ctx.afterChange })).1 ∧
    (topUpCritical s req ctx).response
      = (if (s.minerById req.id).isSome then Response.json 200 "OK"
          else Response.json 404 "Update failed") ∧
    (topUpCritical s req ctx).effects
      = (if ctx.airoValue / ctx.denomination ≠ 0
          then [Effect.transactionWritten (topUpRecord req ctx)] else [])
        ++ [Effect.balanceSet req.id ctx.afterChange] := by
  have hc := setMinerFields_count (topUpWritten s req ctx) req.id
    (fun m => { m with currentAIRO := ctx.afterChange })
  have hmb : (topUpWritten s req ctx).minerById req.id = s.minerById req.id := by
    simp only [Store.minerById, (topUpWritten_rest s req ctx).1]
  rw [hmb] at hc
  simp only [topUpCritical, h]
  unfold topUpWritten at hc ⊢
  by_cases hz : ctx.airoValue / ctx.denomination = 0
  · simp only [hz, ne_eq, not_true_eq_false, if_false] at hc ⊢
    cases hs : (s.minerById req.id).isSome
    · simp [hs] at hc
      simp [hc]
    · simp [hs] at hc
      simp [hc]
  · simp only [hz, ne_eq, not_false_eq_true, if_true] at hc ⊢
    cases hs : (s.minerById req.id).isSome
    · simp [hs] at hc
      simp [hc]
    · simp [hs] at hc
      simp [hc]

theorem topUpCritical_fresh_store (s : Store) (req : TopUpRequest) (ctx : TopUpContext)
    (m : Miner) (h : findTopUpHistory s ctx.transaction.txHash = none)
    (hminer : s.minerById req.id = some m) :
    (topUpCritical s req ctx).response = Response.json 200 "OK" ∧
    (topUpCritical s req ctx).store.minerById req.id
      = some { m with currentAIRO := ctx.afterChange } ∧
    (topUpCritical s req ctx).store.transactions
      = s.transactions ++ (if ctx.airoValue / ctx.denomination ≠ 0 then [topUpRecord req ctx]
          else []) ∧
    (topUpCritical s req ctx).store.keys = s.keys ∧
    (topUpCritical s req ctx).store.metrics = s.metrics ∧
    (topUpCritical s req ctx).store.rewards = s.rewards := by
  obtain ⟨h1, h2, _⟩ := topUpCritical_fresh s req ctx h
  obtain ⟨w1, w2, w3, w4⟩ := topUpWritten_rest s req ctx
  have hx := minerById_setMinerFields_same (topUpWritten s req ctx) req.id
    (fun m' : Miner => { m' with currentAIRO := ctx.afterChange }) (fun _ => rfl)
  have hmb : (topUpWritten s req ctx).minerById req.id = some m := by
    simp only [Store.minerById, w1]; exact hminer
  rw [hmb] at hx
  refine ⟨by rw [h2, hminer]; rfl, by rw [h1]; exact hx, ?_, ?_, ?_, ?_⟩
  · rw [h1]
    unfold topUpWritten
    split <;> simp [setMinerFields, createTransaction]
  · rw [h1]; simpa [setMinerFields] using w2
  · rw [h1]; simpa [setMinerFields] using w3
  · rw [h1]; simpa [setMinerFields] using w4

theorem topUpCritical_response_ok {s : Store} {req : TopUpRequest} {ctx : TopUpContext}
    (h : (topUpCritical s req ctx).response = Response.json 200 "OK") :
    findTopUpHistory s ctx.transaction.txHash = none ∧ ∃ m, s.minerById req.id = some m := by
  cases hf : findTopUpHistory s ctx.transaction.txHash with
  | some t =>
    rw [topUpCritical_used s req ctx t hf] at h
    simp at h
  | none =>
    refine ⟨rfl, ?_⟩
    rw [(topUpCritical_fresh s req ctx hf).2.1] at h
    cases hm : s.minerById req.id with
    | none => simp [hm] at h
    | some m => exact ⟨m, rfl⟩

theorem topUpAIRO_of_prepare {cfg : Config} {ledger : Ledger} {s : Store} {req : TopUpRequest}
    {ctx : TopUpContext} (h : topUpPrepare cfg ledger s req = Except.ok ctx) :
    topUpAIRO cfg ledger s req = topUpCritical s req ctx := by
  simp only [topUpAIRO, h]

theorem topUpAIRO_of_error {cfg : Config} {ledger : Ledger} {s : Store} {req : TopUpRequest}
    {r : Response} (h : topUpPrepare cfg ledger s req = Except.error r) :
    topUpAIRO cfg ledger s req = { store := s, response := r, effects := [] } := by
  simp only [topUpAIRO, h]

theorem topUpAIRO_fresh {cfg : Config} {ledger : Ledger} {s : Store} {req : TopUpRequest}
    {ctx : TopUpContext} (hprep : topUpPrepare cfg ledger s req = Except.ok ctx)
    (hfresh : findTopUpHistory s ctx.transaction.txHash = none) :
    (topUpAIRO cfg ledger s req).response = Response.json 200 "OK" ∧
    (topUpAIRO cfg ledger s req).store.minerById req.id
      = some { ctx.currentMiner with currentAIRO := ctx.afterChange } ∧
    (topUpAIRO cfg ledger s req).store.transactions
      = s.transactions ++ (if ctx.airoValue / ctx.denomination ≠ 0 then [topUpRecord req ctx]
          else []) ∧
    (topUpAIRO cfg ledger s req).store.keys = s.keys ∧
    (topUpAIRO cfg ledger s req).store.metrics = s.metrics ∧
    (topUpAIRO cfg ledger s req).store.rewards = s.rewards := by
  obtain ⟨m, tx, key, op, h1, _, _, _, _, _, _, _, _, _, hctx⟩ := topUpPrepare_ok_iff.mp hprep
  have hm : ctx.currentMiner = m := by rw [hctx]
  rw [topUpAIRO_of_prepare hprep, hm]
  exact topUpCritical_fresh_store s req ctx m hfresh h1

theorem findRewardKey_congr {s s' : Store} (h : s'.keys = s.keys) :
    findRewardKey s' = findRewardKey s := by
  simp only [findRewardKey, h]

theorem topUpPrepare_after {cfg : Config} {ledger : Ledger} {s s' : Store} {req : TopUpRequest}
    {ctx : TopUpContext} (c : ℚ) (hprep : topUpPrepare cfg ledger s req = Except.ok ctx)
    (hm : s'.minerById req.id = some { ctx.currentMiner with currentAIRO := c })
    (hk : s'.keys = s.keys) :
    ∃ ctx', topUpPrepare cfg ledger s' req = Except.ok ctx' ∧
      ctx'.transaction = ctx.transaction ∧ ctx'.airoValue = ctx.airoValue ∧
      ctx'.denomination = ctx.denomination ∧
      ctx'.currentMiner = { ctx.currentMiner with currentAIRO := c } := by
  obtain ⟨m, tx, key, op, _, h2, h3, h4, h5, h6, h7, h8, h9, h10, hctx⟩ :=
    topUpPrepare_ok_iff.mp hprep
  have hcm : ctx.currentMiner = m := by rw [hctx]
  rw [hcm] at hm
  refine ⟨_, topUpPrepare_ok_iff.mpr ⟨{ m with currentAIRO := c }, tx, key, op, hm, h2, h3, h4,
    h5, (findRewardKey_congr hk).trans h6, h7, h8, h9, h10, rfl⟩, ?_, ?_, ?_, ?_⟩
  · rw [hctx]
  · rw [hctx]
  · rw [hctx]
  · rw [hcm]

theorem findTopUpHistory_append_record (l : List Transaction) (s : Store) (req : TopUpRequest)
    (ctx : TopUpContext) (h : s.transactions = l ++ [topUpRecord req ctx]) :
    ∃ t, findTopUpHistory s ctx.transaction.txHash = some t := by
  unfold findTopUpHistory
  rw [h, List.find?_append]
  cases hl : l.find? (fun t => t.txHash == some ctx.transaction.txHash && t.type == "TOP-UP") with
  | some t => exact ⟨t, rfl⟩
  | none => exact ⟨topUpRecord req ctx, by simp [topUpRecord]⟩

theorem bank_prepare_zero :
    topUpPrepare Config.default okLedger bankStore (topUpReq "hz")
      = Except.ok (bankCtx txZero 0 0) :=
  topUpPrepare_ok_iff.mpr ⟨bankMiner, txZero, exKey, ⟨Field.null, 0, 0⟩, bankStore_miner,
    by simp [bankMiner, topUpReq], by simp [bankMiner, truthy],
    by simp [okLedger, topUpReq], by simp [txZero], bankStore_key,
    by simp [txZero, exKey], by simp [bankMiner, txZero], by simp [txZero],
    by simp [Config.tokenField, Config.default], rfl⟩

theorem bank_prepare_one :
    topUpPrepare Config.default okLedger bankStore (topUpReq "h1")
      = Except.ok (bankCtx txOne 1 0) :=
  topUpPrepare_ok_iff.mpr ⟨bankMiner, txOne, exKey, ⟨Field.null, 1, 0⟩, bankStore_miner,
    by simp [bankMiner, topUpReq], by simp [bankMiner, truthy],
    by simp [okLedger, topUpReq], by simp [txOne], bankStore_key,
    by simp [txOne, exKey], by simp [bankMiner, txOne], by simp [txOne],
    by simp [Config.tokenField, Config.default], rfl⟩

theorem bank_prepare_two :
    topUpPrepare Config.default okLedger bankStore (topUpReq "h2")
      = Except.ok (bankCtx txTwo 1 0) :=
  topUpPrepare_ok_iff.mpr ⟨bankMiner, txTwo, exKey, ⟨Field.null, 1, 0⟩, bankStore_miner,
    by simp [bankMiner, topUpReq], by simp [bankMiner, truthy],
    by simp [okLedger, topUpReq], by simp [txTwo], bankStore_key,
    by simp [txTwo, exKey], by simp [bankMiner, txTwo], by simp [txTwo],
    by simp [Config.tokenField, Config.default], rfl⟩

theorem bank_prepare_dust :
    topUpPrepare Config.default okLedger bankStore (topUpReq "h0")
      = Except.ok (bankCtx txDust 4 7) :=
  topUpPrepare_ok_iff.mpr ⟨bankMiner, txDust, exKey, ⟨Field.null, 4, 7⟩, bankStore_miner,
    by simp [bankMiner, topUpReq], by simp [bankMiner, truthy],
    by simp [okLedger, topUpReq], by simp [txDust], bankStore_key,
    by simp [txDust, exKey], by simp [bankMiner, txDust], by simp [txDust],
    by simp [Config.tokenField, Config.default], rfl⟩

theorem bank_fresh (h : String) : findTopUpHistory bankStore h = none := by
  simp [findTopUpHistory, bankStore]

/-- C3, as stated, fails: the transfer `hz` of value 0 passes the verification,
the first call succeeds and the second call succeeds again instead of failing
with 'Hash already used'. -/
theorem topUpAIRO_twice_counterexample :
    (∃ ctx, topUpPrepare Config.default okLedger bankStore (topUpReq "hz") = Except.ok ctx) ∧
    (topUpAIRO Config.default okLedger bankStore (topUpReq "hz")).response
      = Response.json 200 "OK" ∧
    (topUpAIRO Config.default okLedger
        (topUpAIRO Config.default okLedger bankStore (topUpReq "hz")).store
        (topUpReq "hz")).response = Response.json 200 "OK" ∧
    Response.json 200 "OK" ≠ Response.json 400 "Hash already used" := by
  obtain ⟨f1, f2, f3, f4, _, _⟩ := topUpAIRO_fresh bank_prepare_zero (bank_fresh _)
  obtain ⟨ctx', hp', ht', hv', hd', _⟩ :=
    topUpPrepare_after (bankCtx txZero 0 0).afterChange bank_prepare_zero f2 f4
  have hfresh' : findTopUpHistory
      (topUpAIRO Config.default okLedger bankStore (topUpReq "hz")).store
      ctx'.transaction.txHash = none := by
    unfold findTopUpHistory
    rw [f3]
    simp [bankCtx, bankStore]
  exact ⟨⟨_, bank_prepare_zero⟩, f1, (topUpAIRO_fresh hp' hfresh').1, by simp⟩

/-- C3 as amended: for a ledger transaction that passes the verification, whose
hash no TOP-UP record carries yet and whose credited amount is not zero, the
first of two calls in a row succeeds, appends the TOP-UP record and sets the
balance to `currentAIRO + credited` rounded to 6 decimals (a multiple of
0.000001 at most 0.0000005 away from the sum), the other fields of the miner
staying as they are; the second fails with 'Hash already used' and leaves the
store as it is. -/
theorem topUpAIRO_twice (cfg : Config) (ledger : Ledger) (s : Store) (req : TopUpRequest)
    (ctx : TopUpContext)
    (hprep : topUpPrepare cfg ledger s req = Except.ok ctx)
    (hfresh : findTopUpHistory s ctx.transaction.txHash = none)
    (hnz : ctx.airoValue / ctx.denomination ≠ 0) :
    (topUpAIRO cfg ledger s req).response = Response.json 200 "OK" ∧
    (∃ m, (topUpAIRO cfg ledger s req).store.minerById req.id = some m ∧
      m = { ctx.currentMiner with currentAIRO := m.currentAIRO } ∧
      RoundedTo 6 (ctx.currentMiner.currentAIRO + ctx.airoValue / ctx.denomination)
        m.currentAIRO) ∧
    (topUpAIRO cfg ledger s req).store.transactions = s.transactions ++ [topUpRecord req ctx] ∧
    (topUpAIRO cfg ledger (topUpAIRO cfg ledger s req).store req).response
      = Response.json 400 "Hash already used" ∧
    (topUpAIRO cfg ledger (topUpAIRO cfg ledger s req).store req).effects = [] ∧
    (topUpAIRO cfg ledger (topUpAIRO cfg ledger s req).store req).store
      = (topUpAIRO cfg ledger s req).store := by
  obtain ⟨f1, f2, f3, f4, _, _⟩ := topUpAIRO_fresh hprep hfresh
  simp only [hnz, ne_eq, not_false_eq_true, if_true] at f3
  obtain ⟨ctx', hp', ht', _, _, _⟩ := topUpPrepare_after ctx.afterChange hprep f2 f4
  obtain ⟨t, hused⟩ := findTopUpHistory_append_record _ _ req ctx f3
  have hsecond := topUpCritical_used (topUpAIRO cfg ledger s req).store req ctx' t
    (by rw [ht']; exact hused)
  rw [← topUpAIRO_of_prepare hp'] at hsecond
  have hafter : ctx.afterChange
      = fixed (ctx.currentMiner.currentAIRO + ctx.airoValue / ctx.denomination) 6 := by
    obtain ⟨m, tx, key, op, _, _, _, _, _, _, _, _, _, _, hctx⟩ := topUpPrepare_ok_iff.mp hprep
    rw [hctx]
  refine ⟨f1, ⟨_, f2, rfl, ?_⟩, f3, ?_, ?_, ?_⟩
  · show RoundedTo 6 _ ctx.afterChange
    rw [hafter]
    exact fixed_roundedTo _ 6
  · rw [hsecond]
  · rw [hsecond]
  · rw [hsecond]

/-- Witness of the amended C3: the transfer `h1` of 1 unit, submitted twice for
`bankMiner`. -/
theorem topUpAIRO_twice_witness :
    (topUpAIRO Config.default okLedger bankStore (topUpReq "h1")).response
      = Response.json 200 "OK" ∧
    (topUpAIRO Config.default okLedger
        (topUpAIRO Config.default okLedger bankStore (topUpReq "h1")).store
        (topUpReq "h1")).response = Response.json 400 "Hash already used" := by
  have h := topUpAIRO_twice Config.default okLedger bankStore (topUpReq "h1") (bankCtx txOne 1 0)
    bank_prepare_one (bank_fresh _) (by norm_num [bankCtx])
  exact ⟨h.1, h.2.2.2.1⟩

/-- C6: `topUpAIRO` changes the store only if the ledger transaction exists with
status `success`, its receiver is the reward key's address, its sender is the
wallet bound to the requester's miner and the asset identifier of its transfer
is the configured one; when one of these fails the request fails and the store,
Transactions and balances included, is as before. -/
theorem topUpAIRO_verified (cfg : Config) (ledger : Ledger) (s : Store) (req : TopUpRequest) :
    let verified := ∃ tx, ledger.getTransaction req.hash = some tx ∧ tx.status = "success" ∧
      (∃ key, findRewardKey s = some key ∧ tx.receiver = key.keyName) ∧
      (∃ m, s.minerById req.id = some m ∧ m.userId = some req.userId ∧
        m.wallet = some tx.sender) ∧
      (∃ op, tx.operations.head? = some op ∧ op.identifier = cfg.tokenField)
    ((topUpAIRO cfg ledger s req).store ≠ s → verified) ∧
    (¬ verified →
      (topUpAIRO cfg ledger s req).response ≠ Response.json 200 "OK" ∧
      (topUpAIRO cfg ledger s req).effects = [] ∧
      (topUpAIRO cfg ledger s req).store.transactions = s.transactions ∧
      (topUpAIRO cfg ledger s req).store.miners = s.miners) := by
  intro verified
  have key : ¬ verified → ∃ r, topUpPrepare cfg ledger s req = Except.error r := by
    intro hv
    cases hp : topUpPrepare cfg ledger s req with
    | error r => exact ⟨r, rfl⟩
    | ok ctx =>
      exfalso
      obtain ⟨m, tx, k, op, h1, h2, _, h4, h5, h6, h7, h8, h9, h10, _⟩ :=
        topUpPrepare_ok_iff.mp hp
      exact hv ⟨tx, h4, h5, ⟨k, h6, h7⟩, ⟨m, h1, h2, h8⟩, ⟨op, h9, h10⟩⟩
  refine ⟨?_, ?_⟩
  · intro hne
    by_contra hv
    obtain ⟨r, hr⟩ := key hv
    rw [topUpAIRO_of_error hr] at hne
    exact hne rfl
  · intro hv
    obtain ⟨r, hr⟩ := key hv
    rw [topUpAIRO_of_error hr]
    exact ⟨topUpPrepare_error_ne_ok hr, rfl, rfl, rfl⟩

/-- C7, as stated, fails: the transfer `h0` of 4 base units with 7 decimals is
credited to `bankMiner` successfully, the TOP-UP record carries the value
0.0000004, and the stored balance is 100, not 100.0000004. -/
theorem topUpAIRO_credit_counterexample :
    (topUpAIRO Config.default okLedger bankStore (topUpReq "h0")).response
      = Response.json 200 "OK" ∧
    (∃ t, (topUpAIRO Config.default okLedger bankStore (topUpReq "h0")).store.transactions
        = bankStore.transactions ++ [t] ∧ t.type = "TOP-UP" ∧ t.value = 4 / 10 ^ 7) ∧
    ∃ m, (topUpAIRO Config.default okLedger bankStore (topUpReq "h0")).store.minerById "m1"
        = some m ∧ m.currentAIRO = 100 ∧
      m.currentAIRO ≠ bankMiner.currentAIRO + 4 / 10 ^ 7 := by
  obtain ⟨f1, f2, f3, _⟩ := topUpAIRO_fresh bank_prepare_dust (bank_fresh _)
  have hnz : (bankCtx txDust 4 7).airoValue / (bankCtx txDust 4 7).denomination ≠ 0 := by
    norm_num [bankCtx]
  simp only [hnz, ne_eq, not_false_eq_true, if_true] at f3
  have h100 : (bankCtx txDust 4 7).afterChange = 100 := by
    show fixed (bankMiner.currentAIRO + 4 / 10 ^ 7) 6 = 100
    rw [fixed_eval _ 6 100000000 (by norm_num [bankMiner]) (by norm_num [bankMiner])
      (by norm_num [bankMiner]) (by norm_num [bankMiner])]
    norm_num
  refine ⟨f1, ⟨_, f3, rfl, by simp [topUpRecord, bankCtx]⟩, _, f2, h100, ?_⟩
  show (bankCtx txDust 4 7).afterChange ≠ _
  rw [h100]
  norm_num [bankMiner]

/-- C7 as amended: a successful `topUpAIRO` call credits `value / 10^decimals` of
the first operation of the ledger transaction; it sets the balance to
`currentAIRO_before + value / 10^decimals` rounded to 6 decimals (a multiple of
0.000001 at most 0.0000005 away from the sum), the other fields of the miner
staying as they are, and appends one TOP-UP record with the credited amount as
`value` when the amount is not zero, none when it is zero. -/
theorem topUpAIRO_credit (cfg : Config) (ledger : Ledger) (s : Store) (req : TopUpRequest)
    (hok : (topUpAIRO cfg ledger s req).response = Response.json 200 "OK") :
    ∃ m tx op after, s.minerById req.id = some m ∧ ledger.getTransaction req.hash = some tx ∧
      tx.operations.head? = some op ∧
      (topUpAIRO cfg ledger s req).store.minerById req.id = some after ∧
      after = { m with currentAIRO := after.currentAIRO } ∧
      RoundedTo 6 (m.currentAIRO + op.value / 10 ^ op.decimals) after.currentAIRO ∧
      (op.value / 10 ^ op.decimals ≠ 0 →
        ∃ t, (topUpAIRO cfg ledger s req).store.transactions = s.transactions ++ [t] ∧
          t.type = "TOP-UP" ∧ t.value = op.value / 10 ^ op.decimals ∧
          t.txHash = some tx.txHash ∧ t.minerId = req.id) ∧
      (op.value / 10 ^ op.decimals = 0 →
        (topUpAIRO cfg ledger s req).store.transactions = s.transactions) := by
  cases hp : topUpPrepare cfg ledger s req with
  | error r =>
    rw [topUpAIRO_of_error hp] at hok
    exact absurd hok (topUpPrepare_error_ne_ok hp)
  | ok ctx =>
    rw [topUpAIRO_of_prepare hp] at hok
    obtain ⟨hfresh, _⟩ := topUpCritical_response_ok hok
    obtain ⟨_, f2, f3, _⟩ := topUpAIRO_fresh hp hfresh
    obtain ⟨m, tx, key, op, h1, _, _, h4, _, _, _, _, h9, _, hctx⟩ := topUpPrepare_ok_iff.mp hp
    subst hctx
    refine ⟨m, tx, op, _, h1, h4, h9, f2, rfl, fixed_roundedTo _ 6, ?_, ?_⟩
    · intro hnz
      refine ⟨topUpRecord req ⟨m, tx, op.value, 10 ^ op.decimals,
        fixed (m.currentAIRO + op.value / 10 ^ op.decimals) 6⟩, ?_, rfl, rfl, rfl, rfl⟩
      rw [f3]
      simp only [hnz, ne_eq, not_false_eq_true, if_true]
    · intro hz
      rw [f3]
      simp [hz]

/-- Witness of the amended C7: the transfer `h1` credits 1 to the balance 100. -/
theorem topUpAIRO_credit_witness :
    ∃ m tx op after, bankStore.minerById (topUpReq "h1").id = some m ∧
      okLedger.getTransaction (topUpReq "h1").hash = some tx ∧
      tx.operations.head? = some op ∧
      (topUpAIRO Config.default okLedger bankStore (topUpReq "h1")).store.minerById
          (topUpReq "h1").id = some after ∧
      RoundedTo 6 (m.currentAIRO + op.value / 10 ^ op.decimals) after.currentAIRO := by
  obtain ⟨m, tx, op, after, h1, h2, h3, h4, _, h6, _⟩ := topUpAIRO_credit Config.default
    okLedger bankStore (topUpReq "h1") (topUpAIRO_fresh bank_prepare_one (bank_fresh _)).1
  exact ⟨m, tx, op, after, h1, h2, h3, h4, h6⟩

/-- Witness of C6: a hash the ledger does not know leaves `bankStore` as it is. -/
theorem topUpAIRO_verified_witness :
    (topUpAIRO Config.default poorLedger bankStore (topUpReq "h1")).response
      ≠ Response.json 200 "OK" ∧
    (topUpAIRO Config.default poorLedger bankStore (topUpReq "h1")).store.transactions
      = bankStore.transactions ∧
    (topUpAIRO Config.default poorLedger bankStore (topUpReq "h1")).store.miners
      = bankStore.miners := by
  have h := (topUpAIRO_verified Config.default poorLedger bankStore (topUpReq "h1")).2
    (by simp [poorLedger])
  exact ⟨h.1, h.2.2.1, h.2.2.2⟩

/-! ## Serial and racing executions -/

theorem withdrawPrepare_error_ne_ok {s : Store} {req : WithdrawRequest} {r : Response}
    (h : withdrawPrepare s req = Except.error r) : r ≠ Response.json 200 "OK" := by
  unfold withdrawPrepare at h
  repeat' split at h
  all_goals first
    | (cases h; simp)
    | cases h

theorem withdrawAIRO_sent {ledger : Ledger} {s : Store} {req : WithdrawRequest} {m : Miner}
    {key : Key} {q : ℚ}
    (hminer : s.minerById req.id = some m) (huser : m.userId = some req.userId)
    (hwallet : truthy m.wallet = true) (hkey : findRewardKey s = some key)
    (hq : req.withdraw = JSNumber.finite q) (hpos : 0 < q) (hle : q ≤ m.currentAIRO)
    (hs : ledger.send key (m.wallet.getD "") q = SendResult.ok) :
    (withdrawAIRO ledger s req).response = Response.json 200 "OK" ∧
    (withdrawAIRO ledger s req).store.minerById req.id
      = some { m with currentAIRO := m.currentAIRO - q } ∧
    (withdrawAIRO ledger s req).effects
      = [Effect.ledgerSend key (m.wallet.getD "") q,
          Effect.transactionWritten (withdrawRecord req
            { currentMiner := m, withdrawNum := req.withdraw, from_ := key } "success" none),
          Effect.balanceSet req.id (m.currentAIRO - q)] ∧
    (withdrawAIRO ledger s req).store.transactions
      = s.transactions ++ [withdrawRecord req
          { currentMiner := m, withdrawNum := req.withdraw, from_ := key } "success" none] ∧
    (withdrawAIRO ledger s req).store.metrics = s.metrics ∧
    (withdrawAIRO ledger s req).store.rewards = s.rewards ∧
    (withdrawAIRO ledger s req).store.keys = s.keys := by
  have hw := withdrawAIRO_of_prepare ledger hminer huser hwallet hkey
  obtain ⟨h1, h2, h3⟩ := withdrawCritical_sent ledger s req
    { currentMiner := m, withdrawNum := req.withdraw, from_ := key } q hq hpos hle hs
  rw [← hw] at h1 h2 h3
  have hx := minerById_setMinerFields_same (createTransaction s (withdrawRecord req
      { currentMiner := m, withdrawNum := req.withdraw, from_ := key } "success" none)) req.id
    (fun m' : Miner => { m' with currentAIRO := m.currentAIRO - q }) (fun _ => rfl)
  have hy : (createTransaction s (withdrawRecord req
      { currentMiner := m, withdrawNum := req.withdraw, from_ := key } "success" none)).minerById
      req.id = some m := hminer
  rw [hy] at hx
  refine ⟨by rw [h3, hminer]; rfl, by rw [h1]; exact hx, h2, ?_, ?_, ?_, ?_⟩
  all_goals rw [h1]; simp [setMinerFields, createTransaction]

theorem withdrawAIRO_ok_inv {ledger : Ledger} {s : Store} {req : WithdrawRequest}
    (hok : (withdrawAIRO ledger s req).response = Response.json 200 "OK") :
    ∃ m q, s.minerById req.id = some m ∧ req.withdraw = JSNumber.finite q ∧
      (withdrawAIRO ledger s req).store.minerById req.id
        = some { m with currentAIRO := m.currentAIRO - q } := by
  cases hp : withdrawPrepare s req with
  | error r =>
    have : withdrawAIRO ledger s req = { store := s, response := r, effects := [] } := by
      simp only [withdrawAIRO, hp]
    rw [this] at hok
    exact absurd hok (withdrawPrepare_error_ne_ok hp)
  | ok ctx =>
    obtain ⟨m, key, h1, h2, h3, h4, hctx⟩ := withdrawPrepare_ok_iff.mp hp
    have hw := withdrawAIRO_of_prepare ledger h1 h2 h3 h4
    by_cases hv : ∃ q, req.withdraw = JSNumber.finite q ∧ 0 < q ∧ q ≤ m.currentAIRO
    · obtain ⟨q, hq, hpos, hle⟩ := hv
      by_cases hs : ledger.send key (m.wallet.getD "") q = SendResult.ok
      · exact ⟨m, q, h1, hq, (withdrawAIRO_sent h1 h2 h3 h4 hq hpos hle hs).2.1⟩
      · have hf := withdrawCritical_failed ledger s req
          { currentMiner := m, withdrawNum := req.withdraw, from_ := key } q hq hpos hle hs
        rw [← hw] at hf
        rw [hf] at hok
        simp at hok
    · have hi := withdrawCritical_invalid ledger s req
        { currentMiner := m, withdrawNum := req.withdraw, from_ := key } hv
      rw [← hw] at hi
      rw [hi] at hok
      simp at hok

theorem topUpAIRO_ok_inv {cfg : Config} {ledger : Ledger} {s : Store} {req : TopUpRequest}
    (hok : (topUpAIRO cfg ledger s req).response = Response.json 200 "OK") :
    ∃ m tx op, s.minerById req.id = some m ∧ ledger.getTransaction req.hash = some tx ∧
      tx.operations.head? = some op ∧
      (topUpAIRO cfg ledger s req).store.minerById req.id
        = some { m with currentAIRO := fixed (m.currentAIRO + op.value / 10 ^ op.decimals) 6 } ∧
      (topUpAIRO cfg ledger s req).store.transactions
        = s.transactions ++ (if op.value / 10 ^ op.decimals ≠ 0
            then [topUpRecord req ⟨m, tx, op.value, 10 ^ op.decimals,
              fixed (m.currentAIRO + op.value / 10 ^ op.decimals) 6⟩] else []) := by
  cases hp : topUpPrepare cfg ledger s req with
  | error r =>
    rw [topUpAIRO_of_error hp] at hok
    exact absurd hok (topUpPrepare_error_ne_ok hp)
  | ok ctx =>
    rw [topUpAIRO_of_prepare hp] at hok
    obtain ⟨hfresh, _⟩ := topUpCritical_response_ok hok
    obtain ⟨_, f2, f3, _⟩ := topUpAIRO_fresh hp hfresh
    obtain ⟨m, tx, key, op, h1, _, _, h4, _, _, _, _, h9, _, hctx⟩ := topUpPrepare_ok_iff.mp hp
    subst hctx
    exact ⟨m, tx, op, h1, h4, h9, f2, f3⟩

theorem tick_balance (cfg : Config) {now : ℚ} {s : Store} {reward : RewardPeriod}
    {minerId : String} {miner : Miner}
    (hactive : findActiveReward s now = some reward)
    (hcand : minerId ∈ getTotalMiners cfg now s none)
    (hminer : s.minerById minerId = some miner)
    (hage : 0 < miner.ageRate)
    (huser : miner.userId ≠ none ∧ miner.userId ≠ some "") :
    ∃ m, (rewardDistribution cfg now s).minerById minerId = some m ∧
      m.currentAIRO = fixed (miner.currentAIRO
        + specReward cfg reward (totalEligible s (getTotalMiners cfg now s none))
            (countMetrics s minerId reward.startWeek) miner) 6 := by
  obtain ⟨m, hm, hc, _⟩ :=
    (tick_eligible cfg now s reward minerId miner hactive hcand hminer hage huser).1
  exact ⟨m, hm, hc⟩

theorem bankStore_active : findActiveReward bankStore 600 = some exPeriod := by
  norm_num [findActiveReward, bankStore, exPeriod]

theorem bankStore_candidates : getTotalMiners Config.default 600 bankStore none = ["m1"] := by
  simp [getTotalMiners, bankStore, exMetric, Config.default, uniq]

theorem bankStore_reward :
    specReward Config.default exPeriod (totalEligible bankStore ["m1"])
      (countMetrics bankStore "m1" exPeriod.startWeek) bankMiner = 20 := by
  have h1 : countMetrics bankStore "m1" exPeriod.startWeek = 1 := by
    simp [countMetrics, bankStore, exMetric, exPeriod]
  have h2 : totalEligible bankStore ["m1"] = 1 := by
    simp [totalEligible, bankStore_miner, bankMiner]
  have h3 : findCoefficient ((1 : ℕ) : ℚ) ((5 : ℤ) : ℚ) = 1 / 5 := by
    norm_num [findCoefficient, mathRound]
  rw [h1, h2]
  simp only [specReward, Config.default, h3]
  rw [fixed_eval _ 5 2000000 (by norm_num [bankMiner, getHealth, exPeriod])
    (by norm_num [bankMiner, getHealth, exPeriod]) (by norm_num [bankMiner, getHealth, exPeriod])
    (by norm_num [bankMiner, getHealth, exPeriod])]
  norm_num

theorem bank_withdraw_sent :
    (withdrawAIRO okLedger bankStore raceWithdraw).response = Response.json 200 "OK" ∧
    (withdrawAIRO okLedger bankStore raceWithdraw).store.minerById raceWithdraw.id
      = some { bankMiner with currentAIRO := bankMiner.currentAIRO - 50 } ∧
    (withdrawAIRO okLedger bankStore raceWithdraw).effects
      = [Effect.ledgerSend exKey (bankMiner.wallet.getD "") 50,
          Effect.transactionWritten (withdrawRecord raceWithdraw
            { currentMiner := bankMiner, withdrawNum := raceWithdraw.withdraw, from_ := exKey }
            "success" none),
          Effect.balanceSet raceWithdraw.id (bankMiner.currentAIRO - 50)] ∧
    (withdrawAIRO okLedger bankStore raceWithdraw).store.transactions
      = bankStore.transactions ++ [withdrawRecord raceWithdraw
          { currentMiner := bankMiner, withdrawNum := raceWithdraw.withdraw, from_ := exKey }
          "success" none] ∧
    (withdrawAIRO okLedger bankStore raceWithdraw).store.metrics = bankStore.metrics ∧
    (withdrawAIRO okLedger bankStore raceWithdraw).store.rewards = bankStore.rewards ∧
    (withdrawAIRO okLedger bankStore raceWithdraw).store.keys = bankStore.keys :=
  withdrawAIRO_sent (s := bankStore) bankStore_miner (by simp [bankMiner, raceWithdraw])
    (by simp [bankMiner, truthy]) bankStore_key rfl (by norm_num) (by norm_num [bankMiner]) rfl

theorem getTotalMiners_congr (cfg : Config) (now : ℚ) {s s' : Store}
    (h : s'.metrics = s.metrics) :
    getTotalMiners cfg now s' none = getTotalMiners cfg now s none := by
  simp only [getTotalMiners, h]

theorem findActiveReward_congr (now : ℚ) {s s' : Store} (h : s'.rewards = s.rewards) :
    findActiveReward s' now = findActiveReward s now := by
  simp only [findActiveReward, h]

theorem bank_serial_balance :
    ∃ m, (rewardDistribution Config.default 600
        (withdrawAIRO okLedger bankStore raceWithdraw).store).minerById "m1" = some m ∧
      m.currentAIRO = 70 := by
  obtain ⟨_, w2, _, _, w5, w6, _⟩ := bank_withdraw_sent
  have hw2 : (withdrawAIRO okLedger bankStore raceWithdraw).store.minerById "m1"
      = some { bankMiner with currentAIRO := bankMiner.currentAIRO - 50 } := w2
  have hcands : getTotalMiners Config.default 600
      (withdrawAIRO okLedger bankStore raceWithdraw).store none = ["m1"] :=
    (getTotalMiners_congr Config.default 600 w5).trans bankStore_candidates
  obtain ⟨m, hm, hc⟩ := tick_balance Config.default
    ((findActiveReward_congr 600 w6).trans bankStore_active)
    (by rw [hcands]; simp) hw2 (by norm_num [bankMiner]) (by simp [bankMiner])
  refine ⟨m, hm, ?_⟩
  have h1 : countMetrics (withdrawAIRO okLedger bankStore raceWithdraw).store "m1"
      exPeriod.startWeek = 1 := by
    simp only [countMetrics, w5]
    simp [bankStore, exMetric, exPeriod]
  have h2 : totalEligible (withdrawAIRO okLedger bankStore raceWithdraw).store ["m1"] = 1 := by
    simp [totalEligible, hw2, bankMiner]
  have h3 : findCoefficient ((1 : ℕ) : ℚ) ((5 : ℤ) : ℚ) = 1 / 5 := by
    norm_num [findCoefficient, mathRound]
  rw [hc, hcands, h1, h2]
  simp only [specReward, Config.default, h3]
  rw [fixed_eval (1 / 5 * ((bankMiner.ageRate + getHealth bankMiner.totalRewards
      (bankMiner.currentAIRO - 50)) / 200) * (exPeriod.weeklyReward / ((1 : ℕ) : ℚ))) 5 2000000
    (by norm_num [bankMiner, getHealth, exPeriod])
    (by norm_num [bankMiner, getHealth, exPeriod]) (by norm_num [bankMiner, getHealth, exPeriod])
    (by norm_num [bankMiner, getHealth, exPeriod])]
  rw [fixed_eval _ 6 70000000 (by norm_num [bankMiner]) (by norm_num [bankMiner])
    (by norm_num [bankMiner]) (by norm_num [bankMiner])]
  norm_num

/-- C8, the divergence: on `bankStore` the callback of the tick reads the
balance 100 of `m1`, the withdrawal of 50 runs to its successful end while the
callback is suspended between its read and its write, and the callback then
stores 120: the reward 20 is paid, 50 are sent to the ledger, and the balance
is not 100 + 20 - 50.  Run one after the other, the same withdrawal and tick
leave 70. -/
theorem tick_withdraw_race_lost_update :
    (withdrawAIRO okLedger bankStore raceWithdraw).response = Response.json 200 "OK" ∧
    Effect.ledgerSend exKey "w1" 50 ∈ (withdrawAIRO okLedger bankStore raceWithdraw).effects ∧
    (∃ t ∈ (rewardDistributionWith (fun _ st => (withdrawAIRO okLedger st raceWithdraw).store)
        Config.default 600 bankStore).transactions,
      t.type = "REWARD" ∧ t.minerId = "m1" ∧ t.value = 20) ∧
    (∃ m, (rewardDistributionWith (fun _ st => (withdrawAIRO okLedger st raceWithdraw).store)
        Config.default 600 bankStore).minerById "m1" = some m ∧ m.currentAIRO = 120) ∧
    (120 : ℚ) ≠ bankMiner.currentAIRO + 20 - 50 ∧
    (∃ m, (rewardDistribution Config.default 600
        (withdrawAIRO okLedger bankStore raceWithdraw).store).minerById "m1" = some m ∧
      m.currentAIRO = 70) := by
  obtain ⟨w1, w2, w3, w4, _⟩ := bank_withdraw_sent
  obtain ⟨u, hu, huid, hum, _, hur⟩ := rewardCompute_eligible Config.default exPeriod
    (totalEligible bankStore ["m1"]) bankStore "m1" bankMiner bankStore_miner
    (by norm_num [bankMiner]) (by simp [bankMiner])
  rw [bankStore_reward] at hur
  have hafter : rewardDistributionWith (fun _ st => (withdrawAIRO okLedger st raceWithdraw).store)
      Config.default 600 bankStore
      = (setRewardFields (rewardApply Config.default exPeriod (totalEligible bankStore ["m1"])
          (withdrawAIRO okLedger bankStore raceWithdraw).store u) exPeriod._id (fun r =>
          { r with
            startWeek := exPeriod.endWeek
            endWeek := exPeriod.endWeek + Config.default.PERIOD_REWARD
            weeksLeft := exPeriod.weeksLeft - 1 })).1 := by
    simp only [rewardDistributionWith, bankStore_active, bankStore_candidates, List.foldl,
      countActiveMiners_eq, distributeOne, hu]
  have hmid := rewardApply_minerById_same Config.default exPeriod (totalEligible bankStore ["m1"])
    (withdrawAIRO okLedger bankStore raceWithdraw).store u
  rw [huid] at hmid
  have hw2 : (withdrawAIRO okLedger bankStore raceWithdraw).store.minerById "m1"
      = some { bankMiner with currentAIRO := bankMiner.currentAIRO - 50 } := w2
  rw [hw2] at hmid
  have hrest := (rewardApply_rest Config.default exPeriod (totalEligible bankStore ["m1"])
    (withdrawAIRO okLedger bankStore raceWithdraw).store u).2.2.2
  have h120 : fixed (bankMiner.currentAIRO + 20) 6 = 120 := by
    rw [fixed_eval _ 6 120000000 (by norm_num [bankMiner]) (by norm_num [bankMiner])
      (by norm_num [bankMiner]) (by norm_num [bankMiner])]
    norm_num
  refine ⟨w1, ?_, ?_, ?_, by norm_num [bankMiner], bank_serial_balance⟩
  · rw [w3]; simp [bankMiner]
  · refine ⟨rewardRecord Config.default exPeriod (totalEligible bankStore ["m1"]) u, ?_, rfl,
      huid, hur⟩
    rw [hafter]
    show _ ∈ (rewardApply Config.default exPeriod (totalEligible bankStore ["m1"])
      (withdrawAIRO okLedger bankStore raceWithdraw).store u).transactions
    rw [hrest]
    simp [RewardUpdate.records, hur]
  · refine ⟨u.set { bankMiner with currentAIRO := bankMiner.currentAIRO - 50 }, ?_, ?_⟩
    · rw [hafter]
      show (rewardApply Config.default exPeriod (totalEligible bankStore ["m1"])
        (withdrawAIRO okLedger bankStore raceWithdraw).store u).minerById "m1" = _
      rw [hmid]
      rfl
    · show fixed (u.miner.currentAIRO + u.currentReward) 6 = 120
      rw [hum, hur, h120]

theorem bank_withdrawPrepare (req : WithdrawRequest) (hid : req.id = "m1")
    (hu : req.userId = "u1") :
    withdrawPrepare bankStore req = Except.ok (bankWithdrawCtx req) :=
  withdrawPrepare_ok_iff.mpr ⟨bankMiner, exKey, by rw [hid]; exact bankStore_miner,
    by rw [hu]; rfl, by simp [bankMiner, truthy], bankStore_key, rfl⟩

/-- C9 at the failing input: two top-ups of 1 unit each with the distinct
hashes `h1` and `h2` both pass the verification on `bankStore` before either
enters the mutex; run one after the other under the mutex, both answer OK and
the balance ends at 101, not at 100 + 1 + 1. -/
theorem topUp_race_lost_update :
    topUpPrepare Config.default okLedger bankStore (topUpReq "h1")
      = Except.ok (bankCtx txOne 1 0) ∧
    topUpPrepare Config.default okLedger bankStore (topUpReq "h2")
      = Except.ok (bankCtx txTwo 1 0) ∧
    (topUpCritical bankStore (topUpReq "h1") (bankCtx txOne 1 0)).response
      = Response.json 200 "OK" ∧
    (topUpCritical (topUpCritical bankStore (topUpReq "h1") (bankCtx txOne 1 0)).store
        (topUpReq "h2") (bankCtx txTwo 1 0)).response = Response.json 200 "OK" ∧
    (∃ m, (topUpCritical (topUpCritical bankStore (topUpReq "h1") (bankCtx txOne 1 0)).store
        (topUpReq "h2") (bankCtx txTwo 1 0)).store.minerById "m1" = some m ∧
      m.currentAIRO = 101) ∧
    (101 : ℚ) ≠ bankMiner.currentAIRO + 1 + 1 := by
  obtain ⟨f1, f2, f3, _⟩ := topUpCritical_fresh_store bankStore (topUpReq "h1")
    (bankCtx txOne 1 0) bankMiner (bank_fresh _) bankStore_miner
  have hfresh : findTopUpHistory
      (topUpCritical bankStore (topUpReq "h1") (bankCtx txOne 1 0)).store
      (bankCtx txTwo 1 0).transaction.txHash = none := by
    unfold findTopUpHistory
    rw [f3]
    simp [bankStore, bankCtx, topUpRecord, txOne, txTwo]
  obtain ⟨g1, g2, _⟩ := topUpCritical_fresh_store
    (topUpCritical bankStore (topUpReq "h1") (bankCtx txOne 1 0)).store (topUpReq "h2")
    (bankCtx txTwo 1 0) _ hfresh f2
  have h101 : (bankCtx txTwo 1 0).afterChange = 101 := by
    show fixed (bankMiner.currentAIRO + 1 / 10 ^ 0) 6 = 101
    rw [fixed_eval _ 6 101000000 (by norm_num [bankMiner]) (by norm_num [bankMiner])
      (by norm_num [bankMiner]) (by norm_num [bankMiner])]
    norm_num
  exact ⟨bank_prepare_one, bank_prepare_two, f1, g1, ⟨_, g2, h101⟩, by norm_num [bankMiner]⟩

/-- C10 at the failing input: withdrawals of 60 and of 50 both read the balance
100 of `m1` before either enters the mutex; the first commits and stores 40,
the second, run under the mutex afterwards, is validated against the 100 read
earlier, answers OK and sends 50: 110 are sent from a balance of 100. -/
theorem withdraw_race_overdraw :
    withdrawPrepare bankStore raceWithdraw60 = Except.ok (bankWithdrawCtx raceWithdraw60) ∧
    withdrawPrepare bankStore raceWithdraw = Except.ok (bankWithdrawCtx raceWithdraw) ∧
    (∃ m, (withdrawCritical okLedger bankStore raceWithdraw60
        (bankWithdrawCtx raceWithdraw60)).store.minerById "m1" = some m ∧ m.currentAIRO = 40) ∧
    Effect.ledgerSend exKey "w1" 60 ∈ (withdrawCritical okLedger bankStore raceWithdraw60
      (bankWithdrawCtx raceWithdraw60)).effects ∧
    (withdrawCritical okLedger
        (withdrawCritical okLedger bankStore raceWithdraw60 (bankWithdrawCtx raceWithdraw60)).store
        raceWithdraw (bankWithdrawCtx raceWithdraw)).response = Response.json 200 "OK" ∧
    Effect.ledgerSend exKey "w1" 50 ∈ (withdrawCritical okLedger
        (withdrawCritical okLedger bankStore raceWithdraw60 (bankWithdrawCtx raceWithdraw60)).store
        raceWithdraw (bankWithdrawCtx raceWithdraw)).effects ∧
    bankMiner.currentAIRO < 60 + 50 := by
  obtain ⟨a1, a2, _⟩ := withdrawCritical_sent okLedger bankStore raceWithdraw60
    (bankWithdrawCtx raceWithdraw60) 60 rfl (by norm_num) (by norm_num [bankWithdrawCtx, bankMiner])
    rfl
  have hfirst : (withdrawCritical okLedger bankStore raceWithdraw60
      (bankWithdrawCtx raceWithdraw60)).store.minerById "m1"
      = some { bankMiner with currentAIRO := bankMiner.currentAIRO - 60 } := by
    rw [a1]
    have hx := minerById_setMinerFields_same (createTransaction bankStore
        (withdrawRecord raceWithdraw60 (bankWithdrawCtx raceWithdraw60) "success" none)) "m1"
      (fun m' : Miner => { m' with currentAIRO := bankMiner.currentAIRO - 60 }) (fun _ => rfl)
    have hy : (createTransaction bankStore (withdrawRecord raceWithdraw60
        (bankWithdrawCtx raceWithdraw60) "success" none)).minerById "m1" = some bankMiner :=
      bankStore_miner
    rw [hy] at hx
    exact hx
  obtain ⟨_, b2, b3⟩ := withdrawCritical_sent okLedger
    (withdrawCritical okLedger bankStore raceWithdraw60 (bankWithdrawCtx raceWithdraw60)).store
    raceWithdraw (bankWithdrawCtx raceWithdraw) 50 rfl (by norm_num)
    (by norm_num [bankWithdrawCtx, bankMiner]) rfl
  refine ⟨bank_withdrawPrepare _ rfl rfl, bank_withdrawPrepare _ rfl rfl,
    ⟨_, hfirst, by norm_num [bankMiner]⟩, ?_, ?_, ?_, by norm_num [bankMiner]⟩
  · rw [a2]; simp [bankWithdrawCtx, bankMiner]
  · rw [b3]
    have : ((withdrawCritical okLedger bankStore raceWithdraw60
        (bankWithdrawCtx raceWithdraw60)).store.minerById raceWithdraw.id).isSome = true := by
      show ((withdrawCritical okLedger bankStore raceWithdraw60
        (bankWithdrawCtx raceWithdraw60)).store.minerById "m1").isSome = true
      rw [hfirst]; rfl
    simp [this]
  · rw [b2]; simp [bankWithdrawCtx, bankMiner]

/-! ## Reward periods -/

theorem rewardDistribution_rewards (cfg : Config) (now : ℚ) (s : Store) (reward : RewardPeriod)
    (hactive : findActiveReward s now = some reward) :
    (rewardDistribution cfg now s).rewards
      = (updateFirst (fun p => p._id == reward._id) (advancePeriod cfg reward) s.rewards).1 := by
  have hnd : (getTotalMiners cfg now s none).Nodup := by
    unfold getTotalMiners
    exact uniq_nodup _
  obtain ⟨_, f2, _⟩ :=
    foldl_distributeOne cfg reward (countActiveMiners s (getTotalMiners cfg now s none)) s
      (getTotalMiners cfg now s none) s hnd (fun _ _ => rfl) rfl
  simp only [rewardDistribution, rewardDistributionWith, hactive, setRewardFields, f2]
  rfl

theorem rewardDistribution_inactive (cfg : Config) (now : ℚ) (s : Store)
    (h : findActiveReward s now = none) : rewardDistribution cfg now s = s := by
  simp only [rewardDistribution, rewardDistributionWith, h]

theorem find_by_id_of_mem {α : Type} (key : α → String) :
    ∀ (l : List α) (a : α), (l.map key).Nodup → a ∈ l →
      l.find? (fun b => key b == key a) = some a := by
  intro l
  induction l with
  | nil => intro a _ h; simp at h
  | cons b l ih =>
    intro a hnd ha
    rw [List.map_cons, List.nodup_cons] at hnd
    rcases List.mem_cons.mp ha with rfl | hmem
    · simp [List.find?_cons]
    · have hne : key b ≠ key a := by
        intro e
        exact hnd.1 (e ▸ List.mem_map_of_mem key hmem)
      have hb : (key b == key a) = false := by simpa using hne
      rw [List.find?_cons, hb]
      exact ih a hnd.2 hmem

theorem findActiveReward_mem {s : Store} {now : ℚ} {reward : RewardPeriod}
    (h : findActiveReward s now = some reward) :
    reward ∈ s.rewards ∧ reward.startDate ≤ now ∧ now ≤ reward.endDate ∧ 0 < reward.weeksLeft := by
  unfold findActiveReward at h
  have hm := List.mem_of_find?_eq_some h
  have hp := List.find?_some h
  simp only [Bool.and_eq_true, decide_eq_true_eq] at hp
  exact ⟨hm, hp.1.1, hp.1.2, hp.2⟩

theorem mem_updateFirst {α : Type} (p : α → Bool) (f : α → α) :
    ∀ (l : List α) (b : α), b ∈ (updateFirst p f l).1 → b ∈ l ∨ ∃ a ∈ l, b = f a := by
  intro l
  induction l with
  | nil => intro b h; simp [updateFirst] at h
  | cons a l ih =>
    intro b h
    by_cases hp : p a = true
    · simp only [updateFirst, hp, if_true, List.mem_cons] at h
      rcases h with rfl | h
      · exact Or.inr ⟨a, List.mem_cons_self _ _, rfl⟩
      · exact Or.inl (List.mem_cons_of_mem _ h)
    · simp only [updateFirst, hp, Bool.false_eq_true, if_false, List.mem_cons] at h
      rcases h with rfl | h
      · exact Or.inl (List.mem_cons_self _ _)
      · rcases ih b h with h1 | ⟨c, hc, rfl⟩
        · exact Or.inl (List.mem_cons_of_mem _ h1)
        · exact Or.inr ⟨c, List.mem_cons_of_mem _ hc, rfl⟩

theorem length_updateFirst {α : Type} (p : α → Bool) (f : α → α) (l : List α) :
    (updateFirst p f l).1.length = l.length := by
  induction l with
  | nil => simp [updateFirst]
  | cons a l ih =>
    by_cases hp : p a = true
    · simp [updateFirst, hp]
    · simp [updateFirst, hp, ih]

theorem createNewReward_rejected_of_period (cfg : Config) (s : Store) (body : RewardBody)
    (newId : String) (hper : ∃ r ∈ s.rewards, 0 ≤ r.weeksLeft)
    (hvalid : validateRewardCreation body = []) :
    createNewReward cfg s body newId
      = { store := s, reply := RewardReply.message 400 "Only one working reward period can exist",
          assigned := false } := by
  have hc : 0 < s.rewards.countP (fun r => decide (0 ≤ r.weeksLeft)) := by
    rw [List.countP_pos_iff]
    obtain ⟨r, hr, h0⟩ := hper
    exact ⟨r, hr, by simpa using h0⟩
  simp only [createNewReward, hvalid, List.length_nil, ne_eq, not_true_eq_false, if_false]
  simp [hc]

theorem createNewReward_cases (cfg : Config) (s : Store) (body : RewardBody) (newId : String) :
    (createNewReward cfg s body newId).store = s ∨
    (validateRewardCreation body = [] ∧ (∀ r ∈ s.rewards, r.weeksLeft < 0) ∧
      createNewReward cfg s body newId
        = { store := { s with rewards := s.rewards ++ [newPeriod cfg body newId] },
            reply := RewardReply.document 200 (newPeriod cfg body newId), assigned := false }) := by
  by_cases hv : validateRewardCreation body = []
  · by_cases hc : 0 < s.rewards.countP (fun r => decide (0 ≤ r.weeksLeft))
    · left
      simp only [createNewReward, hv, List.length_nil, ne_eq, not_true_eq_false, if_false]
      simp [hc]
    · right
      refine ⟨hv, ?_, ?_⟩
      · intro r hr
        by_contra hneg
        exact hc (List.countP_pos_iff.mpr ⟨r, hr, by simpa using not_lt.mp hneg⟩)
      · simp only [createNewReward, hv, List.length_nil, ne_eq, not_true_eq_false, if_false]
        simp only [gt_iff_lt, hc, if_false]
        rfl
  · left
    have hl : (validateRewardCreation body).length ≠ 0 := by
      intro h
      exact hv (List.length_eq_zero.mp h)
    simp only [createNewReward, hl, ne_eq, not_false_eq_true, if_true]

theorem createNewReward_accepted {cfg : Config} {s : Store} {body : RewardBody} {newId : String}
    {status : ℕ} {r : RewardPeriod}
    (h : (createNewReward cfg s body newId).reply = RewardReply.document status r) :
    validateRewardCreation body = [] ∧ r = newPeriod cfg body newId ∧
    (createNewReward cfg s body newId).store.rewards = s.rewards ++ [r] := by
  by_cases hv : validateRewardCreation body = []
  · by_cases hc : 0 < s.rewards.countP (fun r => decide (0 ≤ r.weeksLeft))
    · have := createNewReward_rejected_of_period cfg s body newId
        (by obtain ⟨r, hr, h0⟩ := List.countP_pos_iff.mp hc; exact ⟨r, hr, by simpa using h0⟩) hv
      rw [this] at h
      cases h
    · rcases createNewReward_cases cfg s body newId with h1 | ⟨_, _, h3⟩
      · have h3 : createNewReward cfg s body newId
            = { store := { s with rewards := s.rewards ++ [newPeriod cfg body newId] },
                reply := RewardReply.document 200 (newPeriod cfg body newId),
                assigned := false } := by
          simp only [createNewReward, hv, List.length_nil, ne_eq, not_true_eq_false, if_false]
          simp only [gt_iff_lt, hc, if_false]
          rfl
        rw [h3] at h ⊢
        cases h
        exact ⟨hv, rfl, rfl⟩
      · rw [h3] at h ⊢
        cases h
        exact ⟨hv, rfl, rfl⟩
  · have hl : (validateRewardCreation body).length ≠ 0 := by
      intro h
      exact hv (List.length_eq_zero.mp h)
    simp only [createNewReward, hl, ne_eq, not_false_eq_true, if_true] at h
    cases h

theorem validate_iff (body : RewardBody) :
    validateRewardCreation body = [] ↔ 1 ≤ body.totalWeeks ∧ 1 ≤ body.total := by
  unfold validateRewardCreation
  constructor
  · intro h
    by_contra hc
    rw [not_and_or] at hc
    rcases hc with hc | hc
    · simp [hc] at h
    · simp [hc] at h
  · rintro ⟨h1, h2⟩
    have h3 : 0 < body.totalWeeks := by linarith
    have h4 : 0 < body.total := by linarith
    simp [h1, h2, h3, h4]

theorem periodStore_active : findActiveReward periodStore 600 = some exPeriod := by
  norm_num [findActiveReward, periodStore, exPeriod]

/-- C11: whenever the tick finds an active period, the document that carries the
period's `_id` (unique in the collection) ends with `startWeek` the old
`endWeek`, `endWeek` the old `endWeek + PERIOD_REWARD`, `weeksLeft` the old
`weeksLeft - 1` and every other field as before, so `endWeek = startWeek +
PERIOD_REWARD`; the other periods are as before.  Nothing is assumed about the
miners. -/
theorem rewardDistribution_advances (cfg : Config) (now : ℚ) (s : Store) (reward : RewardPeriod)
    (hactive : findActiveReward s now = some reward)
    (hids : (s.rewards.map RewardPeriod._id).Nodup) :
    (∃ r, (rewardDistribution cfg now s).rewards.find? (fun p => p._id == reward._id) = some r ∧
      r.startWeek = reward.endWeek ∧
      r.endWeek = reward.endWeek + cfg.PERIOD_REWARD ∧
      r.weeksLeft = reward.weeksLeft - 1 ∧
      r.total = reward.total ∧ r.weeklyReward = reward.weeklyReward ∧
      r.totalWeeks = reward.totalWeeks ∧ r.startDate = reward.startDate ∧
      r.endDate = reward.endDate ∧
      r.endWeek = r.startWeek + cfg.PERIOD_REWARD) ∧
    (∀ id, id ≠ reward._id →
      (rewardDistribution cfg now s).rewards.find? (fun p => p._id == id)
        = s.rewards.find? (fun p => p._id == id)) ∧
    (rewardDistribution cfg now s).rewards.length = s.rewards.length := by
  have hr := rewardDistribution_rewards cfg now s reward hactive
  have hkey := find_by_id_of_mem RewardPeriod._id s.rewards reward hids
    (findActiveReward_mem hactive).1
  refine ⟨⟨advancePeriod cfg reward reward, ?_, rfl, rfl, rfl, rfl, rfl, rfl, rfl, rfl, rfl⟩,
    ?_, ?_⟩
  · rw [hr, updateFirst_find_same RewardPeriod._id reward._id (advancePeriod cfg reward)
      (fun _ => rfl), hkey]
    rfl
  · intro id hid
    rw [hr]
    exact updateFirst_find_other RewardPeriod._id reward._id id (advancePeriod cfg reward)
      (fun _ => rfl) hid s.rewards
  · rw [hr]
    exact length_updateFirst _ _ _

/-- Witness of C11: the tick at 600 on a store with no miner at all. -/
theorem rewardDistribution_advances_witness :
    ∃ r, (rewardDistribution Config.default 600 periodStore).rewards.find?
        (fun p => p._id == "r1") = some r ∧
      r.startWeek = 600 ∧ r.endWeek = 1200 ∧ r.weeksLeft = 6 := by
  obtain ⟨r, h, h1, h2, h3, _⟩ := (rewardDistribution_advances Config.default 600 periodStore
    exPeriod periodStore_active (by simp [periodStore, exPeriod])).1
  refine ⟨r, h, ?_, ?_, ?_⟩
  · rw [h1]; rfl
  · rw [h2]; norm_num [exPeriod, Config.default]
  · rw [h3]; norm_num [exPeriod]

/-- C13: when the store holds a period with `weeksLeft > 0`, `createNewReward`
with a body that passes the validation answers 400 'Only one working reward
period can exist' and leaves the store, its rewards collection included, as it
is. -/
theorem createNewReward_second_rejected (cfg : Config) (s : Store) (body : RewardBody)
    (newId : String) (hper : ∃ r ∈ s.rewards, 0 < r.weeksLeft)
    (hvalid : validateRewardCreation body = []) :
    (createNewReward cfg s body newId).reply
      = RewardReply.message 400 "Only one working reward period can exist" ∧
    (createNewReward cfg s body newId).store = s ∧
    (createNewReward cfg s body newId).store.rewards = s.rewards := by
  obtain ⟨r, hr, h0⟩ := hper
  rw [createNewReward_rejected_of_period cfg s body newId ⟨r, hr, le_of_lt h0⟩ hvalid]
  exact ⟨rfl, rfl, rfl⟩

/-- Witness of C13: a second creation on the store that holds `exPeriod`. -/
theorem createNewReward_second_rejected_witness :
    (createNewReward Config.default periodStore (exBody 0) "r2").reply
      = RewardReply.message 400 "Only one working reward period can exist" ∧
    (createNewReward Config.default periodStore (exBody 0) "r2").store.rewards
      = periodStore.rewards := by
  have h := createNewReward_second_rejected Config.default periodStore (exBody 0) "r2"
    ⟨exPeriod, by simp [periodStore], by norm_num [exPeriod]⟩
    ((validate_iff _).mpr (by norm_num [exBody]))
  exact ⟨h.1, h.2.2⟩

/-- C14: the period an accepted creation request stores has `startWeek = startDate`,
`endWeek = startDate + PERIOD_REWARD`, `endDate = startDate + PERIOD_REWARD *
totalWeeks` and `weeksLeft = totalWeeks`; with `PERIOD_REWARD = 600`, `total = 700`
and `totalWeeks = 7` this is `endDate = startDate + 4200` and
`endWeek = startDate + 600`. -/
theorem createNewReward_stored_window (cfg : Config) (s : Store) (body : RewardBody)
    (newId : String) (status : ℕ) (r : RewardPeriod)
    (hacc : (createNewReward cfg s body newId).reply = RewardReply.document status r) :
    (createNewReward cfg s body newId).store.rewards = s.rewards ++ [r] ∧
    r.startWeek = body.startDate ∧
    r.endWeek = body.startDate + cfg.PERIOD_REWARD ∧
    r.endDate = body.startDate + cfg.PERIOD_REWARD * body.totalWeeks ∧
    r.weeksLeft = body.totalWeeks ∧
    (cfg.PERIOD_REWARD = 600 → body.total = 700 → body.totalWeeks = 7 →
      r.endDate = body.startDate + 4200 ∧ r.endWeek = body.startDate + 600) := by
  obtain ⟨_, hr, hst⟩ := createNewReward_accepted hacc
  subst hr
  refine ⟨hst, rfl, rfl, rfl, rfl, ?_⟩
  intro hp _ hw
  simp only [newPeriod, hp, hw]
  norm_num

theorem createNewReward_empty (cfg : Config) (body : RewardBody) (newId : String)
    (hvalid : validateRewardCreation body = []) :
    createNewReward cfg emptyStore body newId
      = { store := { emptyStore with rewards := [newPeriod cfg body newId] },
          reply := RewardReply.document 200 (newPeriod cfg body newId), assigned := false } := by
  rcases createNewReward_cases cfg emptyStore body newId with h | ⟨_, _, h⟩
  · exfalso
    have hc : ¬ 0 < emptyStore.rewards.countP (fun r => decide (0 ≤ r.weeksLeft)) := by
      simp [emptyStore]
    have h3 : (createNewReward cfg emptyStore body newId).store
        = { emptyStore with rewards := emptyStore.rewards ++ [newPeriod cfg body newId] } := by
      simp only [createNewReward, hvalid, List.length_nil, ne_eq, not_true_eq_false, if_false]
      simp only [gt_iff_lt, hc, if_false]
      rfl
    rw [h3] at h
    simp [emptyStore] at h
  · rw [h]
    rfl

/-- Witness of C14: the creation of `total = 700`, `totalWeeks = 7` at the start
1000 on the empty store. -/
theorem createNewReward_stored_window_witness :
    (createNewReward Config.default emptyStore (exBody 1000) "r1").store.rewards
      = emptyStore.rewards ++ [newPeriod Config.default (exBody 1000) "r1"] ∧
    (newPeriod Config.default (exBody 1000) "r1").endDate = 1000 + 4200 ∧
    (newPeriod Config.default (exBody 1000) "r1").endWeek = 1000 + 600 := by
  have h := createNewReward_stored_window Config.default emptyStore (exBody 1000) "r1" 200
    (newPeriod Config.default (exBody 1000) "r1")
    (by rw [createNewReward_empty _ _ _ ((validate_iff _).mpr (by norm_num [exBody]))])
  exact ⟨h.1, h.2.2.2.2.2 rfl rfl rfl⟩

/-- C15, as stated, fails: the body `total = 1`, `totalWeeks = 3` passes the
validation, and the weekly reward computed and stored for it is 0.333333, not
1 / 3. -/
theorem weeklyReward_counterexample :
    validateRewardCreation thirdBody = [] ∧
    (calculateRewardElements Config.default thirdBody.startDate thirdBody.total
      thirdBody.totalWeeks).weeklyReward = 333333 / 1000000 ∧
    (createNewReward Config.default emptyStore thirdBody "r1").reply
      = RewardReply.document 200 (newPeriod Config.default thirdBody "r1") ∧
    (newPeriod Config.default thirdBody "r1").weeklyReward = 333333 / 1000000 ∧
    (333333 / 1000000 : ℚ) ≠ thirdBody.total / thirdBody.totalWeeks := by
  have hv : validateRewardCreation thirdBody = [] :=
    (validate_iff _).mpr (by norm_num [thirdBody])
  have hf : fixed (thirdBody.total / thirdBody.totalWeeks) 6 = 333333 / 1000000 := by
    rw [fixed_eval _ 6 333333 (by norm_num [thirdBody]) (by norm_num [thirdBody])
      (by norm_num [thirdBody]) (by norm_num [thirdBody])]
    norm_num
  refine ⟨hv, hf, ?_, hf, by norm_num [thirdBody]⟩
  rw [createNewReward_empty _ _ _ hv]

/-- C15 as amended: for every `total` and `totalWeeks` accepted by the validation
the weekly reward that `calculateRewardElements` returns, and an accepted
`createNewReward` stores, is the quotient `total / totalWeeks` rounded to 6
decimals: a multiple of 0.000001 at most 0.0000005 away from the quotient; 700
over 7 weeks gives 100. -/
theorem weeklyReward_rounded (cfg : Config) (body : RewardBody)
    (hvalid : validateRewardCreation body = []) :
    1 ≤ body.total ∧ 1 ≤ body.totalWeeks ∧
    RoundedTo 6 (body.total / body.totalWeeks)
      (calculateRewardElements cfg body.startDate body.total body.totalWeeks).weeklyReward ∧
    (∀ (s : Store) (newId : String) (status : ℕ) (r : RewardPeriod),
      (createNewReward cfg s body newId).reply = RewardReply.document status r →
      RoundedTo 6 (body.total / body.totalWeeks) r.weeklyReward) ∧
    (body.total = 700 → body.totalWeeks = 7 →
      (calculateRewardElements cfg body.startDate body.total body.totalWeeks).weeklyReward
        = 100) := by
  refine ⟨((validate_iff body).mp hvalid).2, ((validate_iff body).mp hvalid).1,
    fixed_roundedTo _ 6, ?_, ?_⟩
  · intro s newId status r h
    obtain ⟨_, hr, _⟩ := createNewReward_accepted h
    rw [hr]
    exact fixed_roundedTo _ 6
  · intro ht hw
    show fixed (body.total / body.totalWeeks) 6 = 100
    rw [ht, hw, fixed_eval _ 6 100000000 (by norm_num) (by norm_num) (by norm_num)
      (by norm_num)]
    norm_num

/-- Witness of the amended C15: 700 over 7 weeks. -/
theorem weeklyReward_rounded_witness :
    (calculateRewardElements Config.default (exBody 0).startDate (exBody 0).total
      (exBody 0).totalWeeks).weeklyReward = 100 :=
  (weeklyReward_rounded Config.default (exBody 0)
    ((validate_iff _).mpr (by norm_num [exBody]))).2.2.2.2 rfl rfl

/-! ## The rewards collection under the scheduler -/

theorem updateRewardRoute_cases (cfg : Config) (s : Store) (id : String) (body : RewardBody) :
    (updateRewardRoute cfg s id body).store = s ∨
    (validateRewardCreation body = [] ∧
      (updateRewardRoute cfg s id body).store.rewards
        = (updateFirst (fun p : RewardPeriod => p._id == id) (fun p =>
            newPeriod cfg body p._id) s.rewards).1) := by
  by_cases hv : validateRewardCreation body = []
  · by_cases hu : (updateFirst (fun p : RewardPeriod => p._id == id) (fun p =>
        newPeriod cfg body p._id) s.rewards).2 = 0
    · left
      simp only [updateRewardRoute, hv, List.length_nil, ne_eq, not_true_eq_false, if_false]
      have hu' := hu
      simp only [newPeriod] at hu'
      simp only [calculateRewardElements, hu', if_true]
    · right
      refine ⟨hv, ?_⟩
      simp only [updateRewardRoute, hv, List.length_nil, ne_eq, not_true_eq_false, if_false]
      have hu' := hu
      simp only [newPeriod] at hu'
      simp only [calculateRewardElements, hu', if_false]
      split <;> rfl
  · left
    have hl : (validateRewardCreation body).length ≠ 0 := by
      intro h
      exact hv (List.length_eq_zero.mp h)
    simp only [updateRewardRoute, hl, ne_eq, not_false_eq_true, if_true]

theorem deleteReward_rewards (s : Store) (id : String) :
    (deleteReward s id).store.rewards = s.rewards ∨
    (deleteReward s id).store.rewards = s.rewards.eraseP (fun p => p._id == id) := by
  unfold deleteReward
  split
  · left; rfl
  · right; rfl

theorem createNewReward_inserts (cfg : Config) (s : Store) (body : RewardBody) (newId : String)
    (hvalid : validateRewardCreation body = []) (hneg : ∀ r ∈ s.rewards, r.weeksLeft < 0) :
    (createNewReward cfg s body newId).store.rewards = s.rewards ++ [newPeriod cfg body newId] := by
  have hc : ¬ 0 < s.rewards.countP (fun r => decide (0 ≤ r.weeksLeft)) := by
    intro h
    obtain ⟨r, hr, h0⟩ := List.countP_pos_iff.mp h
    exact absurd (hneg r hr) (not_lt.mpr (by simpa using h0))
  simp only [createNewReward, hvalid, List.length_nil, ne_eq, not_true_eq_false, if_false]
  simp only [gt_iff_lt, hc, if_false]
  rfl

theorem updateRewardRoute_rewards (cfg : Config) (s : Store) (id : String) (body : RewardBody)
    (hvalid : validateRewardCreation body = [])
    (hex : (s.rewards.find? (fun p => p._id == id)).isSome = true) :
    (updateRewardRoute cfg s id body).store.rewards
      = (updateFirst (fun p : RewardPeriod => p._id == id) (fun p =>
          newPeriod cfg body p._id) s.rewards).1 := by
  have hu := updateFirst_count (fun p : RewardPeriod => p._id == id)
    (fun p => newPeriod cfg body p._id) s.rewards
  rw [hex] at hu
  have hne : (updateFirst (fun p : RewardPeriod => p._id == id) (fun p =>
      newPeriod cfg body p._id) s.rewards).2 ≠ 0 := by rw [hu]; simp
  simp only [newPeriod] at hne
  simp only [updateRewardRoute, hvalid, List.length_nil, ne_eq, not_true_eq_false, if_false]
  simp only [calculateRewardElements, hne, if_false]
  split <;> rfl

theorem findActiveReward_single (s : Store) (now : ℚ) (p : RewardPeriod)
    (hr : s.rewards = [p]) (h1 : p.startDate ≤ now) (h2 : now ≤ p.endDate)
    (h3 : 0 < p.weeksLeft) : findActiveReward s now = some p := by
  simp [findActiveReward, hr, h1, h2, h3]

theorem tick_single (cfg : Config) (s : Store) (now : ℚ) (p : RewardPeriod)
    (hr : s.rewards = [p]) (h1 : p.startDate ≤ now) (h2 : now ≤ p.endDate)
    (h3 : 0 < p.weeksLeft) :
    (rewardDistribution cfg now s).rewards = [advancePeriod cfg p p] := by
  rw [rewardDistribution_rewards cfg now s p (findActiveReward_single s now p hr h1 h2 h3), hr]
  simp [updateFirst]

theorem eq_of_mem_of_length_le_one {α : Type} {l : List α} {a b : α} (hl : l.length ≤ 1)
    (ha : a ∈ l) (hb : b ∈ l) : a = b := by
  match l, hl with
  | [], _ => simp at ha
  | [c], _ =>
    rw [List.mem_singleton] at ha hb
    rw [ha, hb]
  | _ :: _ :: _, h => simp at h

theorem newPeriod_sound (cfg : Config) (body : RewardBody) (newId : String)
    (hvalid : validateRewardCreation body = []) :
    0 ≤ (newPeriod cfg body newId).weeksLeft ∧
    (newPeriod cfg body newId).endWeek
        + cfg.PERIOD_REWARD * ((newPeriod cfg body newId).weeksLeft - 1)
      = (newPeriod cfg body newId).endDate := by
  have h1 := ((validate_iff body).mp hvalid).1
  constructor
  · show 0 ≤ body.totalWeeks
    linarith
  · show body.startDate + cfg.PERIOD_REWARD + cfg.PERIOD_REWARD * (body.totalWeeks - 1)
      = body.startDate + cfg.PERIOD_REWARD * body.totalWeeks
    ring

theorem createNewReward_sound (cfg : Config) (s : Store) (body : RewardBody) (newId : String)
    (hs : periodsSound cfg s.rewards) :
    periodsSound cfg (createNewReward cfg s body newId).store.rewards ∧
    ((createNewReward cfg s body newId).store.rewards = s.rewards ∨ s.rewards = []) := by
  rcases createNewReward_cases cfg s body newId with h | ⟨hv, hneg, h⟩
  · rw [h]
    exact ⟨hs, Or.inl rfl⟩
  · have hnil : s.rewards = [] := by
      cases hr : s.rewards with
      | nil => rfl
      | cons r l =>
        exfalso
        have hm : r ∈ s.rewards := by rw [hr]; exact List.mem_cons_self _ _
        exact absurd (hneg r hm) (not_lt.mpr (hs.2 r hm).1)
    rw [h]
    refine ⟨⟨by simp [hnil], ?_⟩, Or.inr hnil⟩
    intro r hr
    simp only [hnil, List.nil_append, List.mem_singleton] at hr
    rw [hr]
    exact newPeriod_sound cfg body newId hv

theorem createNewReward_unassigned (cfg : Config) (s : Store) (body : RewardBody)
    (newId : String) : (createNewReward cfg s body newId).assigned = false := by
  unfold createNewReward
  simp only []
  split_ifs <;> rfl

theorem updateRewardRoute_sound (cfg : Config) (s : Store) (id : String) (body : RewardBody)
    (hs : periodsSound cfg s.rewards) :
    periodsSound cfg (updateRewardRoute cfg s id body).store.rewards := by
  rcases updateRewardRoute_cases cfg s id body with h | ⟨hv, h⟩
  · rw [h]
    exact hs
  · refine ⟨by rw [h, length_updateFirst]; exact hs.1, ?_⟩
    intro r hr
    rw [h] at hr
    rcases mem_updateFirst _ _ _ _ hr with h1 | ⟨a, _, rfl⟩
    · exact hs.2 r h1
    · exact newPeriod_sound cfg body a._id hv

theorem updateRewardRoute_unassigned (cfg : Config) (s : Store) (id : String)
    (body : RewardBody) (h : (updateRewardRoute cfg s id body).assigned = false) :
    (updateRewardRoute cfg s id body).store = s := by
  unfold updateRewardRoute at h ⊢
  simp only [] at h ⊢
  split_ifs at h ⊢ with h1 h2
  · rfl
  · rfl
  · split at h <;> simp at h

theorem deleteReward_sound (cfg : Config) (s : Store) (id : String)
    (hs : periodsSound cfg s.rewards) : periodsSound cfg (deleteReward s id).store.rewards := by
  rcases deleteReward_rewards s id with h | h
  · rw [h]
    exact hs
  · refine ⟨by rw [h]; exact le_trans (List.length_eraseP_le _) hs.1, ?_⟩
    intro r hr
    rw [h] at hr
    exact hs.2 r (List.mem_of_mem_eraseP hr)

theorem deleteReward_unassigned (s : Store) (id : String)
    (h : (deleteReward s id).assigned = false) : (deleteReward s id).store = s := by
  unfold deleteReward at h ⊢
  split at h
  · rfl
  · simp at h

theorem rewardDistribution_sound (cfg : Config) (now : ℚ) (s : Store)
    (hP : 0 < cfg.PERIOD_REWARD) (hs : periodsSound cfg s.rewards)
    (hdue : ∀ r, findActiveReward s now = some r → r.endWeek ≤ now) :
    periodsSound cfg (rewardDistribution cfg now s).rewards := by
  cases ha : findActiveReward s now with
  | none =>
    rw [rewardDistribution_inactive cfg now s ha]
    exact hs
  | some reward =>
    have hr := rewardDistribution_rewards cfg now s reward ha
    obtain ⟨hmem, _, hend, _⟩ := findActiveReward_mem ha
    obtain ⟨_, hwin⟩ := hs.2 reward hmem
    have hPq : (0 : ℚ) < (cfg.PERIOD_REWARD : ℚ) := by exact_mod_cast hP
    have hone : 1 ≤ reward.weeksLeft := by
      by_contra hlt
      have hneg : reward.weeksLeft - 1 < 0 := by linarith [not_le.mp hlt]
      have := mul_neg_of_pos_of_neg hPq hneg
      have := hdue reward ha
      linarith
    refine ⟨by rw [hr, length_updateFirst]; exact hs.1, ?_⟩
    intro r hrm
    rw [hr] at hrm
    rcases mem_updateFirst _ _ _ _ hrm with h1 | ⟨a, ha', rfl⟩
    · exact hs.2 r h1
    · have hea : a = reward := eq_of_mem_of_length_le_one hs.1 ha' hmem
      subst hea
      constructor
      · show 0 ≤ a.weeksLeft - 1
        linarith
      · show a.endWeek + cfg.PERIOD_REWARD + cfg.PERIOD_REWARD * (a.weeksLeft - 1 - 1) = a.endDate
        rw [← hwin]
        ring

theorem getCurrentRewardPeriod_mem {s : Store} {now : ℚ} {r : RewardPeriod}
    (h : getCurrentRewardPeriod s now = some r) : r ∈ s.rewards := by
  unfold getCurrentRewardPeriod at h
  split at h
  · rename_i reward ha
    simp only [Option.some.injEq] at h
    rw [← h]
    exact (findActiveReward_mem ha).1
  · exact List.mem_of_find?_eq_some h

theorem initial_sound (cfg : Config) (s : Store) (now : ℚ) (hs : periodsSound cfg s.rewards) :
    periodsSound cfg (initial cfg s now).rewards := by
  unfold initial
  split
  · exact hs
  · rename_i reward hcur
    have hmem := getCurrentRewardPeriod_mem hcur
    split_ifs
    · refine ⟨by simp only [setRewardFields]; rw [length_updateFirst]; exact hs.1, ?_⟩
      intro r hr
      simp only [setRewardFields] at hr
      rcases mem_updateFirst _ _ _ _ hr with h1 | ⟨a, ha', rfl⟩
      · exact hs.2 r h1
      · have hea : a = reward := eq_of_mem_of_length_le_one hs.1 ha' hmem
        subst hea
        constructor
        · exact (hs.2 a hmem).1
        · show now + cfg.PERIOD_REWARD + cfg.PERIOD_REWARD * (a.weeksLeft - 1)
            = now + cfg.PERIOD_REWARD * a.weeksLeft
          ring
    · exact hs

theorem assignRewardJob_timer {s : Store} {now e : ℚ}
    (h : assignRewardJob s now = RewardJob.timer e) : ∃ r ∈ s.rewards, r.endWeek = e := by
  unfold assignRewardJob at h
  split at h
  · rename_i reward hcur
    split_ifs at h
    simp only [RewardJob.timer.injEq] at h
    exact ⟨reward, getCurrentRewardPeriod_mem hcur, h⟩
  · cases h

theorem onAssigned_inv (cfg : Config) (st : Scheduler) (now : ℚ)
    (hs : periodsSound cfg st.store.rewards) : schedulerInv cfg (onAssigned st now) :=
  ⟨hs, fun _ he => assignRewardJob_timer he⟩

theorem afterRoute_inv (cfg : Config) (st : Scheduler) (out : RewardOutcome) (now : ℚ)
    (hinv : schedulerInv cfg st) (hs : periodsSound cfg out.store.rewards)
    (hkeep : out.assigned = false →
      out.store.rewards = st.store.rewards ∨ st.store.rewards = []) :
    schedulerInv cfg (afterRoute st out now) := by
  unfold afterRoute
  split_ifs with ha
  · exact onAssigned_inv cfg _ now hs
  · refine ⟨hs, ?_⟩
    intro e he
    obtain ⟨r, hr, hre⟩ := hinv.2 e he
    rcases hkeep (by simpa using ha) with h | h
    · exact ⟨r, by rw [h]; exact hr, hre⟩
    · rw [h] at hr
      simp at hr

theorem schedulerInv_step (cfg : Config) (hP : 0 < cfg.PERIOD_REWARD) (st : Scheduler)
    (ev : SchedulerEvent) (hinv : schedulerInv cfg st) : schedulerInv cfg (ev.run cfg st) := by
  cases ev with
  | create body newId now =>
    obtain ⟨h1, h2⟩ := createNewReward_sound cfg st.store body newId hinv.1
    exact afterRoute_inv cfg st _ now hinv h1 (fun _ => h2)
  | update id body now =>
    refine afterRoute_inv cfg st _ now hinv (updateRewardRoute_sound cfg st.store id body hinv.1)
      (fun h => Or.inl ?_)
    rw [updateRewardRoute_unassigned cfg st.store id body h]
  | delete id now =>
    refine afterRoute_inv cfg st _ now hinv (deleteReward_sound cfg st.store id hinv.1)
      (fun h => Or.inl ?_)
    rw [deleteReward_unassigned st.store id h]
  | fire now =>
    show schedulerInv cfg (match st.task with
      | RewardJob.timer endWeek =>
        if endWeek ≤ now then
          onAssigned { st with store := rewardDistribution cfg now st.store } now
        else st
      | RewardJob.poll => st)
    cases ht : st.task with
    | poll => exact hinv
    | timer e =>
      simp only []
      split_ifs with hdue
      · apply onAssigned_inv
        apply rewardDistribution_sound cfg now st.store hP hinv.1
        intro r hr
        obtain ⟨r0, hr0, he⟩ := hinv.2 e ht
        have := eq_of_mem_of_length_le_one hinv.1.1 (findActiveReward_mem hr).1 hr0
        rw [this, he]
        exact hdue
      · exact hinv
  | poll now =>
    show schedulerInv cfg (match st.task with
      | RewardJob.poll =>
        if (getCurrentRewardPeriod st.store now).isSome then onAssigned st now else st
      | RewardJob.timer _ => st)
    cases ht : st.task with
    | timer e => exact hinv
    | poll =>
      simp only []
      split_ifs
      · exact onAssigned_inv cfg st now hinv.1
      · exact hinv
  | start now =>
    exact ⟨initial_sound cfg st.store now hinv.1, fun _ he => assignRewardJob_timer he⟩

theorem schedulerInv_run (cfg : Config) (hP : 0 < cfg.PERIOD_REWARD) :
    ∀ (events : List SchedulerEvent) (st : Scheduler), schedulerInv cfg st →
      schedulerInv cfg (runEvents cfg st events) := by
  intro events
  induction events with
  | nil => intro st h; exact h
  | cons ev rest ih =>
    intro st h
    show schedulerInv cfg (rest.foldl (SchedulerEvent.run cfg) (ev.run cfg st))
    exact ih _ (schedulerInv_step cfg hP st ev h)

/-- C12: start from a rewards collection without periods, the scheduler polling,
and let `createNewReward`, `updateRewardRoute`, `deleteReward`, the callbacks of
the scheduler (`rewardDistribution` when the cron task set at `endWeek` fires,
the poll) and restarts of the process run one at a time in any order and at any
times, with any bodies (the routes validate them): with a positive
`PERIOD_REWARD`, in every state reached at most one period has
`weeksLeft >= 0`, and no period has `weeksLeft < 0`. -/
theorem rewards_invariant (cfg : Config) (st : Scheduler) (events : List SchedulerEvent)
    (hP : 0 < cfg.PERIOD_REWARD) (hempty : st.store.rewards = [])
    (hpoll : st.task = RewardJob.poll) :
    ((runEvents cfg st events).store.rewards.filter
      (fun r => decide (0 ≤ r.weeksLeft))).length ≤ 1 ∧
    (∀ r ∈ (runEvents cfg st events).store.rewards, 0 ≤ r.weeksLeft) := by
  have h0 : schedulerInv cfg st := by
    refine ⟨⟨by simp [hempty], by simp [hempty]⟩, ?_⟩
    intro e he
    rw [hpoll] at he
    cases he
  obtain ⟨⟨hlen, hall⟩, _⟩ := schedulerInv_run cfg hP events st h0
  exact ⟨le_trans (List.length_filter_le _ _) hlen, fun r hr => (hall r hr).1⟩

/-- Witness of C12: a period of one and a half weeks is created, found by the
poll, and the cron task fires at 600 and, for the window set then, at 1200. -/
theorem rewards_invariant_witness :
    ((runEvents Config.default { store := emptyStore, task := RewardJob.poll }
        [SchedulerEvent.create halfBody "r1" 0, SchedulerEvent.poll 60,
          SchedulerEvent.fire 600, SchedulerEvent.fire 1200]).store.rewards.filter
      (fun r => decide (0 ≤ r.weeksLeft))).length ≤ 1 :=
  (rewards_invariant Config.default { store := emptyStore, task := RewardJob.poll }
    [SchedulerEvent.create halfBody "r1" 0, SchedulerEvent.poll 60,
      SchedulerEvent.fire 600, SchedulerEvent.fire 1200]
    (by decide) rfl rfl).1

theorem mem_getTotalMiners (cfg : Config) (now : ℚ) (s : Store) (id : String) :
    id ∈ getTotalMiners cfg now s none ↔
      ∃ m ∈ s.metrics, m.minerId = id ∧ m.state = "ready" ∧ m.hasUser = true ∧
        now - cfg.PERIOD_REWARD ≤ m.timestampCreated := by
  simp only [getTotalMiners, mem_uniq, List.mem_map, List.mem_filter, Bool.and_eq_true,
    decide_eq_true_eq, beq_iff_eq]
  constructor
  · rintro ⟨m, ⟨hm, ⟨h1, h2⟩, h3⟩, rfl⟩
    exact ⟨m, hm, rfl, h2, h3, h1⟩
  · rintro ⟨m, hm, rfl, h2, h3, h1⟩
    exact ⟨m, ⟨hm, ⟨h1, h2⟩, h3⟩, rfl⟩

/-- C16, as stated, fails: on `lateStore` the tick at 700 finds the period that
began at 0 and iterates over no candidate, although `m1` and `m2` both have a
ready metric recorded since the period began: the metric of `m1` is older than
`now - PERIOD_REWARD`, the metric of `m2` is not flagged `hasUser`. -/
theorem candidates_counterexample :
    findActiveReward lateStore 700 = some exPeriod ∧
    getTotalMiners Config.default 700 lateStore none = [] ∧
    (∃ m ∈ lateStore.metrics, m.minerId = "m1" ∧ m.state = "ready" ∧
      exPeriod.startDate ≤ m.timestampCreated ∧ exPeriod.startWeek ≤ m.timestampCreated) ∧
    (∃ m ∈ lateStore.metrics, m.minerId = "m2" ∧ m.state = "ready" ∧
      exPeriod.startDate ≤ m.timestampCreated ∧ exPeriod.startWeek ≤ m.timestampCreated) := by
  refine ⟨by norm_num [findActiveReward, lateStore, exPeriod], ?_,
    ⟨earlyMetric, by simp [lateStore], rfl, rfl, by norm_num [earlyMetric, exPeriod],
      by norm_num [earlyMetric, exPeriod]⟩,
    ⟨ownerlessMetric, by simp [lateStore], rfl, rfl, by norm_num [ownerlessMetric, exPeriod],
      by norm_num [ownerlessMetric, exPeriod]⟩⟩
  rw [List.eq_nil_iff_forall_not_mem]
  intro id hid
  obtain ⟨m, hm, _, _, h3, h4⟩ := (mem_getTotalMiners _ _ _ _).mp hid
  simp only [lateStore, List.mem_cons, List.mem_singleton, List.not_mem_nil, or_false] at hm
  rcases hm with rfl | rfl
  · norm_num [earlyMetric, Config.default] at h4
  · simp [ownerlessMetric] at h3

/-- C16 as amended: when the tick runs at the end of the current window,
`now = startWeek + PERIOD_REWARD`, the candidates it iterates over are exactly
the `minerId` values of the ready metrics flagged `hasUser` with
`timestampCreated >= startWeek`, each listed once. -/
theorem candidates_at_window_end (cfg : Config) (now : ℚ) (s : Store) (reward : RewardPeriod)
    (hactive : findActiveReward s now = some reward)
    (hnow : now = reward.startWeek + cfg.PERIOD_REWARD) :
    reward ∈ s.rewards ∧
    (∀ id, id ∈ getTotalMiners cfg now s none ↔
      ∃ m ∈ s.metrics, m.minerId = id ∧ m.state = "ready" ∧ m.hasUser = true ∧
        reward.startWeek ≤ m.timestampCreated) ∧
    (getTotalMiners cfg now s none).Nodup := by
  refine ⟨(findActiveReward_mem hactive).1, ?_, ?_⟩
  · intro id
    rw [mem_getTotalMiners]
    have : now - (cfg.PERIOD_REWARD : ℚ) = reward.startWeek := by rw [hnow]; ring
    rw [this]
  · unfold getTotalMiners
    exact uniq_nodup _

/-- Witness of the amended C16: the tick at 600 on `exStore`, whose window began
at 0. -/
theorem candidates_at_window_end_witness :
    ("m1" ∈ getTotalMiners Config.default 600 exStore none ↔
      ∃ m ∈ exStore.metrics, m.minerId = "m1" ∧ m.state = "ready" ∧ m.hasUser = true ∧
        exPeriod.startWeek ≤ m.timestampCreated) ∧
    (getTotalMiners Config.default 600 exStore none).Nodup :=
  ⟨(candidates_at_window_end Config.default 600 exStore exPeriod exStore_active
      (by norm_num [exPeriod, Config.default])).2.1 "m1",
    (candidates_at_window_end Config.default 600 exStore exPeriod exStore_active
      (by norm_num [exPeriod, Config.default])).2.2⟩

/-- C17 at the failing input: on `edgeStore` the tick at 1800 finds the window
that starts at 1200 and the eligible candidate `m1`, whose one ready metric was
recorded at 1200; the tick counts 0 metrics for it, `findUptimeAndWeeklyReward`
counts 1. -/
theorem metricCount_window_start :
    findActiveReward edgeStore 1800 = some edgePeriod ∧
    "m1" ∈ getTotalMiners Config.default 1800 edgeStore none ∧
    findEligibleMiner edgeStore "m1" = some bankMiner ∧
    (∃ u, rewardCompute Config.default edgePeriod 1 edgeStore "m1" = some u ∧
      u.metricCount = 0) ∧
    countMetrics edgeStore "m1" edgePeriod.startWeek = 0 ∧
    uptimeMetricCount edgeStore "m1" edgePeriod.startWeek = 1 := by
  have hm : edgeStore.minerById "m1" = some bankMiner := by
    simp [Store.minerById, edgeStore, bankMiner]
  have hc : countMetrics edgeStore "m1" edgePeriod.startWeek = 0 := by
    simp [countMetrics, edgeStore, edgeMetric, edgePeriod]
  have he : findEligibleMiner edgeStore "m1" = some bankMiner := by
    simp [findEligibleMiner, hm, Option.filter, Miner.eligible, bankMiner]
  refine ⟨by norm_num [findActiveReward, edgeStore, edgePeriod], ?_, he, ?_, hc, ?_⟩
  · rw [mem_getTotalMiners]
    exact ⟨edgeMetric, by simp [edgeStore], rfl, rfl, rfl,
      by norm_num [edgeMetric, Config.default]⟩
  · simp only [rewardCompute, he, hc]
    exact ⟨_, rfl, rfl⟩
  · simp [uptimeMetricCount, edgeStore, edgeMetric, edgePeriod]

theorem tick_miner (cfg : Config) (now : ℚ) (s : Store) (reward : RewardPeriod)
    (minerId : String) (miner : Miner)
    (hactive : findActiveReward s now = some reward)
    (hcand : minerId ∈ getTotalMiners cfg now s none)
    (hminer : s.minerById minerId = some miner)
    (hage : 0 < miner.ageRate)
    (huser : miner.userId ≠ none ∧ miner.userId ≠ some "") :
    ∃ m, (rewardDistribution cfg now s).minerById minerId = some m ∧
      m.ageRate = miner.ageRate
        - findCoefficient (countMetrics s minerId reward.startWeek) cfg.COUNT_PERIOD_REWARD ∧
      m.userId = miner.userId ∧ m.wallet = miner.wallet ∧ m._id = miner._id := by
  obtain ⟨_, _, _, hin, _⟩ := rewardDistribution_spec cfg now s reward hactive
  obtain ⟨u, hu, _, hum, hup, _⟩ := rewardCompute_eligible cfg reward
    (totalEligible s (getTotalMiners cfg now s none)) s minerId miner hminer hage huser
  refine ⟨u.set miner, ?_, ?_, rfl, rfl, rfl⟩
  · rw [hin minerId hcand]
    simp [minerAfter, hu, hminer]
  · simp [RewardUpdate.set, hum, hup]

theorem findCoefficient_nonneg (c t : ℚ) (hc : 0 ≤ c) (ht : 0 < t) :
    0 ≤ findCoefficient c t := by
  unfold findCoefficient mathRound
  have h1 : (0 : ℚ) ≤ c / t * 10 + 1 / 2 := by positivity
  have h2 : (0 : ℤ) ≤ ⌊c / t * 10 + 1 / 2⌋ := Int.floor_nonneg.mpr h1
  have h3 : (0 : ℚ) ≤ ((⌊c / t * 10 + 1 / 2⌋ : ℤ) : ℚ) := by exact_mod_cast h2
  positivity

theorem fixed_nonneg (v : ℚ) (p : ℕ) (hv : 0 ≤ v) : 0 ≤ fixed v p := by
  unfold fixed
  split_ifs with h1 h2
  · exact hv
  · exact absurd h2 (not_lt.mpr hv)
  · have h3 : (0 : ℚ) ≤ v * 10 ^ p + 1 / 2 := by positivity
    have h4 : (0 : ℤ) ≤ ⌊v * 10 ^ p + 1 / 2⌋ := Int.floor_nonneg.mpr h3
    have h5 : (0 : ℚ) ≤ ((⌊v * 10 ^ p + 1 / 2⌋ : ℤ) : ℚ) := by exact_mod_cast h4
    positivity

theorem getHealth_bounds (totalRewards currentAIRO : ℚ) (ht : 0 ≤ totalRewards)
    (hc : 0 ≤ currentAIRO) :
    0 ≤ getHealth totalRewards currentAIRO ∧ getHealth totalRewards currentAIRO ≤ 100 := by
  unfold getHealth
  split_ifs with h0
  · constructor <;> norm_num
  · have hpos : 0 < totalRewards := lt_of_le_of_ne ht (Ne.symm h0)
    have hmin0 : 0 ≤ min totalRewards currentAIRO := le_min ht hc
    have hmin1 : min totalRewards currentAIRO ≤ totalRewards := min_le_left _ _
    have hr0 : 0 ≤ min totalRewards currentAIRO / totalRewards := div_nonneg hmin0 ht
    have hr1 : min totalRewards currentAIRO / totalRewards ≤ 1 := (div_le_one hpos).mpr hmin1
    constructor
    · show 0 ≤ 50 * (min totalRewards currentAIRO / totalRewards) + 50
      linarith
    · show 50 * (min totalRewards currentAIRO / totalRewards) + 50 ≤ 100
      linarith

/-- C20: `getHealth` returns 100 when `totalRewards = 0` and otherwise
`50 * min(totalRewards, currentAIRO) / totalRewards + 50`; for non-negative
arguments the result lies in `[0, 100]`; `getHealth(0, x) = 100`,
`getHealth(50, 30) = 80` and `getHealth(50, 60) = 100`. -/
theorem getHealth_spec (totalRewards currentAIRO : ℚ) :
    (totalRewards = 0 → getHealth totalRewards currentAIRO = 100) ∧
    (totalRewards ≠ 0 → getHealth totalRewards currentAIRO
      = 50 * min totalRewards currentAIRO / totalRewards + 50) ∧
    (0 ≤ totalRewards → 0 ≤ currentAIRO →
      0 ≤ getHealth totalRewards currentAIRO ∧ getHealth totalRewards currentAIRO ≤ 100) ∧
    getHealth 0 currentAIRO = 100 ∧
    getHealth 50 30 = 80 ∧ getHealth 50 60 = 100 := by
  refine ⟨?_, ?_, getHealth_bounds totalRewards currentAIRO, ?_, ?_, ?_⟩
  · intro h; simp [getHealth, h]
  · intro h
    simp only [getHealth, h, if_false]
    ring
  · simp [getHealth]
  · norm_num [getHealth]
  · norm_num [getHealth]

/-- Witness of C20: the health of a miner that kept 30 of 50 rewarded. -/
theorem getHealth_spec_witness :
    getHealth 50 30 = 50 * min 50 30 / 50 + 50 ∧
    0 ≤ getHealth 50 30 ∧ getHealth 50 30 ≤ 100 :=
  ⟨(getHealth_spec 50 30).2.1 (by norm_num),
    (getHealth_spec 50 30).2.2.1 (by norm_num) (by norm_num)⟩

theorem agedStore_active : findActiveReward agedStore 600 = some exPeriod := by
  norm_num [findActiveReward, agedStore, exPeriod]

theorem agedStore_miner : agedStore.minerById "m1" = some agedMiner := by
  simp [Store.minerById, agedStore, agedMiner]

theorem agedStore_candidate : "m1" ∈ getTotalMiners Config.default 600 agedStore none := by
  rw [mem_getTotalMiners]
  exact ⟨readyMetric 100, by simp [agedStore], rfl, rfl, rfl,
    by norm_num [readyMetric, Config.default]⟩

theorem agedStore_uptime :
    findCoefficient (countMetrics agedStore "m1" exPeriod.startWeek)
      Config.default.COUNT_PERIOD_REWARD = 1 := by
  have h1 : countMetrics agedStore "m1" exPeriod.startWeek = 5 := by
    simp [countMetrics, agedStore, readyMetric, exPeriod]
  rw [h1]
  norm_num [findCoefficient, mathRound, Config.default]

theorem agedStore_after :
    ∃ m, (rewardDistribution Config.default 600 agedStore).minerById "m1" = some m ∧
      m.ageRate = -(1 / 2) := by
  obtain ⟨m, hm, ha, _⟩ := tick_miner Config.default 600 agedStore exPeriod "m1" agedMiner
    agedStore_active agedStore_candidate agedStore_miner (by norm_num [agedMiner])
    (by simp [agedMiner])
  refine ⟨m, hm, ?_⟩
  rw [ha, agedStore_uptime]
  norm_num [agedMiner]

/-- C18: for every eligible candidate miner one pass sets `ageRate` to
`ageRate_before - uptimeRate`, with no floor at 0: with a positive expected
count the `ageRate` does not increase, and it is negative after the pass
whenever `uptimeRate` exceeds `ageRate_before`, as for the miner of `agedStore`
with `ageRate` 0.5 and a full window of five metrics, which ends at -0.5. -/
theorem rewardDistribution_ageRate (cfg : Config) (now : ℚ) (s : Store) (reward : RewardPeriod)
    (minerId : String) (miner : Miner)
    (hactive : findActiveReward s now = some reward)
    (hcand : minerId ∈ getTotalMiners cfg now s none)
    (hminer : s.minerById minerId = some miner)
    (hage : 0 < miner.ageRate)
    (huser : miner.userId ≠ none ∧ miner.userId ≠ some "") :
    (∃ m, (rewardDistribution cfg now s).minerById minerId = some m ∧
      m.ageRate = miner.ageRate
        - findCoefficient (countMetrics s minerId reward.startWeek) cfg.COUNT_PERIOD_REWARD ∧
      (0 < cfg.COUNT_PERIOD_REWARD → m.ageRate ≤ miner.ageRate) ∧
      (miner.ageRate
          < findCoefficient (countMetrics s minerId reward.startWeek) cfg.COUNT_PERIOD_REWARD →
        m.ageRate < 0)) ∧
    (agedStore.minerById "m1" = some agedMiner ∧ agedMiner.ageRate = 1 / 2 ∧
      countMetrics agedStore "m1" exPeriod.startWeek = Config.default.COUNT_PERIOD_REWARD ∧
      ∃ m, (rewardDistribution Config.default 600 agedStore).minerById "m1" = some m ∧
        m.ageRate = -(1 / 2)) := by
  obtain ⟨m, hm, ha, _⟩ := tick_miner cfg now s reward minerId miner hactive hcand hminer hage
    huser
  refine ⟨⟨m, hm, ha, ?_, ?_⟩, agedStore_miner, rfl, ?_, agedStore_after⟩
  · intro hc
    have := findCoefficient_nonneg (countMetrics s minerId reward.startWeek)
      cfg.COUNT_PERIOD_REWARD (Nat.cast_nonneg _) (by exact_mod_cast hc)
    rw [ha]
    linarith
  · intro hlt
    rw [ha]
    linarith
  · simp [countMetrics, agedStore, readyMetric, exPeriod, Config.default]

/-- Witness of C18: the miner of `agedStore` ends the tick at 600 with a negative
`ageRate`. -/
theorem rewardDistribution_ageRate_witness :
    ∃ m, (rewardDistribution Config.default 600 agedStore).minerById "m1" = some m ∧
      m.ageRate < 0 := by
  obtain ⟨⟨m, hm, _, _, hneg⟩, _⟩ := rewardDistribution_ageRate Config.default 600 agedStore
    exPeriod "m1" agedMiner agedStore_active agedStore_candidate agedStore_miner
    (by norm_num [agedMiner]) (by simp [agedMiner])
  exact ⟨m, hm, hneg (by rw [agedStore_uptime]; norm_num [agedMiner])⟩

theorem balancesNonneg_setMinerFields (s : Store) (id : String) (upd : Miner → Miner)
    (hs : balancesNonneg s)
    (hupd : ∀ m ∈ s.miners, 0 ≤ (upd m).currentAIRO ∧ 0 ≤ (upd m).totalRewards) :
    balancesNonneg (setMinerFields s id upd).1 := by
  intro m hm
  rcases mem_updateFirst _ _ _ _ hm with h | ⟨a, ha, rfl⟩
  · exact hs m h
  · exact hupd a ha

theorem minerById_mem {s : Store} {id : String} {m : Miner} (h : s.minerById id = some m) :
    m ∈ s.miners :=
  List.mem_of_find?_eq_some h

theorem rewardCompute_nonneg {cfg : Config} {reward : RewardPeriod} {n : ℕ} {s : Store}
    {x : String} {u : RewardUpdate} (hs : balancesNonneg s)
    (hcount : 0 < cfg.COUNT_PERIOD_REWARD) (hw : 0 ≤ reward.weeklyReward)
    (h : rewardCompute cfg reward n s x = some u) :
    u.miner ∈ s.miners ∧ 0 ≤ u.currentReward := by
  unfold rewardCompute at h
  cases he : findEligibleMiner s x with
  | none => simp [he] at h
  | some miner =>
    simp only [he, Option.some.injEq] at h
    have hmem : s.minerById x = some miner ∧ miner.eligible = true := by
      unfold findEligibleMiner at he
      cases hb : s.minerById x with
      | none => simp [hb, Option.filter] at he
      | some m' =>
        by_cases hel : m'.eligible = true
        · simp only [hb, Option.filter, hel, if_true, Option.some.injEq] at he
          subst he
          exact ⟨rfl, hel⟩
        · simp [hb, Option.filter, hel] at he
    have hin := minerById_mem hmem.1
    have hage := ((eligible_iff miner).mp hmem.2).1
    obtain ⟨hc0, ht0⟩ := hs miner hin
    have hh := (getHealth_bounds miner.totalRewards miner.currentAIRO ht0 hc0).1
    have hu := findCoefficient_nonneg (countMetrics s x reward.startWeek)
      cfg.COUNT_PERIOD_REWARD (Nat.cast_nonneg _) (by exact_mod_cast hcount)
    have hshare : (0 : ℚ) ≤ reward.weeklyReward / n := div_nonneg hw (Nat.cast_nonneg _)
    rw [← h]
    refine ⟨hin, ?_⟩
    show 0 ≤ assignReward _ _ _ _
    unfold assignReward
    apply fixed_nonneg
    have h200 : (0 : ℚ) ≤ (miner.ageRate + getHealth miner.totalRewards miner.currentAIRO) / 200 :=
      by positivity
    exact mul_nonneg (mul_nonneg hu h200) hshare

theorem balancesNonneg_distributeOne (cfg : Config) (reward : RewardPeriod) (n : ℕ) (s : Store)
    (x : String) (hs : balancesNonneg s) (hcount : 0 < cfg.COUNT_PERIOD_REWARD)
    (hw : 0 ≤ reward.weeklyReward) :
    balancesNonneg (distributeOne (fun _ st => st) cfg reward n s x) := by
  unfold distributeOne
  cases hc : rewardCompute cfg reward n s x with
  | none => exact hs
  | some u =>
    obtain ⟨hin, hr⟩ := rewardCompute_nonneg hs hcount hw hc
    obtain ⟨hc0, ht0⟩ := hs u.miner hin
    have hset := balancesNonneg_setMinerFields s u.minerId u.set hs (fun m _ =>
      ⟨fixed_nonneg _ 6 (add_nonneg hc0 hr), fixed_nonneg _ 6 (add_nonneg ht0 hr)⟩)
    show balancesNonneg (rewardApply cfg reward n s u)
    unfold rewardApply
    split
    · exact hset
    · exact hset

theorem balancesNonneg_foldl (cfg : Config) (reward : RewardPeriod) (n : ℕ)
    (hcount : 0 < cfg.COUNT_PERIOD_REWARD) (hw : 0 ≤ reward.weeklyReward) :
    ∀ (ids : List String) (s : Store), balancesNonneg s →
      balancesNonneg (ids.foldl (distributeOne (fun _ st => st) cfg reward n) s) := by
  intro ids
  induction ids with
  | nil => intro s hs; exact hs
  | cons x rest ih =>
    intro s hs
    exact ih _ (balancesNonneg_distributeOne cfg reward n s x hs hcount hw)

theorem balancesNonneg_tick (cfg : Config) (now : ℚ) (s : Store) (hs : balancesNonneg s)
    (hcount : 0 < cfg.COUNT_PERIOD_REWARD)
    (hw : ∀ reward, findActiveReward s now = some reward → 0 ≤ reward.weeklyReward) :
    balancesNonneg (rewardDistribution cfg now s) := by
  cases ha : findActiveReward s now with
  | none => rw [rewardDistribution_inactive cfg now s ha]; exact hs
  | some reward =>
    have h := balancesNonneg_foldl cfg reward
      (countActiveMiners s (getTotalMiners cfg now s none)) hcount (hw reward ha)
      (getTotalMiners cfg now s none) s hs
    simp only [rewardDistribution, rewardDistributionWith, ha]
    exact h

theorem balancesNonneg_withdraw (ledger : Ledger) (s : Store) (req : WithdrawRequest)
    (hs : balancesNonneg s) : balancesNonneg (withdrawAIRO ledger s req).store := by
  cases hp : withdrawPrepare s req with
  | error r =>
    have : withdrawAIRO ledger s req = { store := s, response := r, effects := [] } := by
      simp only [withdrawAIRO, hp]
    rw [this]; exact hs
  | ok ctx =>
    obtain ⟨m, key, h1, h2, h3, h4, hctx⟩ := withdrawPrepare_ok_iff.mp hp
    have hw := withdrawAIRO_of_prepare ledger h1 h2 h3 h4
    by_cases hv : ∃ q, req.withdraw = JSNumber.finite q ∧ 0 < q ∧ q ≤ m.currentAIRO
    · obtain ⟨q, hq, hpos, hle⟩ := hv
      by_cases hsend : ledger.send key (m.wallet.getD "") q = SendResult.ok
      · have hst := (withdrawCritical_sent ledger s req
          { currentMiner := m, withdrawNum := req.withdraw, from_ := key } q hq hpos hle hsend).1
        rw [hw, hst]
        exact balancesNonneg_setMinerFields _ _ _ hs (fun a ha =>
          ⟨sub_nonneg.mpr hle, (hs a ha).2⟩)
      · have hf := withdrawCritical_failed ledger s req
          { currentMiner := m, withdrawNum := req.withdraw, from_ := key } q hq hpos hle hsend
        rw [hw, hf]
        exact hs
    · have hi := withdrawCritical_invalid ledger s req
        { currentMiner := m, withdrawNum := req.withdraw, from_ := key } hv
      rw [hw, hi]
      exact hs

theorem balancesNonneg_topUp (cfg : Config) (ledger : Ledger) (s : Store) (req : TopUpRequest)
    (hs : balancesNonneg s)
    (hval : ∀ tx op, ledger.getTransaction req.hash = some tx → tx.operations.head? = some op →
      0 ≤ op.value) :
    balancesNonneg (topUpAIRO cfg ledger s req).store := by
  cases hp : topUpPrepare cfg ledger s req with
  | error r => rw [topUpAIRO_of_error hp]; exact hs
  | ok ctx =>
    rw [topUpAIRO_of_prepare hp]
    obtain ⟨m, tx, key, op, h1, _, _, h4, _, _, _, _, h9, _, hctx⟩ := topUpPrepare_ok_iff.mp hp
    cases hf : findTopUpHistory s ctx.transaction.txHash with
    | some t => rw [topUpCritical_used s req ctx t hf]; exact hs
    | none =>
      rw [(topUpCritical_fresh s req ctx hf).1]
      have hw : balancesNonneg (topUpWritten s req ctx) := by
        intro a ha
        rw [(topUpWritten_rest s req ctx).1] at ha
        exact hs a ha
      have hm0 := (hs m (minerById_mem h1)).1
      have hv0 := hval tx op h4 h9
      have hafter : 0 ≤ ctx.afterChange := by
        rw [hctx]
        show 0 ≤ fixed (m.currentAIRO + op.value / 10 ^ op.decimals) 6
        exact fixed_nonneg _ 6 (add_nonneg hm0 (div_nonneg hv0 (by positivity)))
      exact balancesNonneg_setMinerFields _ _ _ hw (fun a ha => ⟨hafter, (hw a ha).2⟩)

/-- C19: `currentAIRO >= 0` and `totalRewards >= 0` for every miner are preserved
by each balance mutating operation executed alone: a tick over a period with
`weeklyReward >= 0` (the expected metric count being positive), a
`withdrawAIRO` call, and a `topUpAIRO` call whose ledger value is not negative. -/
theorem balances_nonneg_preserved (cfg : Config) (ledger : Ledger) (s : Store)
    (hs : balancesNonneg s) (hcount : 0 < cfg.COUNT_PERIOD_REWARD) :
    (∀ now, (∀ reward, findActiveReward s now = some reward → 0 ≤ reward.weeklyReward) →
      balancesNonneg (rewardDistribution cfg now s)) ∧
    (∀ req, balancesNonneg (withdrawAIRO ledger s req).store) ∧
    (∀ req, (∀ tx op, ledger.getTransaction req.hash = some tx →
        tx.operations.head? = some op → 0 ≤ op.value) →
      balancesNonneg (topUpAIRO cfg ledger s req).store) :=
  ⟨fun now hw => balancesNonneg_tick cfg now s hs hcount hw,
    fun req => balancesNonneg_withdraw ledger s req hs,
    fun req hval => balancesNonneg_topUp cfg ledger s req hs hval⟩

/-- Witness of C19: the withdrawal of 50 on `bankStore`. -/
theorem balances_nonneg_preserved_witness :
    balancesNonneg (withdrawAIRO okLedger bankStore raceWithdraw).store :=
  (balances_nonneg_preserved Config.default okLedger bankStore (by
      intro m hm
      simp only [bankStore, List.mem_singleton] at hm
      rw [hm]
      norm_num [bankMiner])
    (by norm_num [Config.default])).2.1 raceWithdraw

theorem findCoefficient_le_one (c t : ℚ) (hc : 0 ≤ c) (hct : c ≤ t) :
    findCoefficient c t ≤ 1 := by
  unfold findCoefficient mathRound
  have hr : c / t ≤ 1 := by
    rcases eq_or_lt_of_le (le_trans hc hct) with h0 | hpos
    · rw [← h0]
      simp
    · exact (div_le_one hpos).mpr hct
  have h1 : c / t * 10 + 1 / 2 < ((11 : ℤ) : ℚ) := by
    push_cast
    linarith
  have h2 : ⌊c / t * 10 + 1 / 2⌋ < (11 : ℤ) := Int.floor_lt.mpr h1
  have h3 : ((⌊c / t * 10 + 1 / 2⌋ : ℤ) : ℚ) ≤ 10 := by
    have h4 : ⌊c / t * 10 + 1 / 2⌋ ≤ (10 : ℤ) := by omega
    exact_mod_cast h4
  simp only []
  linarith

theorem fixed_mono (x y : ℚ) (p : ℕ) (hx : 0 ≤ x) (hxy : x ≤ y) : fixed x p ≤ fixed y p := by
  have hp : (0 : ℚ) < 10 ^ p := by positivity
  have hbig : (0 : ℚ) < 10 ^ 21 := by positivity
  have hy : 0 ≤ y := le_trans hx hxy
  have hxn : ¬ x < 0 := not_lt.mpr hx
  have hyn : ¬ y < 0 := not_lt.mpr hy
  by_cases hxb : 10 ^ 21 ≤ x
  · have hyb : (10 : ℚ) ^ 21 ≤ y := le_trans hxb hxy
    simp only [fixed, hxb, hyb, or_true, if_true]
    exact hxy
  · have hx1 : ¬ (x ≤ -(10 ^ 21) ∨ 10 ^ 21 ≤ x) := by
      intro h
      rcases h with h | h
      · linarith
      · exact hxb h
    by_cases hyb : 10 ^ 21 ≤ y
    · simp only [fixed, hx1, hxn, hyb, or_true, if_true, if_false]
      have hlt : x * 10 ^ p + 1 / 2 < (((10 : ℤ) ^ (21 + p) + 1 : ℤ) : ℚ) := by
        push_cast
        have hx2 : x < 10 ^ 21 := not_le.mp hxb
        have h3 : x * 10 ^ p < 10 ^ 21 * 10 ^ p := mul_lt_mul_of_pos_right hx2 hp
        rw [pow_add]
        linarith
      have hfl : ⌊x * 10 ^ p + 1 / 2⌋ < (10 : ℤ) ^ (21 + p) + 1 := Int.floor_lt.mpr hlt
      have hfl2 : ⌊x * 10 ^ p + 1 / 2⌋ ≤ (10 : ℤ) ^ (21 + p) := by omega
      have hfl3 : ((⌊x * 10 ^ p + 1 / 2⌋ : ℤ) : ℚ) ≤ 10 ^ 21 * 10 ^ p := by
        have h4 : ((⌊x * 10 ^ p + 1 / 2⌋ : ℤ) : ℚ) ≤ (((10 : ℤ) ^ (21 + p) : ℤ) : ℚ) := by
          exact_mod_cast hfl2
        rw [pow_add] at h4
        push_cast at h4
        exact h4
      calc ((⌊x * 10 ^ p + 1 / 2⌋ : ℤ) : ℚ) / 10 ^ p ≤ (10 ^ 21 * 10 ^ p) / 10 ^ p :=
            div_le_div_of_nonneg_right hfl3 hp.le
        _ = 10 ^ 21 := by field_simp
        _ ≤ y := hyb
    · have hy1 : ¬ (y ≤ -(10 ^ 21) ∨ 10 ^ 21 ≤ y) := by
        intro h
        rcases h with h | h
        · linarith
        · exact hyb h
      simp only [fixed, hx1, hxn, hy1, hyn, if_false]
      have hmono : ⌊x * 10 ^ p + 1 / 2⌋ ≤ ⌊y * 10 ^ p + 1 / 2⌋ := by
        apply Int.floor_mono
        have := mul_le_mul_of_nonneg_right hxy hp.le
        linarith
      have hc : ((⌊x * 10 ^ p + 1 / 2⌋ : ℤ) : ℚ) ≤ ((⌊y * 10 ^ p + 1 / 2⌋ : ℤ) : ℚ) := by
        exact_mod_cast hmono
      exact div_le_div_of_nonneg_right hc hp.le

/-- C21: for `observed ≥ 0` and `expected > 0`, `findCoefficient` is
`round(10 · observed / expected) / 10` with `round` the floor of its argument
plus one half: it lies within one twentieth of the ratio, a ratio halfway
between two tenths goes to the upper one, `findCoefficient(3, 5) = 0.6` and
`findCoefficient(0, 5) = 0`. -/
theorem findCoefficient_nearest_tenth (observed expected : ℚ) (ho : 0 ≤ observed)
    (he : 0 < expected) :
    findCoefficient observed expected
      = ((⌊10 * observed / expected + 1 / 2⌋ : ℤ) : ℚ) / 10 ∧
    0 ≤ findCoefficient observed expected ∧
    |findCoefficient observed expected - observed / expected| ≤ 1 / 20 ∧
    (∀ n : ℤ, 10 * observed / expected = n + 1 / 2 →
      findCoefficient observed expected = (n + 1) / 10) ∧
    findCoefficient 3 5 = 6 / 10 ∧ findCoefficient 0 5 = 0 := by
  have hform : findCoefficient observed expected
      = ((⌊10 * observed / expected + 1 / 2⌋ : ℤ) : ℚ) / 10 := by
    unfold findCoefficient mathRound
    have : observed / expected * 10 = 10 * observed / expected := by ring
    simp only [this]
  refine ⟨hform, findCoefficient_nonneg observed expected ho he, ?_, ?_, ?_, ?_⟩
  · rw [hform]
    have hf := Int.floor_le (10 * observed / expected + 1 / 2)
    have hl := Int.lt_floor_add_one (10 * observed / expected + 1 / 2)
    generalize (⌊10 * observed / expected + 1 / 2⌋ : ℤ) = n at hf hl
    have hr : 10 * observed / expected = 10 * (observed / expected) := by ring
    rw [hr] at hf hl
    rw [abs_le]
    constructor <;> linarith
  · intro n hn
    rw [hform, hn]
    have h : ⌊(n : ℚ) + 1 / 2 + 1 / 2⌋ = n + 1 := by
      rw [Int.floor_eq_iff]
      push_cast
      constructor <;> linarith
    rw [h]
    push_cast
    ring
  · norm_num [findCoefficient, mathRound]
  · norm_num [findCoefficient, mathRound]

theorem findCoefficient_nearest_tenth_witness :
    findCoefficient 7 20 = ((⌊10 * (7 : ℚ) / 20 + 1 / 2⌋ : ℤ) : ℚ) / 10 ∧
    findCoefficient 7 20 = (3 + 1) / 10 :=
  ⟨(findCoefficient_nearest_tenth 7 20 (by norm_num) (by norm_num)).1,
   (findCoefficient_nearest_tenth 7 20 (by norm_num) (by norm_num)).2.2.2.1 3 (by norm_num)⟩

/-- C22: for `0 ≤ observed ≤ expected` and `expected > 0` the value of
`findCoefficient` lies in `[0, 1]`. -/
theorem findCoefficient_unit_interval (observed expected : ℚ) (ho : 0 ≤ observed)
    (hoe : observed ≤ expected) (he : 0 < expected) :
    0 ≤ findCoefficient observed expected ∧ findCoefficient observed expected ≤ 1 :=
  ⟨findCoefficient_nonneg observed expected ho he,
   findCoefficient_le_one observed expected ho hoe⟩

theorem findCoefficient_unit_interval_witness :
    0 ≤ findCoefficient 4 5 ∧ findCoefficient 4 5 ≤ 1 :=
  findCoefficient_unit_interval 4 5 (by norm_num) (by norm_num) (by norm_num)

theorem findCoefficient_nonneg_of_le (c t : ℚ) (hc : 0 ≤ c) (hct : c ≤ t) :
    0 ≤ findCoefficient c t := by
  unfold findCoefficient mathRound
  have ht : 0 ≤ t := le_trans hc hct
  have h0 : 0 ≤ c / t := div_nonneg hc ht
  have h1 : (0 : ℚ) ≤ c / t * 10 + 1 / 2 := by positivity
  have h2 : (0 : ℤ) ≤ ⌊c / t * 10 + 1 / 2⌋ := Int.floor_nonneg.mpr h1
  have h3 : (0 : ℚ) ≤ ((⌊c / t * 10 + 1 / 2⌋ : ℤ) : ℚ) := by exact_mod_cast h2
  positivity

theorem findEligibleMiner_some {s : Store} {id : String} {m : Miner}
    (h : findEligibleMiner s id = some m) : s.minerById id = some m ∧ m.eligible = true := by
  unfold findEligibleMiner at h
  cases hb : s.minerById id with
  | none => simp [hb, Option.filter] at h
  | some m' =>
    by_cases hel : m'.eligible = true
    · simp only [hb, Option.filter, hel, if_true, Option.some.injEq] at h
      subst h
      exact ⟨rfl, hel⟩
    · simp [hb, Option.filter, hel] at h

theorem assignReward_bounded (uptimeRate ageRate healthRate share : ℚ)
    (hu0 : 0 ≤ uptimeRate) (hu1 : uptimeRate ≤ 1) (ha0 : 0 ≤ ageRate) (ha1 : ageRate ≤ 100)
    (hh0 : 0 ≤ healthRate) (hh1 : healthRate ≤ 100) (hs : 0 ≤ share) :
    0 ≤ assignReward uptimeRate ageRate healthRate share ∧
    assignReward uptimeRate ageRate healthRate share ≤ fixed share 5 := by
  have hq0 : 0 ≤ (ageRate + healthRate) / 200 := by positivity
  have hq1 : (ageRate + healthRate) / 200 ≤ 1 := by
    rw [div_le_one (by norm_num)]
    linarith
  have hp0 : 0 ≤ uptimeRate * ((ageRate + healthRate) / 200) := mul_nonneg hu0 hq0
  have hp1 : uptimeRate * ((ageRate + healthRate) / 200) ≤ 1 := by
    calc uptimeRate * ((ageRate + healthRate) / 200) ≤ 1 * 1 :=
          mul_le_mul hu1 hq1 hq0 (by norm_num)
      _ = 1 := by norm_num
  have hx0 : 0 ≤ uptimeRate * ((ageRate + healthRate) / 200) * share := mul_nonneg hp0 hs
  have hx1 : uptimeRate * ((ageRate + healthRate) / 200) * share ≤ share := by
    calc uptimeRate * ((ageRate + healthRate) / 200) * share ≤ 1 * share :=
          mul_le_mul_of_nonneg_right hp1 hs
      _ = share := by ring
  unfold assignReward
  exact ⟨fixed_nonneg _ 5 hx0, fixed_mono _ _ 5 hx0 hx1⟩

theorem rewardCompute_bounded {cfg : Config} {reward : RewardPeriod} {n : ℕ} {s : Store}
    {id : String} {m : Miner} (hm : findEligibleMiner s id = some m)
    (hb : withinBounds cfg s reward id m) (hw : 0 ≤ reward.weeklyReward) :
    ∃ u, rewardCompute cfg reward n s id = some u ∧ u.miner = m ∧
      0 ≤ u.currentReward ∧ u.currentReward ≤ fixed (reward.weeklyReward / n) 5 := by
  obtain ⟨_, hel⟩ := findEligibleMiner_some hm
  obtain ⟨hage, htot, hcur, hcount⟩ := hb
  have hpos := ((eligible_iff m).mp hel).1
  have hh := getHealth_bounds m.totalRewards m.currentAIRO htot hcur
  have hc0 : (0 : ℚ) ≤ ((countMetrics s id reward.startWeek : ℕ) : ℚ) := Nat.cast_nonneg _
  have hc1 : ((countMetrics s id reward.startWeek : ℕ) : ℚ) ≤ (cfg.COUNT_PERIOD_REWARD : ℚ) := by
    exact_mod_cast hcount
  have hshare : (0 : ℚ) ≤ reward.weeklyReward / n := div_nonneg hw (Nat.cast_nonneg _)
  have hb := assignReward_bounded
    (findCoefficient (countMetrics s id reward.startWeek) cfg.COUNT_PERIOD_REWARD)
    m.ageRate (getHealth m.totalRewards m.currentAIRO) (reward.weeklyReward / n)
    (findCoefficient_nonneg_of_le _ _ hc0 hc1) (findCoefficient_le_one _ _ hc0 hc1)
    hpos.le hage hh.1 hh.2 hshare
  simp only [rewardCompute, hm]
  exact ⟨_, rfl, rfl, hb.1, hb.2⟩

theorem rewardCompute_isSome {cfg : Config} {reward : RewardPeriod} {n : ℕ} {s : Store}
    {id : String} {u : RewardUpdate} (h : rewardCompute cfg reward n s id = some u) :
    findEligibleMiner s id = some u.miner := by
  unfold rewardCompute at h
  cases he : findEligibleMiner s id with
  | none => simp [he] at h
  | some miner =>
    simp only [he, Option.some.injEq] at h
    rw [← h]

theorem records_bounded (cfg : Config) (reward : RewardPeriod) (n : ℕ) (s : Store) (B : ℚ)
    (hB : 0 ≤ B) (l : List String)
    (h : ∀ id ∈ l, ∀ u, rewardCompute cfg reward n s id = some u →
      0 ≤ u.currentReward ∧ u.currentReward ≤ B) :
    (∀ t ∈ l.flatMap (recordsOf cfg reward n s), t.type = "REWARD" ∧ 0 ≤ t.value ∧ t.value ≤ B) ∧
    ((l.flatMap (recordsOf cfg reward n s)).map Transaction.value).sum
      ≤ (countActiveMiners s l : ℚ) * B := by
  induction l with
  | nil => simp [countActiveMiners]
  | cons x xs ih =>
    obtain ⟨ih1, ih2⟩ := ih (fun id hid u hu => h id (List.mem_cons_of_mem _ hid) u hu)
    have hcount : (countActiveMiners s (x :: xs) : ℚ)
        = countActiveMiners s xs + (if (findEligibleMiner s x).isSome then 1 else 0) := by
      unfold countActiveMiners
      rw [List.countP_cons]
      push_cast
      rfl
    rw [List.flatMap_cons, List.map_append, List.sum_append, hcount]
    cases hc : rewardCompute cfg reward n s x with
    | none =>
      have hr : recordsOf cfg reward n s x = [] := by simp [recordsOf, hc]
      rw [hr]
      refine ⟨fun t ht => ih1 t (by simpa using ht), ?_⟩
      have : (0 : ℚ) ≤ (if (findEligibleMiner s x).isSome then (1 : ℚ) else 0) * B := by
        split_ifs <;> simp [hB]
      simp only [List.map_nil, List.sum_nil, zero_add]
      linarith
    | some u =>
      have hsome := rewardCompute_isSome hc
      obtain ⟨hu0, hu1⟩ := h x (List.mem_cons_self _ _) u hc
      have hone : (if (findEligibleMiner s x).isSome then (1 : ℚ) else 0) = 1 := by
        simp [hsome]
      rw [hone]
      by_cases hz : u.currentReward ≠ 0
      · have hr : recordsOf cfg reward n s x = [rewardRecord cfg reward n u] := by
          simp [recordsOf, hc, RewardUpdate.records, hz]
        rw [hr]
        constructor
        · intro t ht
          rcases List.mem_append.mp ht with h1 | h1
          · have ht2 : t = rewardRecord cfg reward n u := by simpa using h1
            rw [ht2]
            exact ⟨rfl, hu0, hu1⟩
          · exact ih1 t h1
        · have hv : (rewardRecord cfg reward n u).value = u.currentReward := rfl
          simp only [List.map_cons, List.map_nil, List.sum_cons, List.sum_nil, hv]
          linarith
      · have hr : recordsOf cfg reward n s x = [] := by
          simp only [not_not] at hz
          simp [recordsOf, hc, RewardUpdate.records, hz]
        rw [hr]
        refine ⟨fun t ht => ih1 t (by simpa using ht), ?_⟩
        simp only [List.map_nil, List.sum_nil, zero_add]
        linarith

/-- C27: in a tick on an active period with `weeklyReward ≥ 0`, an eligible
miner with `ageRate ≤ 100`, `totalRewards ≥ 0`, `currentAIRO ≥ 0` and a metric
count of at most `COUNT_PERIOD_REWARD` receives a reward between `0` and the
share for one miner rounded to five decimals; when every eligible candidate is
within these bounds, the REWARD records of the tick carry such values and sum
to at most the number of eligible candidates times the rounded share. -/
theorem tick_reward_bounded (cfg : Config) (now : ℚ) (s : Store) (reward : RewardPeriod)
    (hactive : findActiveReward s now = some reward) (hw : 0 ≤ reward.weeklyReward) :
    let candidates := getTotalMiners cfg now s none
    let n := countActiveMiners s candidates
    let capped := fixed (reward.weeklyReward / n) 5
    let appended := (rewardDistribution cfg now s).transactions.drop s.transactions.length
    (∀ id ∈ candidates, ∀ m, findEligibleMiner s id = some m → withinBounds cfg s reward id m →
      ∃ u, rewardCompute cfg reward n s id = some u ∧ u.miner = m ∧
        0 ≤ u.currentReward ∧ u.currentReward ≤ capped) ∧
    ((∀ id ∈ candidates, ∀ m, findEligibleMiner s id = some m →
        withinBounds cfg s reward id m) →
      (∀ t ∈ appended, t.type = "REWARD" ∧ 0 ≤ t.value ∧ t.value ≤ capped) ∧
      (appended.map Transaction.value).sum ≤ n * capped) := by
  intro candidates n capped appended
  refine ⟨fun id _ m hm hb => rewardCompute_bounded hm hb hw, ?_⟩
  intro hall
  obtain ⟨_, _, htx, _, _⟩ := rewardDistribution_spec cfg now s reward hactive
  have hn : totalEligible s candidates = n := (countActiveMiners_eq s candidates).symm
  have happ : appended = candidates.flatMap (recordsOf cfg reward n s) := by
    show List.drop _ (rewardDistribution cfg now s).transactions = _
    rw [htx, List.drop_left, hn]
  have hcap : 0 ≤ capped := fixed_nonneg _ 5 (div_nonneg hw (Nat.cast_nonneg _))
  rw [happ]
  apply records_bounded cfg reward n s capped hcap candidates
  intro id hid u hu
  have hsome := rewardCompute_isSome hu
  obtain ⟨u', hu', _, h0, h1⟩ :=
    @rewardCompute_bounded cfg reward n s id u.miner hsome (hall id hid u.miner hsome) hw
  rw [hu] at hu'
  simp only [Option.some.injEq] at hu'
  subst hu'
  exact ⟨h0, h1⟩

/-- Witness of C27: the miner of `exStore` in the tick at 600. -/
theorem tick_reward_bounded_witness :
    ∃ u, rewardCompute Config.default exPeriod
        (countActiveMiners exStore (getTotalMiners Config.default 600 exStore none))
        exStore "m1" = some u ∧ u.miner = exMiner ∧ 0 ≤ u.currentReward ∧
      u.currentReward ≤ fixed (exPeriod.weeklyReward /
        (countActiveMiners exStore (getTotalMiners Config.default 600 exStore none))) 5 :=
  (tick_reward_bounded Config.default 600 exStore exPeriod exStore_active
      (by norm_num [exPeriod])).1 "m1" (by rw [exStore_candidates]; simp) exMiner
    (by simp [findEligibleMiner, exStore_miner, Option.filter, Miner.eligible, exMiner])
    (by norm_num [withinBounds, exMiner, countMetrics, exStore, exMetric, exPeriod,
      Config.default])

theorem find_unique {α : Type} (p : α → Bool) (l : List α) (a : α) (ha : a ∈ l)
    (hp : p a = true) (honly : ∀ b ∈ l, p b = true → b = a) : l.find? p = some a := by
  cases h : l.find? p with
  | none =>
    have := List.find?_eq_none.mp h a ha
    exact absurd hp this
  | some b =>
    have hb := List.find?_some h
    have hm := List.mem_of_find?_eq_some h
    rw [honly b hm hb]

theorem findActiveReward_of_only {s : Store} {now : ℚ} {reward : RewardPeriod}
    (hmem : reward ∈ s.rewards) (hleft : 0 < reward.weeksLeft)
    (hstart : reward.startDate ≤ now) (hend : now ≤ reward.endDate)
    (honly : ∀ r ∈ s.rewards, r.startDate ≤ now → now ≤ r.endDate → 0 < r.weeksLeft →
      r = reward) :
    findActiveReward s now = some reward := by
  unfold findActiveReward
  apply find_unique _ _ _ hmem
  · simp [hleft, hstart, hend]
  · intro b hb hpb
    simp only [Bool.and_eq_true, decide_eq_true_eq] at hpb
    exact honly b hb hpb.1.1 hpb.1.2 hpb.2

/-- Counterexample to C23: the only window of `lastPeriod` ended at 600 with the
period, `weeksLeft` is 1 and the miner `m1` is an eligible candidate, yet the
pass run at 601 leaves the store as it is. -/
theorem overdue_last_window_counterexample :
    lastPeriod ∈ lastStore.rewards ∧ 0 < lastPeriod.weeksLeft ∧
    lastPeriod.endWeek ≤ 601 ∧ lastPeriod.endWeek = lastPeriod.endDate ∧
    "m1" ∈ getTotalMiners Config.default 601 lastStore none ∧
    findEligibleMiner lastStore "m1" = some exMiner ∧
    rewardDistribution Config.default 601 lastStore = lastStore := by
  refine ⟨by simp [lastStore], by norm_num [lastPeriod], by norm_num [lastPeriod], rfl, ?_, ?_, ?_⟩
  · rw [mem_getTotalMiners]
    exact ⟨exMetric, by simp [lastStore], rfl, rfl, rfl,
      by norm_num [exMetric, Config.default]⟩
  · simp [findEligibleMiner, Store.minerById, lastStore, exMiner, Option.filter, Miner.eligible]
  · apply rewardDistribution_inactive
    norm_num [findActiveReward, lastStore, lastPeriod]

/-- C23 as amended: for a period with `weeksLeft > 0` whose window has ended
(`endWeek ≤ now`) and whose `endDate` has not passed (`startDate ≤ now ≤
endDate`), the only such period of the store, the pass run at `now` is not a
no-op: it finds the period, advances it by one window (`weeksLeft - 1`, the new
window starting at the old `endWeek`, which is not after `now`) and sets the
balances of every eligible candidate miner from its reward. -/
theorem overdue_window_distributed (cfg : Config) (now : ℚ) (s : Store) (reward : RewardPeriod)
    (hmem : reward ∈ s.rewards) (hids : (s.rewards.map RewardPeriod._id).Nodup)
    (hleft : 0 < reward.weeksLeft) (hover : reward.endWeek ≤ now)
    (hstart : reward.startDate ≤ now) (hend : now ≤ reward.endDate)
    (honly : ∀ r ∈ s.rewards, r.startDate ≤ now → now ≤ r.endDate → 0 < r.weeksLeft →
      r = reward) :
    findActiveReward s now = some reward ∧
    rewardDistribution cfg now s ≠ s ∧
    (∃ r, (rewardDistribution cfg now s).rewards.find? (fun p => p._id == reward._id) = some r ∧
      r.weeksLeft = reward.weeksLeft - 1 ∧ r.startWeek = reward.endWeek ∧ r.startWeek ≤ now ∧
      r.endWeek = reward.endWeek + cfg.PERIOD_REWARD) ∧
    (∀ minerId miner, minerId ∈ getTotalMiners cfg now s none →
      s.minerById minerId = some miner → 0 < miner.ageRate →
      miner.userId ≠ none ∧ miner.userId ≠ some "" →
      ∃ m, (rewardDistribution cfg now s).minerById minerId = some m ∧
        m.currentAIRO = fixed (miner.currentAIRO +
          specReward cfg reward (totalEligible s (getTotalMiners cfg now s none))
            (countMetrics s minerId reward.startWeek) miner) 6 ∧
        m.totalRewards = fixed (miner.totalRewards +
          specReward cfg reward (totalEligible s (getTotalMiners cfg now s none))
            (countMetrics s minerId reward.startWeek) miner) 6) := by
  have hactive := findActiveReward_of_only hmem hleft hstart hend honly
  have hr := rewardDistribution_rewards cfg now s reward hactive
  have hkey := find_by_id_of_mem RewardPeriod._id s.rewards reward hids hmem
  have hfind : (rewardDistribution cfg now s).rewards.find? (fun p => p._id == reward._id)
      = some (advancePeriod cfg reward reward) := by
    rw [hr, updateFirst_find_same RewardPeriod._id reward._id (advancePeriod cfg reward)
      (fun _ => rfl), hkey]
    rfl
  refine ⟨hactive, ?_, ⟨advancePeriod cfg reward reward, hfind, rfl, rfl, hover, rfl⟩, ?_⟩
  · intro heq
    rw [heq, hkey] at hfind
    have hw : reward.weeksLeft = (advancePeriod cfg reward reward).weeksLeft := by
      simp only [Option.some.injEq] at hfind
      rw [← hfind]
    have hw2 : (advancePeriod cfg reward reward).weeksLeft = reward.weeksLeft - 1 := rfl
    rw [hw2] at hw
    linarith
  · intro minerId miner hcand hminer hage huser
    obtain ⟨⟨m, hm, h1, h2⟩, _⟩ :=
      tick_eligible cfg now s reward minerId miner hactive hcand hminer hage huser
    exact ⟨m, hm, h1, h2⟩

/-- Witness of C23 as amended: the first window of `exPeriod` has ended at 600
and the period runs until 4200; the pass run at 600 advances it. -/
theorem overdue_window_distributed_witness :
    findActiveReward exStore 600 = some exPeriod ∧
    rewardDistribution Config.default 600 exStore ≠ exStore :=
  ⟨(overdue_window_distributed Config.default 600 exStore exPeriod (by simp [exStore])
      (by simp [exStore]) (by norm_num [exPeriod]) (by norm_num [exPeriod])
      (by norm_num [exPeriod]) (by norm_num [exPeriod])
      (by simp [exStore])).1,
   (overdue_window_distributed Config.default 600 exStore exPeriod (by simp [exStore])
      (by simp [exStore]) (by norm_num [exPeriod]) (by norm_num [exPeriod])
      (by norm_num [exPeriod]) (by norm_num [exPeriod])
      (by simp [exStore])).2.1⟩

theorem find?_append_singleton {α : Type} (p : α → Bool) (l : List α) (r : α)
    (hl : ∀ a ∈ l, p a = false) : (l ++ [r]).find? p = if p r then some r else none := by
  induction l with
  | nil => cases h : p r <;> simp [List.find?_cons, h]
  | cons a l ih =>
    have ha : p a = false := hl a (List.mem_cons_self _ _)
    rw [List.cons_append, List.find?_cons, ha]
    exact ih (fun b hb => hl b (List.mem_cons_of_mem _ hb))

theorem getCurrentRewardPeriod_none (s : Store) (now : ℚ)
    (hneg : ∀ r ∈ s.rewards, r.weeksLeft ≤ 0) : getCurrentRewardPeriod s now = none := by
  have h1 : findActiveReward s now = none := by
    unfold findActiveReward
    rw [List.find?_eq_none]
    intro r hr
    have := hneg r hr
    simp [not_lt.mpr this]
  have h2 : s.rewards.find? (fun r => decide (now < r.startDate) && decide (now < r.endDate)
      && decide (0 < r.weeksLeft)) = none := by
    rw [List.find?_eq_none]
    intro r hr
    have := hneg r hr
    simp [not_lt.mpr this]
  simp only [getCurrentRewardPeriod, h1, h2]

theorem getCurrentRewardPeriod_appended (s : Store) (rewards : List RewardPeriod)
    (r : RewardPeriod) (now : ℚ) (hs : s.rewards = rewards ++ [r])
    (hneg : ∀ a ∈ rewards, a.weeksLeft ≤ 0) (hleft : 0 < r.weeksLeft)
    (hcur : (r.startDate ≤ now ∧ now ≤ r.endDate) ∨ (now < r.startDate ∧ now < r.endDate)) :
    getCurrentRewardPeriod s now = some r := by
  have h1 : findActiveReward s now
      = if (decide (r.startDate ≤ now) && decide (now ≤ r.endDate) && decide (0 < r.weeksLeft))
        then some r else none := by
    unfold findActiveReward
    rw [hs]
    apply find?_append_singleton
    intro a ha
    have := hneg a ha
    simp [not_lt.mpr this]
  have h2 : s.rewards.find? (fun r => decide (now < r.startDate) && decide (now < r.endDate)
      && decide (0 < r.weeksLeft))
      = if (decide (now < r.startDate) && decide (now < r.endDate) && decide (0 < r.weeksLeft))
        then some r else none := by
    rw [hs]
    apply find?_append_singleton
    intro a ha
    have := hneg a ha
    simp [not_lt.mpr this]
  unfold getCurrentRewardPeriod
  rw [h1]
  rcases hcur with ⟨ha, hb⟩ | ⟨ha, hb⟩
  · simp [ha, hb, hleft]
  · have hna : ¬ r.startDate ≤ now := not_le.mpr ha
    simp only [hna, decide_False, Bool.false_and, Bool.false_eq_true, if_false]
    rw [h2]
    simp [ha, hb, hleft]

theorem createNewReward_accepted_old {cfg : Config} {s : Store} {body : RewardBody}
    {newId : String} {status : ℕ} {r : RewardPeriod}
    (h : (createNewReward cfg s body newId).reply = RewardReply.document status r) :
    ∀ a ∈ s.rewards, a.weeksLeft < 0 := by
  rcases createNewReward_cases cfg s body newId with h1 | ⟨_, hneg, _⟩
  · exfalso
    obtain ⟨_, _, h3⟩ := createNewReward_accepted h
    rw [h1] at h3
    have := congrArg List.length h3
    simp at this
  · exact hneg

/-- Counterexample to C24: on a store without periods `createNewReward` stores
the period of the body `total = 1`, `totalWeeks = 3` and answers 200, and it
emits no `'assigned'`: the task of the scheduler is the one it held before. -/
theorem createNewReward_event_counterexample :
    (createNewReward Config.default emptyStore thirdBody "r1").reply
      = RewardReply.document 200 (newPeriod Config.default thirdBody "r1") ∧
    (createNewReward Config.default emptyStore thirdBody "r1").store.rewards
      = [newPeriod Config.default thirdBody "r1"] ∧
    (createNewReward Config.default emptyStore thirdBody "r1").assigned = false ∧
    (SchedulerEvent.run Config.default { store := emptyStore, task := RewardJob.poll }
      (SchedulerEvent.create thirdBody "r1" 0)).task = RewardJob.poll := by
  have hv : validateRewardCreation thirdBody = [] :=
    (validate_iff thirdBody).mpr ⟨by norm_num [thirdBody], by norm_num [thirdBody]⟩
  have ha := createNewReward_unassigned Config.default emptyStore thirdBody "r1"
  refine ⟨?_, ?_, ha, ?_⟩
  · simp [createNewReward, hv, emptyStore, newPeriod, calculateRewardElements]
  · simp [createNewReward, hv, emptyStore, newPeriod, calculateRewardElements]
  · simp only [SchedulerEvent.run, afterRoute, ha]
    rfl

/-- C24 as amended: a successful `updateRewardRoute` and a successful
`deleteReward` emit `'assigned'`, on which the scheduler drops its task and
computes the task to hold from the store the route left.  A successful
`createNewReward` emits nothing and leaves the task as it is: it succeeds only
when no stored period has `weeksLeft >= 0`, where the task computed from the
store is the every-minute poll; run at a time at which the created period is
active or still to come, the poll finds it and emits `'assigned'`, and the
task computed then is the timer at the period's `endWeek` (when that is not
0). -/
theorem period_mutation_rearms (cfg : Config) (st : Scheduler) (now : ℚ) :
    (∀ id body,
      ((∃ r, (updateRewardRoute cfg st.store id body).reply = RewardReply.document 200 r) ∨
        (updateRewardRoute cfg st.store id body).reply = RewardReply.missing 200) →
      (updateRewardRoute cfg st.store id body).assigned = true ∧
      SchedulerEvent.run cfg st (SchedulerEvent.update id body now)
        = { store := (updateRewardRoute cfg st.store id body).store
            task := assignRewardJob (updateRewardRoute cfg st.store id body).store now }) ∧
    (∀ id, (deleteReward st.store id).reply = RewardReply.message 200 "OK" →
      (deleteReward st.store id).assigned = true ∧
      SchedulerEvent.run cfg st (SchedulerEvent.delete id now)
        = { store := (deleteReward st.store id).store
            task := assignRewardJob (deleteReward st.store id).store now }) ∧
    (∀ body newId r,
      (createNewReward cfg st.store body newId).reply = RewardReply.document 200 r →
      (createNewReward cfg st.store body newId).assigned = false ∧
      SchedulerEvent.run cfg st (SchedulerEvent.create body newId now)
        = { store := (createNewReward cfg st.store body newId).store, task := st.task } ∧
      (∀ t, assignRewardJob st.store t = RewardJob.poll) ∧
      (∀ t, (r.startDate ≤ t ∧ t ≤ r.endDate) ∨ (t < r.startDate ∧ t < r.endDate) →
        getCurrentRewardPeriod (createNewReward cfg st.store body newId).store t = some r ∧
        SchedulerEvent.run cfg
            { store := (createNewReward cfg st.store body newId).store, task := RewardJob.poll }
            (SchedulerEvent.poll t)
          = { store := (createNewReward cfg st.store body newId).store
              task := assignRewardJob (createNewReward cfg st.store body newId).store t } ∧
        (r.endWeek ≠ 0 →
          assignRewardJob (createNewReward cfg st.store body newId).store t
            = RewardJob.timer r.endWeek))) := by
  refine ⟨?_, ?_, ?_⟩
  · intro id body hok
    have ha : (updateRewardRoute cfg st.store id body).assigned = true := by
      cases hb : (updateRewardRoute cfg st.store id body).assigned with
      | true => rfl
      | false =>
        exfalso
        unfold updateRewardRoute at hb hok
        simp only [] at hb hok
        split_ifs at hb hok with h1 h2
        · rcases hok with ⟨r, hr⟩ | hr <;> cases hr
        · rcases hok with ⟨r, hr⟩ | hr <;> cases hr
        · split at hb <;> simp at hb
    refine ⟨ha, ?_⟩
    simp only [SchedulerEvent.run, afterRoute, ha, if_true, onAssigned]
  · intro id hok
    have ha : (deleteReward st.store id).assigned = true := by
      unfold deleteReward at hok ⊢
      split at hok
      · cases hok
      · rfl
    refine ⟨ha, ?_⟩
    simp only [SchedulerEvent.run, afterRoute, ha, if_true, onAssigned]
  · intro body newId r hok
    have ha := createNewReward_unassigned cfg st.store body newId
    obtain ⟨hv, hr, hstore⟩ := createNewReward_accepted hok
    have hold := createNewReward_accepted_old hok
    have hleft : 0 < r.weeksLeft := by
      rw [hr]
      show 0 < body.totalWeeks
      linarith [((validate_iff body).mp hv).1]
    have hidle : ∀ t, getCurrentRewardPeriod st.store t = none := fun t =>
      getCurrentRewardPeriod_none st.store t (fun a ha' => (hold a ha').le)
    refine ⟨ha, ?_, ?_, ?_⟩
    · simp only [SchedulerEvent.run, afterRoute, ha, Bool.false_eq_true, if_false]
    · intro t
      simp only [assignRewardJob, hidle t]
    · intro t hcur
      have hfound := getCurrentRewardPeriod_appended
        (createNewReward cfg st.store body newId).store st.store.rewards r t hstore
        (fun a ha' => (hold a ha').le) hleft hcur
      refine ⟨hfound, ?_, ?_⟩
      · simp only [SchedulerEvent.run, hfound, Option.isSome_some, if_true, onAssigned]
      · intro hne
        simp only [assignRewardJob, hfound, hne, ne_eq, not_false_eq_true, if_true]

/-- Witness of C24 as amended: the period created on the empty store from the
body `total = 1`, `totalWeeks = 3` runs from 0 to 1800; the poll at 60 finds it
and the task becomes the timer at its `endWeek`. -/
theorem period_mutation_rearms_witness :
    getCurrentRewardPeriod (createNewReward Config.default emptyStore thirdBody "r1").store 60
      = some (newPeriod Config.default thirdBody "r1") ∧
    assignRewardJob (createNewReward Config.default emptyStore thirdBody "r1").store 60
      = RewardJob.timer (newPeriod Config.default thirdBody "r1").endWeek := by
  have hreply : (createNewReward Config.default emptyStore thirdBody "r1").reply
      = RewardReply.document 200 (newPeriod Config.default thirdBody "r1") := by
    rw [createNewReward_empty Config.default thirdBody "r1"
      ((validate_iff thirdBody).mpr ⟨by norm_num [thirdBody], by norm_num [thirdBody]⟩)]
  have h := ((period_mutation_rearms Config.default
    { store := emptyStore, task := RewardJob.poll } 0).2.2 thirdBody "r1"
    (newPeriod Config.default thirdBody "r1") hreply).2.2.2 60
    (Or.inl ⟨by norm_num [newPeriod, thirdBody],
      by norm_num [newPeriod, thirdBody, Config.default]⟩)
  exact ⟨h.1, h.2.2 (by norm_num [newPeriod, thirdBody, Config.default])⟩

/-- C25: when `withdrawAIRO` finds no miner of the requester with the given id,
or the miner has no wallet, or no reward key is stored, it attempts no ledger
send, writes no Transaction and changes no miner (the store is as before and
there is no effect), and it answers 404 'Miner not exist', 400 'Wallet not
connected to miner' or 404 'Our wallet not available now, try later'
respectively. -/
theorem withdraw_precondition_failure (ledger : Ledger) (s : Store) (req : WithdrawRequest)
    (h : findMinerOfUser s req.id req.userId = none ∨
      (∃ m, findMinerOfUser s req.id req.userId = some m ∧ truthy m.wallet = false) ∨
      findRewardKey s = none) :
    (withdrawAIRO ledger s req).store = s ∧
    (withdrawAIRO ledger s req).effects = [] ∧
    (findMinerOfUser s req.id req.userId = none →
      (withdrawAIRO ledger s req).response = Response.json 404 "Miner not exist") ∧
    (∀ m, findMinerOfUser s req.id req.userId = some m → truthy m.wallet = false →
      (withdrawAIRO ledger s req).response = Response.json 400 "Wallet not connected to miner") ∧
    (∀ m, findMinerOfUser s req.id req.userId = some m → truthy m.wallet = true →
      findRewardKey s = none →
      (withdrawAIRO ledger s req).response
        = Response.json 404 "Our wallet not available now, try later") ∧
    (∃ status message, (withdrawAIRO ledger s req).response = Response.json status message ∧
      400 ≤ status ∧ message ≠ "") := by
  have h1 : findMinerOfUser s req.id req.userId = none →
      withdrawAIRO ledger s req
        = { store := s, response := Response.json 404 "Miner not exist", effects := [] } := by
    intro hn
    simp [withdrawAIRO, withdrawPrepare, hn]
  have h2 : ∀ m, findMinerOfUser s req.id req.userId = some m → truthy m.wallet = false →
      withdrawAIRO ledger s req
        = { store := s, response := Response.json 400 "Wallet not connected to miner",
            effects := [] } := by
    intro m hm hw
    simp [withdrawAIRO, withdrawPrepare, hm, hw]
  have h3 : ∀ m, findMinerOfUser s req.id req.userId = some m → truthy m.wallet = true →
      findRewardKey s = none →
      withdrawAIRO ledger s req
        = { store := s, response := Response.json 404 "Our wallet not available now, try later",
            effects := [] } := by
    intro m hm hw hk
    simp [withdrawAIRO, withdrawPrepare, hm, hw, hk]
  have hcases : withdrawAIRO ledger s req
        = { store := s, response := Response.json 404 "Miner not exist", effects := [] } ∨
      withdrawAIRO ledger s req
        = { store := s, response := Response.json 400 "Wallet not connected to miner",
            effects := [] } ∨
      withdrawAIRO ledger s req
        = { store := s, response := Response.json 404 "Our wallet not available now, try later",
            effects := [] } := by
    rcases h with hn | ⟨m, hm, hw⟩ | hk
    · exact Or.inl (h1 hn)
    · exact Or.inr (Or.inl (h2 m hm hw))
    · cases hm : findMinerOfUser s req.id req.userId with
      | none => exact Or.inl (h1 hm)
      | some m =>
        cases hw : truthy m.wallet with
        | false => exact Or.inr (Or.inl (h2 m hm hw))
        | true => exact Or.inr (Or.inr (h3 m hm hw hk))
  refine ⟨?_, ?_, fun hn => by rw [h1 hn], fun m hm hw => by rw [h2 m hm hw],
    fun m hm hw hk => by rw [h3 m hm hw hk], ?_⟩
  · rcases hcases with e | e | e <;> rw [e]
  · rcases hcases with e | e | e <;> rw [e]
  · rcases hcases with e | e | e
    · exact ⟨404, "Miner not exist", by rw [e], by norm_num, by decide⟩
    · exact ⟨400, "Wallet not connected to miner", by rw [e], by norm_num, by decide⟩
    · exact ⟨404, "Our wallet not available now, try later", by rw [e], by norm_num, by decide⟩

/-- Witness of C25: `exStore` holds no miner `nobody`. -/
theorem withdraw_precondition_failure_witness :
    (withdrawAIRO okLedger exStore strangerWithdraw).store = exStore ∧
    (withdrawAIRO okLedger exStore strangerWithdraw).effects = [] :=
  ⟨(withdraw_precondition_failure okLedger exStore strangerWithdraw
      (Or.inl (by simp [findMinerOfUser, Store.minerById, exStore, exMiner,
        strangerWithdraw]))).1,
   (withdraw_precondition_failure okLedger exStore strangerWithdraw
      (Or.inl (by simp [findMinerOfUser, Store.minerById, exStore, exMiner,
        strangerWithdraw]))).2.1⟩

theorem sendTransfer_ignores_post (w : SendWorld) (b : Bool) :
    sendTransfer { w with postAccepted := b } = sendTransfer w := by
  unfold sendTransfer
  simp only []
  split_ifs
  · rfl
  · rfl
  · cases sendTransaction { w with postAccepted := b } <;> cases sendTransaction w <;> rfl

/-- C26, the divergence: the value of `multiversxSend` does not depend on
whether the POST of the signed transaction is accepted; in `refusedWorld` the
POST fails, `sendTransaction` yields `undefined`, and `multiversxSend` still
answers `Ok`, so that `withdrawAIRO` answers 200, records a success
Transaction and sets the balance of the miner from 100 to 50. -/
theorem multiversxSend_ignores_post :
    (∀ w amount b, multiversxSend { w with postAccepted := b } amount = multiversxSend w amount) ∧
    sendTransaction refusedWorld = none ∧
    multiversxSend refusedWorld 50 = SendResult.ok ∧
    (withdrawAIRO (worldLedger refusedWorld) bankStore raceWithdraw).response
      = Response.json 200 "OK" ∧
    (∃ t, (withdrawAIRO (worldLedger refusedWorld) bankStore raceWithdraw).store.transactions
        = [t] ∧ t.type = "WITHDRAW" ∧ t.status = "success" ∧ t.value = 50) ∧
    ((withdrawAIRO (worldLedger refusedWorld) bankStore raceWithdraw).store.minerById "m1").map
      Miner.currentAIRO = some 50 := by
  have hsend : multiversxSend refusedWorld 50 = SendResult.ok := by
    norm_num [multiversxSend, sendTransfer, sendTransaction, refusedWorld]
  have hprep := @withdrawAIRO_of_prepare (worldLedger refusedWorld) bankStore raceWithdraw
    bankMiner exKey bankStore_miner rfl rfl bankStore_key
  obtain ⟨hstore, _, hresp⟩ := withdrawCritical_sent (worldLedger refusedWorld) bankStore
    raceWithdraw { currentMiner := bankMiner, withdrawNum := raceWithdraw.withdraw, from_ := exKey }
    50 rfl (by norm_num) (by norm_num [bankMiner]) hsend
  refine ⟨?_, by simp [sendTransaction, refusedWorld], hsend, ?_, ?_, ?_⟩
  · intro w amount b
    unfold multiversxSend
    rw [sendTransfer_ignores_post]
  · rw [hprep, hresp]
    simp [bankStore_miner, raceWithdraw]
  · rw [hprep, hstore]
    refine ⟨withdrawRecord raceWithdraw
      { currentMiner := bankMiner, withdrawNum := raceWithdraw.withdraw, from_ := exKey }
      "success" none, ?_, rfl, rfl, ?_⟩
    · simp [setMinerFields, createTransaction, bankStore]
    · simp [withdrawRecord, raceWithdraw, JSNumber.toRat]
  · rw [hprep, hstore]
    have hx := minerById_setMinerFields_same
      (createTransaction bankStore (withdrawRecord raceWithdraw
        { currentMiner := bankMiner, withdrawNum := raceWithdraw.withdraw, from_ := exKey }
        "success" none)) "m1"
      (fun m => { m with currentAIRO := bankMiner.currentAIRO - 50 }) (fun _ => rfl)
    have hm : (createTransaction bankStore (withdrawRecord raceWithdraw
        { currentMiner := bankMiner, withdrawNum := raceWithdraw.withdraw, from_ := exKey }
        "success" none)).minerById "m1" = some bankMiner := bankStore_miner
    rw [hm] at hx
    have hid : raceWithdraw.id = "m1" := rfl
    rw [hid, hx]
    norm_num [bankMiner]

/-- C28, the divergence: in `spentStore` a period is active and the candidate
list holds `m1`, but no candidate is eligible; the guard tests the length of
the candidate list, the division is by the number of eligible candidates, and
the `weeklyReward` returned is `NaN`, neither finite nor 0. -/
theorem findUptimeAndWeeklyReward_nan :
    findActiveReward spentStore 600 = some exPeriod ∧
    getTotalMiners Config.default 600 spentStore (some exPeriod.startWeek) = ["m1"] ∧
    countActiveMiners spentStore ["m1"] = 0 ∧
    findUptimeAndWeeklyReward Config.default 600 spentStore "u1"
      = some { uptime := 0, weeklyReward := JSNumber.nan } ∧
    JSNumber.nan.isFinite = false := by
  have hactive : findActiveReward spentStore 600 = some exPeriod := by
    norm_num [findActiveReward, spentStore, exPeriod]
  have hcand : getTotalMiners Config.default 600 spentStore (some exPeriod.startWeek) = ["m1"] := by
    simp [getTotalMiners, spentStore, exMetric, exPeriod, Config.default, uniq]
  have hnone : findEligibleMiner spentStore "m1" = none := by
    simp [findEligibleMiner, Store.minerById, spentStore, spentMiner, Option.filter,
      Miner.eligible]
  have hcount : countActiveMiners spentStore ["m1"] = 0 := by
    simp [countActiveMiners, hnone]
  have huser : findEligibleMinerOfUser spentStore "m1" "u1" = none := by
    simp [findEligibleMinerOfUser, Store.minerById, spentStore, spentMiner, Option.filter,
      Miner.eligible]
  refine ⟨hactive, hcand, hcount, ?_, rfl⟩
  simp only [findUptimeAndWeeklyReward, hactive, hcand, hcount]
  simp [huser, JSNumber.divCount, JSNumber.mulCount, fixedNumber, exPeriod]

/-- C29, the divergence: the nedb `createMiner` keeps the `serialId` of the
caller and assigns the fresh identifier as `_id`, whereas the mongodb
`createMiner` writes the fresh identifier into `serialId` and assigns no `_id`;
the miner built for device `dev-1` is found by its `serialId` in the first
case and is not in the second. -/
theorem createMiner_backends_differ :
    (∀ data uuid, (nedb.createMiner data uuid).serialId = data.serialId ∧
      (nedb.createMiner data uuid)._id = some uuid) ∧
    (∀ data uuid, (mongodb.createMiner data uuid).serialId = some uuid ∧
      (mongodb.createMiner data uuid)._id = data._id) ∧
    findBySerialId [nedb.createMiner deviceData "uuid-1"] "dev-1"
      = some (nedb.createMiner deviceData "uuid-1") ∧
    (mongodb.createMiner deviceData "uuid-1").serialId = some "uuid-1" ∧
    (mongodb.createMiner deviceData "uuid-1")._id = none ∧
    findBySerialId [mongodb.createMiner deviceData "uuid-1"] "dev-1" = none := by
  refine ⟨fun _ _ => ⟨rfl, rfl⟩, fun _ _ => ⟨rfl, rfl⟩, ?_, rfl, rfl, ?_⟩
  · simp [findBySerialId, nedb.createMiner, deviceData]
  · simp [findBySerialId, mongodb.createMiner, deviceData]

theorem padMetrics_full (fuel : ℕ) (metrics : List MetricEntry) (i : ℕ)
    (h : ¬ metrics.length < 3) : padMetrics fuel metrics i = some metrics := by
  unfold padMetrics
  simp only [h, if_false]

theorem padMetrics_succ (fuel : ℕ) :
    ∀ (metrics : List MetricEntry) (i : ℕ) (r : List MetricEntry),
      padMetrics fuel metrics i = some r → padMetrics (fuel + 1) metrics i = some r := by
  induction fuel with
  | zero =>
    intro metrics i r h
    unfold padMetrics at h
    split_ifs at h with hlen
    rw [padMetrics_full _ _ _ hlen]
    exact h
  | succ n ih =>
    intro metrics i r h
    rw [padMetrics] at h
    rw [padMetrics]
    split_ifs at h with hlen hc
    · simp only [hlen, if_true, hc]
      exact ih _ _ _ h
    · simp only [hlen, if_true, hc]
      exact ih _ _ _ h
    · simp only [hlen, if_false]
      exact h

theorem padMetrics_fuel (k fuel : ℕ) (metrics : List MetricEntry) (i : ℕ)
    (r : List MetricEntry) (h : padMetrics fuel metrics i = some r) :
    padMetrics (fuel + k) metrics i = some r := by
  induction k with
  | zero => exact h
  | succ k ih => exact padMetrics_succ _ _ _ _ ih

theorem padMetrics_spec (l : List MetricEntry) (hl : l.length ≤ 3) :
    ∃ pad, padMetrics 3 l 0 = some (l ++ pad) ∧ pad.Sublist defaultMetrics ∧
      (∀ d ∈ pad, d ∉ l) ∧ (l ++ pad).length = 3 := by
  match l, hl with
  | [], _ =>
    exact ⟨defaultMetrics, by simp [padMetrics, defaultMetricAt, defaultMetrics],
      List.Sublist.refl _, by simp, rfl⟩
  | [a], _ =>
    by_cases h0 : a = MetricEntry.str "aqi"
    · subst h0
      exact ⟨[MetricEntry.str "co2", MetricEntry.str "co"],
        by simp [padMetrics, defaultMetricAt, defaultMetrics],
        by simp [defaultMetrics], by simp, rfl⟩
    · by_cases h1 : a = MetricEntry.str "co2"
      · subst h1
        exact ⟨[MetricEntry.str "aqi", MetricEntry.str "co"],
          by simp [padMetrics, defaultMetricAt, defaultMetrics],
          by simp [defaultMetrics], by simp, rfl⟩
      · exact ⟨[MetricEntry.str "aqi", MetricEntry.str "co2"],
          by simp [padMetrics, defaultMetricAt, defaultMetrics, Ne.symm h0, Ne.symm h1],
          by simp [defaultMetrics], by simp [Ne.symm h0, Ne.symm h1], rfl⟩
  | [a, b], _ =>
    by_cases h0 : MetricEntry.str "aqi" ∈ [a, b]
    · by_cases h1 : MetricEntry.str "co2" ∈ [a, b]
      · have h2 : MetricEntry.str "co" ∉ [a, b] := by
          simp only [List.mem_cons, List.mem_singleton, List.not_mem_nil, or_false] at h0 h1 ⊢
          rcases h0 with h0 | h0 <;> rcases h1 with h1 | h1 <;> subst_vars <;> simp_all
        exact ⟨[MetricEntry.str "co"],
          by simp [padMetrics, defaultMetricAt, defaultMetrics, h0, h1, h2],
          by simp [defaultMetrics], by simpa using h2, rfl⟩
      · exact ⟨[MetricEntry.str "co2"],
          by simp [padMetrics, defaultMetricAt, defaultMetrics, h0, h1],
          by simp [defaultMetrics], by simpa using h1, rfl⟩
    · exact ⟨[MetricEntry.str "aqi"],
        by simp [padMetrics, defaultMetricAt, defaultMetrics, h0],
        by simp [defaultMetrics], by simpa using h0, rfl⟩
  | [a, b, c], _ =>
    exact ⟨[], by simp [padMetrics], by simp, by simp, rfl⟩
  | _ :: _ :: _ :: _ :: _, h => simp at h

/-- C30: for every request body the normalisation of `updateMetricSettings`
ends within three iterations of its loop and yields exactly three metrics: a
body whose `metrics` is not an array gives the defaults, an array of more than
three entries gives its first three, and an array of at most three entries is
kept in order as a prefix and padded with defaults, in their order, that it
does not contain. -/
theorem normalisedMetrics_spec (body : Option (List MetricEntry)) :
    ∃ result,
      (∀ fuel, 3 ≤ fuel → normalisedMetrics fuel body = some result) ∧
      result.length = 3 ∧
      (body = none → result = defaultMetrics) ∧
      (∀ l, body = some l → 3 < l.length → result = l.take 3) ∧
      (∀ l, body = some l → l.length ≤ 3 →
        ∃ pad, result = l ++ pad ∧ pad.Sublist defaultMetrics ∧ ∀ d ∈ pad, d ∉ l) := by
  cases body with
  | none =>
    refine ⟨defaultMetrics, ?_, rfl, fun _ => rfl, ?_, ?_⟩
    · intro fuel _
      simp only [normalisedMetrics]
      have hlen : defaultMetrics.length = 3 := rfl
      simp only [hlen, gt_iff_lt, lt_irrefl, if_false]
      exact padMetrics_full _ _ _ (by simp [hlen])
    · intro l h
      cases h
    · intro l h
      cases h
  | some l =>
    by_cases hlong : 3 < l.length
    · have hlen : (l.take 3).length = 3 := by
        rw [List.length_take]
        omega
      refine ⟨l.take 3, ?_, hlen, ?_, ?_, ?_⟩
      · intro fuel _
        simp only [normalisedMetrics, gt_iff_lt, hlong, if_true]
        exact padMetrics_full _ _ _ (by omega)
      · intro h
        cases h
      · intro l2 h _
        cases h
        rfl
      · intro l2 h h3
        cases h
        omega
    · have hshort : l.length ≤ 3 := by omega
      obtain ⟨pad, hpad, hsub, hnew, hlen⟩ := padMetrics_spec l hshort
      refine ⟨l ++ pad, ?_, hlen, ?_, ?_, ?_⟩
      · intro fuel hfuel
        simp only [normalisedMetrics, gt_iff_lt, hlong, if_false]
        obtain ⟨k, rfl⟩ : ∃ k, fuel = 3 + k := ⟨fuel - 3, by omega⟩
        exact padMetrics_fuel k 3 l 0 _ hpad
      · intro h
        cases h
      · intro l2 h h3
        cases h
        exact absurd h3 hlong
      · intro l2 h _
        cases h
        exact ⟨pad, rfl, hsub, hnew⟩

/-- Witness of C30: the array `['co2']` is padded to three metrics. -/
theorem normalisedMetrics_spec_witness :
    ∃ result, normalisedMetrics 3 (some [MetricEntry.str "co2"]) = some result ∧
      result.length = 3 :=
  (normalisedMetrics_spec (some [MetricEntry.str "co2"])).imp
    (fun _ h => ⟨h.1 3 (le_refl 3), h.2.1⟩)

end Airo
